import Mathlib

/-!
# Campaign dispatch engine of `mailing` (internal/mailing/mailing.go)

A shallow embedding of `MailingService.StartFetchingMailings` and
`MailingService.mail`, of the query built by `Postgres.GetClientsForMailing`
(internal/mailing/storage/postgres/postgres.go) and of the handler
`HTTPController.sendMessage` (internal/controllers/http-controller).

* The Store and the Transport are external collaborators.  Their answers are
  supplied by a `World`: one answer per call site and per dispatcher, so every
  pattern of successes and failures is a `World`.
* Every call to a collaborator is recorded, in order, in a trace of `Event`s.
* The dispatcher goroutines of one campaign run share the variable `err`
  declared once in `mail` (line 81) and the counter `fails` (line 93).  A
  dispatcher is therefore a small state machine (`PC`) whose steps read and
  write a `Shared` state, and a run takes a schedule: the order in which the
  goroutines take their steps.
* Times are instants on an integer axis; Go `int` counters are integers (the
  counters are bounded by the number of recipients, far below `2^63`).
-/

namespace MailingService

/-! ## Data model (internal/models) -/

/-- Campaign status, `models.MailingStatus`. -/
inductive MailingStatus where
  | Pending
  | Executing
  | Done
  | Canceled
  | Failed
  | Invalid
  | NotAMailing
  deriving DecidableEq

/-- Message status, `models.SendStatus`. -/
inductive SendStatus where
  | Pending
  | Success
  | Failed
  deriving DecidableEq

/-- Recipient, `models.Client`. -/
structure Client where
  ID : Int
  PhoneNumber : Int
  PhoneOperator : Int
  Tag : String
  Timezone : String
  deriving DecidableEq

/-- Recipient filter of a campaign, `models.Filter` (the fields read by the Store). -/
structure Filter where
  PhoneOperator : Int
  Tag : String
  Timezone : String
  deriving DecidableEq

/-- Campaign, `models.Mailing`.  `Filter` is a pointer in the source, `none` is nil. -/
structure Mailing where
  ID : Nat
  Text : String
  Filter : Option Filter
  StartTime : Int
  EndTime : Int
  Status : MailingStatus
  deriving DecidableEq

/-- Statistics record of one campaign run, `models.MailingStats`. -/
structure MailingStats where
  ID : Nat
  Matches : Int
  Sent : Int
  Fails : Int
  StartTime : Int
  TimeExecuting : Int
  deriving DecidableEq

/-- A non-nil Go `error`: raised by a collaborator, or wrapped by `errors.Wrap`. -/
inductive GoError where
  | raised (code : Nat)
  | wrapped (cause : GoError) (msg : String)
  deriving DecidableEq

/-- The function `errors.Wrap`: nil stays nil, a non-nil error is wrapped. -/
def errorsWrap (err : Option GoError) (msg : String) : Option GoError :=
  err.map (fun e => GoError.wrapped e msg)

/-- Modelled from the spec: the constant `_sendRetry` is used by `mail` but declared
in a file that is not part of the sources; the spec gives the number of tries as 3. -/
def defaultSendRetry : Nat := 3

/-! ## Collaborators and the trace of their calls -/

/-- One call to the Store, to the Transport, or to `time.Sleep`.  Calls made by a
dispatcher goroutine carry the loop index `count` of the recipient it was
launched for (`task`), so that a call can be attributed to its dispatcher. -/
inductive Event where
  | GetPendingMailings
  | MarkMailing (mailingID : Nat) (status : MailingStatus)
  | GetClientsForMailing (mailingID : Nat)
  | SaveMessage (task : Nat) (mailingID : Nat) (clientID : Int)
  | Send (task : Nat) (msgID : Int) (clientPhone : Int) (text : String)
  | Sleep (task : Nat) (seconds : Nat)
  | MarkMessage (task : Nat) (msgID : Int) (status : SendStatus)
  | SaveStats (stats : MailingStats)
  deriving DecidableEq

/-- Answers of the collaborators during one run of `mail`.
`ctxDone count` tells whether `<-ctx.Done()` is ready when the loop reaches the
recipient with index `count`; `saveMessage`, `send` and `markMessage` are indexed
by the dispatcher (and `send` by the value of `try`). -/
structure World where
  sendRetry : Nat
  markMailing : MailingStatus → Option GoError
  getClientsForMailing : Except GoError (List Client)
  ctxDone : Nat → Bool
  ctxErr : GoError
  saveMessage : Nat → Int × Option GoError
  send : Nat → Nat → Option GoError
  markMessage : Nat → SendStatus → Option GoError
  saveStats : MailingStats → Option GoError
  start : Int
  since : Int

/-! ## The recipient dispatcher goroutine (mailing.go lines 119-156) -/

/-- Program points of a dispatcher goroutine, named by what it does next. -/
inductive PC where
  | save
  | checkSave
  | send (attempt : Nat)
  | checkSend (attempt : Nat)
  | final
  | markFailed
  | markSuccess
  | done
  deriving DecidableEq

/-- A dispatcher goroutine: its own variables `client`, `msg.ID` and its program point. -/
structure Task where
  idx : Nat
  client : Client
  msgID : Int
  pc : PC
  deriving DecidableEq

/-- What the goroutines of one run share: `err` and `fails` of `mail`, and the trace. -/
structure Shared where
  err : Option GoError
  fails : Int
  trace : List Event
  deriving DecidableEq

/-- The goroutine as launched at line 119; `newMessage` leaves `msg.ID` zero. -/
def newTask (count : Nat) (client : Client) : Task :=
  { idx := count, client := client, msgID := 0, pc := PC.save }

/-- Head of `for try := 0; try < _sendRetry; try++` (line 131). -/
def loopHead (w : World) (attempt : Nat) : PC :=
  if attempt < w.sendRetry then PC.send attempt else PC.final

/-- One step of a dispatcher goroutine.  A step is one write of, or one test of,
the shared `err`, with the goroutine-local work that follows it:
* `save` (line 122): `msg.ID, err = SaveMessage(...)`;
* `checkSave` (lines 123-130): `if err != nil`, then `fails++` and `return`;
* `send try` (line 132): `err = Send(...)`;
* `checkSend try` (lines 133-138): `if err != nil`, then `time.Sleep` and `continue`,
  else `break`;
* `final` (lines 140-145): `if err != nil`, then `fails++`;
* `markFailed` (line 146), `markSuccess` (line 152): `err = MarkMessage(...)`. -/
def step (w : World) (mailing : Mailing) (t : Task) (s : Shared) : Task × Shared :=
  match t.pc with
  | PC.save =>
      ({ t with msgID := (w.saveMessage t.idx).1, pc := PC.checkSave },
       { s with err := (w.saveMessage t.idx).2,
                trace := s.trace ++ [Event.SaveMessage t.idx mailing.ID t.client.ID] })
  | PC.checkSave =>
      if s.err.isSome then
        ({ t with pc := PC.done }, { s with fails := s.fails + 1 })
      else
        ({ t with pc := loopHead w 0 }, s)
  | PC.send a =>
      ({ t with pc := PC.checkSend a },
       { s with err := w.send t.idx a,
                trace := s.trace ++ [Event.Send t.idx t.msgID t.client.PhoneNumber mailing.Text] })
  | PC.checkSend a =>
      if s.err.isSome then
        ({ t with pc := loopHead w (a + 1) },
         { s with trace := s.trace ++ [Event.Sleep t.idx 1] })
      else
        ({ t with pc := PC.final }, s)
  | PC.final =>
      if s.err.isSome then
        ({ t with pc := PC.markFailed }, { s with fails := s.fails + 1 })
      else
        ({ t with pc := PC.markSuccess }, s)
  | PC.markFailed =>
      ({ t with pc := PC.done },
       { s with err := w.markMessage t.idx SendStatus.Failed,
                trace := s.trace ++ [Event.MarkMessage t.idx t.msgID SendStatus.Failed] })
  | PC.markSuccess =>
      ({ t with pc := PC.done },
       { s with err := w.markMessage t.idx SendStatus.Success,
                trace := s.trace ++ [Event.MarkMessage t.idx t.msgID SendStatus.Success] })
  | PC.done => (t, s)

/-- A goroutine taking `fuel` steps in a row, no other goroutine in between. -/
def runTask (w : World) (mailing : Mailing) : Nat → Task → Shared → Task × Shared
  | 0, t, s => (t, s)
  | fuel + 1, t, s => runTask w mailing fuel (step w mailing t s).1 (step w mailing t s).2

/-- Number of steps a goroutine takes from `save` to `done` at most. -/
def taskFuel (w : World) : Nat := 2 * w.sendRetry + 4

/-- The goroutine at position `i` of the launched ones takes one step. -/
def stepAt (w : World) (mailing : Mailing) : Nat → List Task → Shared → List Task × Shared
  | _, [], s => ([], s)
  | 0, t :: ts, s => ((step w mailing t s).1 :: ts, (step w mailing t s).2)
  | i + 1, t :: ts, s => (t :: (stepAt w mailing i ts s).1, (stepAt w mailing i ts s).2)

/-- The goroutines take their steps in the order given by the schedule. -/
def runSched (w : World) (mailing : Mailing) : List Nat → List Task → Shared → List Task × Shared
  | [], ts, s => (ts, s)
  | i :: sched, ts, s =>
      runSched w mailing sched (stepAt w mailing i ts s).1 (stepAt w mailing i ts s).2

/-- Every goroutine that is not at its end yet runs to its end, one after the other. -/
def drain (w : World) (mailing : Mailing) : List Task → Shared → List Task × Shared
  | [], s => ([], s)
  | t :: ts, s =>
      ((runTask w mailing (taskFuel w) t s).1 ::
         (drain w mailing ts (runTask w mailing (taskFuel w) t s).2).1,
       (drain w mailing ts (runTask w mailing (taskFuel w) t s).2).2)

/-- The call `wg.Wait()`: the launched goroutines interleave as the schedule says,
and what the schedule leaves unfinished is run to its end, so that `wg.Wait()`
returns with every goroutine at `done`. -/
def wgWait (w : World) (mailing : Mailing) (sched : List Nat) (ts : List Task) (s : Shared) :
    List Task × Shared :=
  drain w mailing (runSched w mailing sched ts s).1 (runSched w mailing sched ts s).2

/-! ## The campaign executor `mail` (mailing.go lines 79-176) -/

/-- The loop `for count, client := range clients` (lines 96-158) up to the launches:
returns the goroutines launched and, when `<-ctx.Done()` was ready at some
recipient, the value of `count` there. -/
def launch (w : World) : List Client → Nat → List Task → List Task × Option Nat
  | [], _, acc => (acc, none)
  | c :: cs, count, acc =>
      if w.ctxDone count then (acc, some count)
      else launch w cs (count + 1) (acc ++ [newTask count c])

/-- Outcome of one run: the returned error, the calls made, the goroutines
launched (in their last state) and the last value of `fails`. -/
structure RunResult where
  ret : Option GoError
  trace : List Event
  tasks : List Task
  fails : Int
  deriving DecidableEq

/-- The stats record built at lines 105-112 and 164-171. -/
def mkStats (w : World) (mailing : Mailing) (fails sent matched : Int) : MailingStats :=
  { ID := mailing.ID, Fails := fails, StartTime := w.start, TimeExecuting := w.since,
    Sent := sent, Matches := matched }

/-- The function `MailingService.mail`.  The errors of the `Failed`, `Canceled` and
`Done` writes and of `SaveStats` are only logged (lines 88-90, 102-104, 113-115,
161-163, 172-174): the answers of the world to those calls do not influence the run,
so only the calls themselves appear, in the trace. -/
def mail (w : World) (mailing : Mailing) (sched : List Nat) : RunResult :=
  match w.markMailing MailingStatus.Executing with
  | some e =>
      { ret := errorsWrap (some e) "mark mailing status as executing",
        trace := [Event.MarkMailing mailing.ID MailingStatus.Executing],
        tasks := [], fails := 0 }
  | none =>
      match w.getClientsForMailing with
      | Except.error e =>
          { ret := errorsWrap (some e) "get clients for mailing",
            trace := [Event.MarkMailing mailing.ID MailingStatus.Executing,
                      Event.GetClientsForMailing mailing.ID,
                      Event.MarkMailing mailing.ID MailingStatus.Failed],
            tasks := [], fails := 0 }
      | Except.ok clients =>
          let launched := launch w clients 0 []
          let waited := wgWait w mailing sched launched.1
            { err := none, fails := 0,
              trace := [Event.MarkMailing mailing.ID MailingStatus.Executing,
                        Event.GetClientsForMailing mailing.ID] }
          match launched.2 with
          | some count =>
              { ret := some w.ctxErr,
                trace := waited.2.trace ++
                  [Event.MarkMailing mailing.ID MailingStatus.Canceled,
                   Event.SaveStats (mkStats w mailing waited.2.fails (count + 1) clients.length)],
                tasks := waited.1, fails := waited.2.fails }
          | none =>
              { ret := none,
                trace := waited.2.trace ++
                  [Event.MarkMailing mailing.ID MailingStatus.Done,
                   Event.SaveStats (mkStats w mailing waited.2.fails clients.length clients.length)],
                tasks := waited.1, fails := waited.2.fails }

/-! ## The scheduler loop `StartFetchingMailings` (mailing.go lines 32-76) -/

/-- The method `time.Time.Compare`: -1, 0 or +1. -/
def timeCompare (t u : Int) : Int :=
  if t < u then -1 else if u < t then 1 else 0

/-- The method `time.Time.After`: `t.After(u)` reports whether `t` is after `u`. -/
def timeAfter (t u : Int) : Bool := decide (u < t)

/-- The goroutine launched per campaign at line 52: the expiry test of line 54
with `now` the value of `time.Now()` there, then `mail`. -/
def executorRun (w : World) (now : Int) (mailing : Mailing) (sched : List Nat) : RunResult :=
  if timeAfter now mailing.EndTime then
    { ret := none, trace := [Event.MarkMailing mailing.ID MailingStatus.Invalid],
      tasks := [], fails := 0 }
  else mail w mailing sched

/-- The loop `for _, mailing := range mailings` of one tick (lines 48-73):
the campaigns for which an executor goroutine is launched, each with its
position in the query result.  `nowAt i` is `time.Now().UTC()` at position `i`. -/
def tickLoop (nowAt : Nat → Int) : List Mailing → Nat → List (Nat × Mailing)
  | [], _ => []
  | m :: ms, i =>
      if timeCompare m.StartTime (nowAt i) ≤ 0 then (i, m) :: tickLoop nowAt ms (i + 1)
      else tickLoop nowAt ms (i + 1)

/-- One tick (lines 42-73): the Store calls of the loop itself and the executor
runs it launches.  A failed query launches nothing (`continue`, line 46). -/
def tick (pending : Except GoError (List Mailing)) (nowAt : Nat → Int) :
    List Event × List (Nat × Mailing) :=
  match pending with
  | Except.error _ => ([Event.GetPendingMailings], [])
  | Except.ok mailings => ([Event.GetPendingMailings], tickLoop nowAt mailings 0)

/-! ## Vocabulary of the statements -/

/-- The dispatcher a call belongs to; `none` for the calls of `mail` itself and of
the scheduler loop. -/
def Event.byTask : Event → Option Nat
  | Event.SaveMessage i _ _ => some i
  | Event.Send i _ _ _ => some i
  | Event.Sleep i _ => some i
  | Event.MarkMessage i _ _ => some i
  | _ => none

/-- Is the call a `SaveStats`? -/
def Event.isSaveStats : Event → Bool
  | Event.SaveStats _ => true
  | _ => false

/-- Is the call a `SaveMessage`? -/
def Event.isSaveMessage : Event → Bool
  | Event.SaveMessage _ _ _ => true
  | _ => false

/-- Is the call a `Send` of the Transport? -/
def Event.isSend : Event → Bool
  | Event.Send _ _ _ _ => true
  | _ => false

/-- Is the call a `MarkMessage`? -/
def Event.isMarkMessage : Event → Bool
  | Event.MarkMessage _ _ _ => true
  | _ => false

/-- Is the call a `GetClientsForMailing`? -/
def Event.isGetClients : Event → Bool
  | Event.GetClientsForMailing _ => true
  | _ => false

/-- Is the call a `Send` made by dispatcher `i`? -/
def Event.isSendOf (i : Nat) : Event → Bool
  | Event.Send j _ _ _ => decide (j = i)
  | _ => false

/-- Is the call a `MarkMessage` made by dispatcher `i`? -/
def Event.isMarkMessageOf (i : Nat) : Event → Bool
  | Event.MarkMessage j _ _ => decide (j = i)
  | _ => false

/-- Every Transport attempt `0 .. sendRetry-1` of dispatcher `i` fails. -/
def allSendsFail (w : World) (i : Nat) : Bool :=
  (List.range w.sendRetry).all (fun a => (w.send i a).isSome)

/-- Position (from 0) of the first successful Transport attempt of dispatcher `i`
among the first `sendRetry` ones. -/
def firstSuccess (w : World) (i : Nat) : Option Nat :=
  (List.range w.sendRetry).find? (fun a => (w.send i a).isNone)

/-- The dispatch of recipient `i` ultimately failed: message creation failed, or
every Transport attempt failed. -/
def dispatchFailed (w : World) (i : Nat) : Bool :=
  (w.saveMessage i).2.isSome || allSendsFail w i

/-- Number of recipients among the first `m` whose dispatch ultimately failed. -/
def failedCount (w : World) (m : Nat) : Nat :=
  ((List.range m).filter (dispatchFailed w)).length

/-- The goroutines launched for the recipients `cs`, the first with index `count`. -/
def tasksFrom : Nat → List Client → List Task
  | _, [] => []
  | count, c :: cs => newTask count c :: tasksFrom (count + 1) cs

/-- Upper bound on the steps a goroutine at this program point still takes. -/
def PC.left (n : Nat) : PC → Nat
  | PC.save => 2 * n + 4
  | PC.checkSave => 2 * n + 3
  | PC.send a => 2 * (n - 1 - a) + 4
  | PC.checkSend a => 2 * (n - 1 - a) + 3
  | PC.final => 2
  | PC.markFailed => 1
  | PC.markSuccess => 1
  | PC.done => 0

/-- The recipient a goroutine was launched for: loop index and client. -/
def Task.who (t : Task) : Nat × Client := (t.idx, t.client)

/-- The trace of `s2` is the trace of `s1` followed by calls of dispatchers in `I`. -/
def TraceGrows (I : List Nat) (s1 s2 : Shared) : Prop :=
  ∃ evs, s2.trace = s1.trace ++ evs ∧ ∀ e ∈ evs, ∃ i ∈ I, e.byTask = some i

/-- Status written at lines 140-152 when `err` has the value `e` after the loop. -/
def finalStatus (e : Option GoError) : SendStatus :=
  if e.isSome then SendStatus.Failed else SendStatus.Success

/-- Increment of `fails` at lines 140-145 when `err` has the value `e` after the loop. -/
def failBump (e : Option GoError) : Int :=
  if e.isSome then 1 else 0

/-- Value of `err` when a dispatcher running alone leaves the retry loop, entered at
`try = a` with `k` iterations left and `err = e`. -/
def loopErr (w : World) (i : Nat) : Nat → Nat → Option GoError → Option GoError
  | 0, _, e => e
  | k + 1, a, _ => if (w.send i a).isSome then loopErr w i k (a + 1) (w.send i a) else none

/-- Calls made in the retry loop by a dispatcher running alone, entered at `try = a`
with `k` iterations left. -/
def loopEvents (w : World) (mailing : Mailing) (i : Nat) (msgID phone : Int) :
    Nat → Nat → List Event
  | 0, _ => []
  | k + 1, a =>
      Event.Send i msgID phone mailing.Text ::
        (if (w.send i a).isSome then
          Event.Sleep i 1 :: loopEvents w mailing i msgID phone k (a + 1)
        else [])

/-- Bound on the `Send` calls a dispatcher has made (`cnt`) when it is at program
point `pc`, with retry limit `n`; a dispatcher inside the loop has `try < n`. -/
def SendInv (n cnt : Nat) : PC → Prop
  | PC.save => cnt = 0
  | PC.checkSave => cnt = 0
  | PC.send a => a < n ∧ cnt ≤ a
  | PC.checkSend a => a < n ∧ cnt ≤ a + 1
  | _ => cnt ≤ n

/-- Every launched dispatcher satisfies `SendInv` for its own `Send` calls in the trace. -/
def AllSendInv (w : World) (ts : List Task) (s : Shared) : Prop :=
  ∀ t ∈ ts, SendInv w.sendRetry (s.trace.countP (Event.isSendOf t.idx)) t.pc

/-! ## Concrete campaigns -/

/-- A recipient with identifier `i`. -/
def recipient (i : Int) : Client :=
  { ID := i, PhoneNumber := 7000 + i, PhoneOperator := 900, Tag := "t", Timezone := "UTC" }

/-- A campaign with the window `[0, 100]`. -/
def campaign : Mailing :=
  { ID := 1, Text := "hi", Filter := none, StartTime := 0, EndTime := 100,
    Status := MailingStatus.Pending }

/-- A world in which every collaborator call succeeds, with `m` recipients and
the deadline never observed. -/
def calmWorld (m : Nat) : World where
  sendRetry := defaultSendRetry
  markMailing := fun _ => none
  getClientsForMailing := Except.ok ((List.range m).map (fun i => recipient i))
  ctxDone := fun _ => false
  ctxErr := GoError.raised 0
  saveMessage := fun i => (100 + i, none)
  send := fun _ _ => none
  markMessage := fun _ _ => none
  saveStats := fun _ => none
  start := 0
  since := 0

/-- Scenario B: two recipients, every Transport attempt for the second one fails. -/
def scenarioB : World :=
  { calmWorld 2 with send := fun i _ => if i = 1 then some (GoError.raised 5) else none }

/-- Two recipients, message creation fails for the first one. -/
def saveFailsFirst : World :=
  { calmWorld 2 with saveMessage := fun i => if i = 0 then (0, some (GoError.raised 7)) else (100 + i, none) }

/-- Scenario C: five recipients, the deadline is observed at the third check. -/
def scenarioC : World :=
  { calmWorld 5 with ctxDone := fun count => decide (2 ≤ count) }

/-- A world whose recipient fetch fails. -/
def fetchFails : World :=
  { calmWorld 0 with getClientsForMailing := Except.error (GoError.raised 9) }

/-! ## Vocabulary for the status writes of a run -/

/-- The campaign status written by a call, when the call is a `MarkMailing`. -/
def Event.statusWrite : Event → Option MailingStatus
  | Event.MarkMailing _ st => some st
  | _ => none

/-- The sequence of campaign status writes in a trace, in order. -/
def statusWrites (tr : List Event) : List MailingStatus :=
  tr.filterMap Event.statusWrite

/-- One recipient; the `Executing` write fails, every other call succeeds. -/
def executingFails : World :=
  { calmWorld 1 with
    markMailing := fun st =>
      if st = MailingStatus.Executing then some (GoError.raised 3) else none }

/-- Two recipients, the deadline check finds the context done at the first one. -/
def doneAtOnce : World :=
  { calmWorld 2 with ctxDone := fun _ => true }

/-! ## The loop of `StartFetchingMailings` (mailing.go lines 37-75) -/

/-- What an executor goroutine meets: the answers of the collaborators during its
run, `time.Now()` at line 54 and the schedule of its dispatchers. -/
structure RunParams where
  world : World
  now : Int
  sched : List Nat

/-- What a tick meets: the answer of `GetPendingMailings`, `time.Now().UTC()` at each
position of the result (line 49) and what the goroutine launched there meets. -/
structure TickData where
  pending : Except GoError (List Mailing)
  nowAt : Nat → Int
  runs : Nat → RunParams

/-- One `select` of the loop (line 38): whether `<-ctx.Done()` can proceed, whether
`<-ticker.C` can proceed (and what the tick then meets), and the choice Go makes
when both can proceed (`pickTick`; Go chooses pseudo-randomly among ready cases). -/
structure Select where
  ctxDone : Bool
  tick : Option TickData
  pickTick : Bool

/-- The `select` takes the case `<-ctx.Done()`. -/
def Select.takesDone (sel : Select) : Bool :=
  sel.ctxDone && (sel.tick.isNone || !sel.pickTick)

/-- An executor goroutine launched by the loop (`wg.Add(1)`, `go func`, lines 50-52). -/
structure Launched where
  pos : Nat
  mailing : Mailing
  params : RunParams

/-- The run of a launched goroutine (lines 52-71). -/
def Launched.run (l : Launched) : RunResult :=
  executorRun l.params.world l.params.now l.mailing l.params.sched

/-- State of the loop: the Store calls the loop itself has made and the goroutines it
has launched. -/
structure LoopState where
  trace : List Event
  launched : List Launched

/-- The case `<-ticker.C` (lines 42-73). -/
def doTick (td : TickData) (st : LoopState) : LoopState :=
  { trace := st.trace ++ (tick td.pending td.nowAt).1,
    launched := st.launched ++
      (tick td.pending td.nowAt).2.map
        (fun p => { pos := p.1, mailing := p.2, params := td.runs p.1 }) }

/-- Outcome of the loop over the given `select`s: `returned = none` when the function
is still in its loop after them, `some err` when it has returned `err`; `waited` are
the runs `wg.Wait()` (line 40) has waited for. -/
structure LoopResult where
  state : LoopState
  returned : Option (Option GoError)
  waited : List RunResult

/-- The function `MailingService.StartFetchingMailings` over a sequence of `select`s.
`ctxErr` is the value of `ctx.Err()` once the context is done.  A `select` at which
no case can proceed blocks: the loop takes no step. -/
def StartFetchingMailings (ctxErr : GoError) : List Select → LoopState → LoopResult
  | [], st => { state := st, returned := none, waited := [] }
  | sel :: rest, st =>
      if sel.takesDone then
        { state := st, returned := some (some ctxErr),
          waited := st.launched.map Launched.run }
      else
        match sel.tick with
        | none => StartFetchingMailings ctxErr rest st
        | some td => StartFetchingMailings ctxErr rest (doTick td st)

/-- A campaign whose window `[1000, 2000]` starts after the instants of the ticks
below. -/
def futureCampaign : Mailing :=
  { ID := 2, Text := "later", Filter := none, StartTime := 1000, EndTime := 2000,
    Status := MailingStatus.Pending }

/-- A tick whose pending-campaign query fails. -/
def failingTick : TickData :=
  { pending := Except.error (GoError.raised 11), nowAt := fun _ => 5,
    runs := fun _ => { world := calmWorld 1, now := 5, sched := [] } }

/-- A tick that finds the campaign `campaign` due. -/
def dueTick : TickData :=
  { pending := Except.ok [campaign], nowAt := fun _ => 5,
    runs := fun _ => { world := calmWorld 1, now := 5, sched := [] } }

/-- The loop before its first `select`. -/
def loopStart : LoopState := { trace := [], launched := [] }

/-- A `select` that takes a tick with a failing query while the context is not done. -/
def failingSelect : Select :=
  { ctxDone := false, tick := some failingTick, pickTick := false }

/-- The context is already done at the first `select`, a tick is ready as well and Go
picks the tick; at the second `select` only `<-ctx.Done()` can proceed. -/
def cancelledWithTick : List Select :=
  [{ ctxDone := true, tick := some failingTick, pickTick := true },
   { ctxDone := true, tick := none, pickTick := false }]

/-- A tick launches the campaign `campaign`, then the context is cancelled. -/
def tickThenCancel : List Select :=
  [{ ctxDone := false, tick := some dueTick, pickTick := false },
   { ctxDone := true, tick := none, pickTick := false }]

/-! ## The execution context of a run (mailing.go lines 62-65, 97-99) -/

/-- A `context.Context` as far as `Done()` is concerned: its deadline, if it has one;
the instant at which the timer of that deadline closes `Done()` (the Go runtime fires
a timer at its time or later and gives no bound for the delay); and the instant of
the `cancel()` call that reaches it (on itself or on an ancestor), if there is one. -/
structure Ctx where
  deadline : Option Int
  timerAt : Option Int
  cancelledAt : Option Int

/-- Whether `<-ctx.Done()` can proceed at the instant `now`: the timer of the deadline
has fired or the context has been cancelled. -/
def Ctx.isDone (c : Ctx) (now : Int) : Bool :=
  (match c.timerAt with
   | some f => decide (f ≤ now)
   | none => false) ||
  (match c.cancelledAt with
   | some t => decide (t ≤ now)
   | none => false)

/-- The earlier of the instant `f`, if there is one, and `t`. -/
def earliest (f : Option Int) (t : Int) : Int :=
  match f with
  | some x => min x t
  | none => t

/-- The child of `context.WithDeadline(parent, d)` when the deadline of the parent is
not earlier than `d`: it has the deadline `d`, and `Done()` is closed when its own timer
fires, `lag` after `d`, or when the parent is done, whichever comes first. -/
def timerCtx (parent : Ctx) (d : Int) (lag : Nat) : Ctx :=
  { deadline := some d,
    timerAt := some (earliest parent.timerAt (d + lag)),
    cancelledAt := parent.cancelledAt }

/-- The function `context.WithDeadline(parent, d)` of the Go standard library.  When
the parent has an earlier deadline the child is done exactly when the parent is;
otherwise the child is a `timerCtx`.  `lag` is the delay with which the runtime fires
the timer of the child; a deadline that has already passed at the call, for which the
child is done at once, is the case `lag = 0`. -/
def withDeadline (parent : Ctx) (d : Int) (lag : Nat) : Ctx :=
  match parent.deadline with
  | some p => if p < d then parent else timerCtx parent d lag
  | none => timerCtx parent d lag

/-- The executor goroutine under the context of the scheduler loop (`parent`): lines
62-65 derive the context of `mail` from it with the deadline `mailing.EndTime`, whose
timer fires with the delay `lag`; `clock count` is the instant at which the loop of
`mail` reaches recipient `count`. -/
def runUnderCtx (parent : Ctx) (lag : Nat) (clock : Nat → Int) (rp : RunParams)
    (mailing : Mailing) : RunResult :=
  executorRun
    { rp.world with
      ctxDone := fun count =>
        (withDeadline parent mailing.EndTime lag).isDone (clock count) }
    rp.now mailing rp.sched

/-- The scheduler context is cancelled at instant 10 and has no deadline. -/
def cancelledParent : Ctx := { deadline := none, timerAt := none, cancelledAt := some 10 }

/-! ## The recipient selection of `Postgres.GetClientsForMailing` (postgres.go lines 466-504) -/

/-- The query text before the filter is added (lines 467-471). -/
def selectFromClient : String := "\n\tSELECT *\n\tFROM client\n\n\t"

/-- The criterion on the operator code (line 475). -/
def operatorClause : String := "phone_operator = @phoneOperator"

/-- The criterion on the tag (line 478). -/
def tagClause : String := "tag = @tag"

/-- The criterion on the timezone (line 481). -/
def timezoneClause : String := "timezone = @timezone"

/-- The slice `filters` after lines 472-482, for a non-nil filter. -/
def filterClauses (f : Filter) : List String :=
  (if f.PhoneOperator ≠ 0 then [operatorClause] else []) ++
    ((if f.Tag ≠ "" then [tagClause] else []) ++
      (if f.Timezone ≠ "" then [timezoneClause] else []))

/-- The function `strings.Join`. -/
def stringsJoin (elems : List String) (sep : String) : String :=
  sep.intercalate elems

/-- The query text handed to the database (lines 467-488).  With a nil filter the
text is complete at line 488, but line 491 then dereferences the nil filter for the
named arguments and the function panics: `none`. -/
def clientsQuery (mailing : Mailing) : Option String :=
  match mailing.Filter with
  | none => none
  | some f =>
      if (filterClauses f).length > 0 then
        some (selectFromClient ++ "WHERE " ++ stringsJoin (filterClauses f) " AND ")
      else some selectFromClient

/-- What the database makes of one criterion for a row, under the named arguments of
lines 490-494 (`@phoneOperator`, `@tag`, `@timezone` bound to the fields of the
filter): an equality test on the column. -/
def clauseHolds (f : Filter) (c : Client) (clause : String) : Bool :=
  if clause = operatorClause then decide (c.PhoneOperator = f.PhoneOperator)
  else if clause = tagClause then decide (c.Tag = f.Tag)
  else if clause = timezoneClause then decide (c.Timezone = f.Timezone)
  else false

/-- The row is selected by the query: it passes every criterion of the `WHERE`
clause (all of them joined by `AND`), and every row is selected when there is none. -/
def selectedBy (f : Filter) (c : Client) : Bool :=
  (filterClauses f).all (clauseHolds f c)

/-- A campaign for the operator 900 in the timezone UTC, any tag. -/
def filteredCampaign : Mailing :=
  { campaign with Filter := some { PhoneOperator := 900, Tag := "", Timezone := "UTC" } }

/-! ## The single-send handler `HTTPController.sendMessage` (http_controller.go lines 324-376) -/

/-- What one request to `POST /send/:id` meets: the path parameter, the result of
`strconv.ParseInt` on it, and the answers of `SaveMessage`, `c.ShouldBind` (the text of
the body), `GetClientByID`, `Send` and `MarkMessage`. -/
structure SendRequest where
  idURL : String
  parseInt : Except GoError Int
  saveMessage : Int × Option GoError
  shouldBind : Except GoError String
  getClientByID : Except GoError Client
  send : Option GoError
  markMessage : SendStatus → Option GoError

/-- A call the handler makes to the Store or to the Transport. -/
inductive HandlerCall where
  | SaveMessage (clientID : Int)
  | GetClientByID (id : Int)
  | Send (msgID : Int) (clientPhone : Int) (text : String)
  | MarkMessage (msgID : Int) (status : SendStatus)
  deriving DecidableEq

/-- Outcome of the handler: its calls, in order, and the HTTP status it passes to
`c.JSON` (`none` when it writes no response of its own). -/
structure HandlerResult where
  calls : List HandlerCall
  status : Option Nat
  deriving DecidableEq

/-- Is the call a `MarkMessage`? -/
def HandlerCall.isMarkMessage : HandlerCall → Bool
  | HandlerCall.MarkMessage _ _ => true
  | _ => false

/-- The function `HTTPController.sendMessage`; 400 is `http.StatusBadRequest` and 500
is `http.StatusInternalServerError`. -/
def sendMessage (r : SendRequest) : HandlerResult :=
  if r.idURL = "" then { calls := [], status := some 400 }
  else
    match r.parseInt with
    | Except.error _ => { calls := [], status := some 400 }
    | Except.ok id =>
        match r.saveMessage.2 with
        | some _ => { calls := [HandlerCall.SaveMessage id], status := some 500 }
        | none =>
            match r.shouldBind with
            | Except.error _ => { calls := [HandlerCall.SaveMessage id], status := some 400 }
            | Except.ok text =>
                match r.getClientByID with
                | Except.error _ =>
                    { calls := [HandlerCall.SaveMessage id, HandlerCall.GetClientByID id],
                      status := some 500 }
                | Except.ok client =>
                    match r.send with
                    | some _ =>
                        { calls := [HandlerCall.SaveMessage id, HandlerCall.GetClientByID id,
                                    HandlerCall.Send r.saveMessage.1 client.PhoneNumber text,
                                    HandlerCall.MarkMessage r.saveMessage.1 SendStatus.Failed],
                          status := some 500 }
                    | none =>
                        match r.markMessage SendStatus.Success with
                        | some _ =>
                            { calls := [HandlerCall.SaveMessage id, HandlerCall.GetClientByID id,
                                        HandlerCall.Send r.saveMessage.1 client.PhoneNumber text,
                                        HandlerCall.MarkMessage r.saveMessage.1 SendStatus.Success],
                              status := some 500 }
                        | none =>
                            { calls := [HandlerCall.SaveMessage id, HandlerCall.GetClientByID id,
                                        HandlerCall.Send r.saveMessage.1 client.PhoneNumber text,
                                        HandlerCall.MarkMessage r.saveMessage.1 SendStatus.Success],
                              status := none }

/-- A request for recipient 7 for which every call succeeds. -/
def goodRequest : SendRequest where
  idURL := "7"
  parseInt := Except.ok 7
  saveMessage := (55, none)
  shouldBind := Except.ok "hello"
  getClientByID := Except.ok (recipient 7)
  send := none
  markMessage := fun _ => none

/-- The message is created, then the body cannot be bound. -/
def unboundRequest : SendRequest :=
  { goodRequest with shouldBind := Except.error (GoError.raised 21) }

/-- The message is created, then the recipient is not found. -/
def unknownRecipientRequest : SendRequest :=
  { goodRequest with getClientByID := Except.error (GoError.raised 22) }

/-- Two recipients; every call succeeds except `MarkMessage` for the first recipient. -/
def markFailsFirst : World :=
  { calmWorld 2 with
    markMessage := fun i _ => if i = 0 then some (GoError.raised 8) else none }

/-- The calls of dispatcher `i` in a trace, in order. -/
def callsOf (i : Nat) (tr : List Event) : List Event :=
  tr.filter (fun e => decide (e.byTask = some i))

/-! ## Vocabulary for the calls of one dispatcher -/

/-- What a dispatcher did last. -/
inductive Phase where
  | start
  | created
  | sent
  | slept
  | marked
  deriving DecidableEq

/-- The phase after one more call, `none` when the call may not come there: the
message is created first; an attempt comes after the creation or after a wait; a
wait lasts one second and comes after an attempt; the status write comes last. -/
def nextPhase : Phase → Event → Option Phase
  | Phase.start, Event.SaveMessage _ _ _ => some Phase.created
  | Phase.created, Event.Send _ _ _ _ => some Phase.sent
  | Phase.slept, Event.Send _ _ _ _ => some Phase.sent
  | Phase.sent, Event.Sleep _ s => if s = 1 then some Phase.slept else none
  | Phase.created, Event.MarkMessage _ _ _ => some Phase.marked
  | Phase.sent, Event.MarkMessage _ _ _ => some Phase.marked
  | Phase.slept, Event.MarkMessage _ _ _ => some Phase.marked
  | _, _ => none

/-- The phase after a sequence of calls. -/
def phaseAfter : Option Phase → List Event → Option Phase
  | p, [] => p
  | p, e :: r => phaseAfter (p.bind (fun q => nextPhase q e)) r

/-- The calls of one dispatcher are well spaced: no wait before the first attempt,
exactly one wait of one second between two consecutive attempts, nothing after the
status write. -/
def wellSpaced (calls : List Event) : Bool :=
  (phaseAfter (some Phase.start) calls).isSome

/-- The phases a dispatcher can be in at a program point. -/
def PhaseAt : PC → Phase → Prop
  | PC.save, ph => ph = Phase.start
  | PC.checkSave, ph => ph = Phase.created
  | PC.send _, ph => ph = Phase.created ∨ ph = Phase.slept
  | PC.checkSend _, ph => ph = Phase.sent
  | PC.final, ph => ph = Phase.created ∨ ph = Phase.sent ∨ ph = Phase.slept
  | PC.markFailed, ph => ph = Phase.created ∨ ph = Phase.sent ∨ ph = Phase.slept
  | PC.markSuccess, ph => ph = Phase.created ∨ ph = Phase.sent ∨ ph = Phase.slept
  | PC.done, ph => ph = Phase.created ∨ ph = Phase.marked

/-- A property `Q` of the calls a dispatcher has made and of its program point holds
of every launched dispatcher. -/
def AllInv (Q : Nat → List Event → PC → Prop) (ts : List Task) (s : Shared) : Prop :=
  ∀ t ∈ ts, Q t.idx (callsOf t.idx s.trace) t.pc

/-- The calls made so far are well spaced and end in a phase possible at `pc`. -/
def SpacedAt (_i : Nat) (calls : List Event) (pc : PC) : Prop :=
  ∃ ph, phaseAfter (some Phase.start) calls = some ph ∧ PhaseAt pc ph

/-! ## Vocabulary for the failure counter -/

/-- Is the dispatcher at this program point past the two places where it may increment
`fails` (lines 127 and 144)?  1 when it is, 0 before. -/
def PC.pastBump : PC → Nat
  | PC.markFailed => 1
  | PC.markSuccess => 1
  | PC.done => 1
  | _ => 0

/-- Number of launched dispatchers that are past the places where they may increment
`fails`. -/
def bumpSum (ts : List Task) : Nat :=
  (ts.map (fun t => t.pc.pastBump)).sum

/-- From `(ts, s)` to `(ts', s')` the counter `fails` has not decreased, and it has
grown by at most the number of dispatchers that went past their increment. -/
def BumpLe (ts : List Task) (s : Shared) (ts' : List Task) (s' : Shared) : Prop :=
  s.fails ≤ s'.fails ∧ s'.fails + (bumpSum ts : Int) ≤ s.fails + (bumpSum ts' : Int)

/-- No recipient matches and the deadline check would find the context done at every
recipient. -/
def noRecipientsLate : World :=
  { calmWorld 0 with ctxDone := fun _ => true }

/-! ## Vocabulary for the waits of one dispatcher -/

/-- Is the call a wait (`time.Sleep`, line 135) of dispatcher `i`? -/
def Event.isSleepOf (i : Nat) : Event → Bool
  | Event.Sleep j _ => decide (j = i)
  | _ => false

/-- Number of waits dispatcher `i` performed in a trace. -/
def waitsOf (i : Nat) (tr : List Event) : Nat :=
  tr.countP (Event.isSleepOf i)

/-- Number of failed Transport attempts of dispatcher `i` in a trace: its attempts are
numbered from 0 in the order in which it makes them, and attempt `a` fails when
`w.send i a` is an error. -/
def failedAttempts (w : World) (i : Nat) (tr : List Event) : Nat :=
  ((List.range (tr.countP (Event.isSendOf i))).filter (fun a => (w.send i a).isSome)).length

/-! ## The Store writes of `Postgres` under a context (postgres.go lines 306-317, 507-518) -/

/-- What the database holds for one campaign: the column `status` of its row in
`mailing` and its rows in `mailing_stats`. -/
structure Stored where
  status : MailingStatus
  stats : List MailingStats
  deriving DecidableEq

/-- The method `Postgres.MarkMailing` (lines 306-317).  `exec ctxDone` is the answer
of `p.db.Exec`, the database driver, which receives the context of the call
(`ctxDone`: whether that context is done at the instant of the call) and is not part
of this repository; a statement for which `Exec` answers an error has not been
executed. -/
def Postgres.MarkMailing (exec : Bool → Option GoError) (db : Stored) (ctxDone : Bool)
    (status : MailingStatus) : Stored × Option GoError :=
  match exec ctxDone with
  | some e => (db, errorsWrap (some e) "update mailing")
  | none => ({ db with status := status }, none)

/-- The method `Postgres.SaveStats` (lines 507-518), with `exec` as in
`Postgres.MarkMailing`. -/
def Postgres.SaveStats (exec : Bool → Option GoError) (db : Stored) (ctxDone : Bool)
    (mailingStats : MailingStats) : Stored × Option GoError :=
  match exec ctxDone with
  | some e => (db, errorsWrap (some e) "insert into mailing_stats")
  | none => ({ db with stats := db.stats ++ [mailingStats] }, none)

/-- The two Store calls with which a run of `mail` past the recipient fetch ends (lines
101 and 105, or 160 and 164), applied to the database: a status write and `SaveStats`,
both issued with the context `ctx` of `mail`, at the instants `tMark` and `tStats`.
Returns the database afterwards and the two answers. -/
def closingWrites (exec : Bool → Option GoError) (ctx : Ctx) (tMark tStats : Int)
    (db : Stored) (r : RunResult) : Stored × List (Option GoError) :=
  match r.trace.reverse with
  | Event.SaveStats st :: Event.MarkMailing _ status :: _ =>
      ((Postgres.SaveStats exec
          (Postgres.MarkMailing exec db (ctx.isDone tMark) status).1 (ctx.isDone tStats) st).1,
       [(Postgres.MarkMailing exec db (ctx.isDone tMark) status).2,
        (Postgres.SaveStats exec
          (Postgres.MarkMailing exec db (ctx.isDone tMark) status).1 (ctx.isDone tStats) st).2])
  | _ => (db, [])

/-- A driver that rejects every call made with a done context and executes the
others. -/
def strictExec : Bool → Option GoError :=
  fun ctxDone => if ctxDone then some (GoError.raised 3) else none

/-- The scheduler context is never cancelled and has no deadline. -/
def background : Ctx := { deadline := none, timerAt := none, cancelledAt := none }

/-- Three recipients; the Store answers an error to the `Canceled` write and to
`SaveStats`. -/
def closingWritesFail : World :=
  { calmWorld 3 with
    markMailing := fun st =>
      if st = MailingStatus.Canceled then some (GoError.wrapped (GoError.raised 3) "update mailing")
      else none
    saveStats := fun _ => some (GoError.wrapped (GoError.raised 3) "insert into mailing_stats") }

/-- The campaign is stored as `Executing`, with no stats record. -/
def storedExecuting : Stored := { status := MailingStatus.Executing, stats := [] }

/-! ## The dispatcher goroutine: termination, identity, trace -/

theorem PC.left_le (n : Nat) (pc : PC) : pc.left n ≤ 2 * n + 4 := by
  cases pc <;> simp [PC.left] <;> omega

theorem loopHead_left (w : World) (a : Nat) :
    (loopHead w a).left w.sendRetry ≤ 2 * (w.sendRetry - a) + 2 := by
  unfold loopHead
  split <;> simp only [PC.left] <;> omega

theorem step_left (w : World) (mailing : Mailing) (t : Task) (s : Shared) (h : t.pc ≠ PC.done) :
    (step w mailing t s).1.pc.left w.sendRetry < t.pc.left w.sendRetry := by
  rcases t with ⟨idx, client, msgID, pc⟩
  rcases s with ⟨err, fails, trace⟩
  cases pc with
  | done => exact absurd rfl h
  | checkSave =>
      have h0 := loopHead_left w 0
      cases err
      · show (loopHead w 0).left w.sendRetry < 2 * w.sendRetry + 3
        omega
      · show 0 < 2 * w.sendRetry + 3
        omega
  | checkSend a =>
      have h1 := loopHead_left w (a + 1)
      cases err
      · show 2 < 2 * (w.sendRetry - 1 - a) + 3
        omega
      · show (loopHead w (a + 1)).left w.sendRetry < 2 * (w.sendRetry - 1 - a) + 3
        omega
  | save => show 2 * w.sendRetry + 3 < 2 * w.sendRetry + 4; omega
  | send a => show 2 * (w.sendRetry - 1 - a) + 3 < 2 * (w.sendRetry - 1 - a) + 4; omega
  | final => cases err <;> (show 1 < 2; omega)
  | markFailed => show 0 < 1; omega
  | markSuccess => show 0 < 1; omega

theorem step_done (w : World) (mailing : Mailing) (t : Task) (s : Shared) (h : t.pc = PC.done) :
    step w mailing t s = (t, s) := by
  simp [step, h]

theorem step_who (w : World) (mailing : Mailing) (t : Task) (s : Shared) :
    (step w mailing t s).1.who = t.who := by
  rcases t with ⟨idx, client, msgID, pc⟩
  rcases s with ⟨err, fails, trace⟩
  cases pc <;> cases err <;> rfl

theorem TraceGrows.refl (I : List Nat) (s : Shared) : TraceGrows I s s :=
  ⟨[], by simp, by simp⟩

theorem TraceGrows.trans {I : List Nat} {s1 s2 s3 : Shared}
    (h12 : TraceGrows I s1 s2) (h23 : TraceGrows I s2 s3) : TraceGrows I s1 s3 := by
  obtain ⟨e1, h1, p1⟩ := h12
  obtain ⟨e2, h2, p2⟩ := h23
  refine ⟨e1 ++ e2, by simp [h2, h1], ?_⟩
  intro e he
  rcases List.mem_append.mp he with h | h
  · exact p1 e h
  · exact p2 e h

theorem TraceGrows.mono {I J : List Nat} {s1 s2 : Shared} (hIJ : ∀ i ∈ I, i ∈ J)
    (h : TraceGrows I s1 s2) : TraceGrows J s1 s2 := by
  obtain ⟨evs, h1, p1⟩ := h
  refine ⟨evs, h1, ?_⟩
  intro e he
  obtain ⟨i, hi, hb⟩ := p1 e he
  exact ⟨i, hIJ i hi, hb⟩

theorem step_grows (w : World) (mailing : Mailing) (t : Task) (s : Shared) :
    TraceGrows [t.idx] s (step w mailing t s).2 := by
  rcases t with ⟨idx, client, msgID, pc⟩
  rcases s with ⟨err, fails, trace⟩
  cases pc <;> cases err <;> first
    | (refine ⟨[], ?_, ?_⟩ <;> simp [step]; done)
    | (refine ⟨[_], rfl, ?_⟩; simp [Event.byTask])

theorem runTask_who (w : World) (mailing : Mailing) (fuel : Nat) (t : Task) (s : Shared) :
    (runTask w mailing fuel t s).1.who = t.who := by
  induction fuel generalizing t s with
  | zero => rfl
  | succ k ih =>
      show (runTask w mailing k (step w mailing t s).1 (step w mailing t s).2).1.who = t.who
      rw [ih, step_who]

theorem step_idx (w : World) (mailing : Mailing) (t : Task) (s : Shared) :
    (step w mailing t s).1.idx = t.idx :=
  congrArg Prod.fst (step_who w mailing t s)

theorem runTask_grows (w : World) (mailing : Mailing) (fuel : Nat) (t : Task) (s : Shared) :
    TraceGrows [t.idx] s (runTask w mailing fuel t s).2 := by
  induction fuel generalizing t s with
  | zero => exact TraceGrows.refl _ _
  | succ k ih =>
      have h1 := step_grows w mailing t s
      have h2 := ih (step w mailing t s).1 (step w mailing t s).2
      rw [step_idx] at h2
      exact h1.trans h2

theorem runTask_done (w : World) (mailing : Mailing) (fuel : Nat) (t : Task) (s : Shared)
    (h : t.pc.left w.sendRetry ≤ fuel) : (runTask w mailing fuel t s).1.pc = PC.done := by
  induction fuel generalizing t s with
  | zero =>
      show t.pc = PC.done
      cases hpc : t.pc <;> simp [hpc, PC.left] at h ⊢
  | succ k ih =>
      show (runTask w mailing k (step w mailing t s).1 (step w mailing t s).2).1.pc = PC.done
      apply ih
      by_cases hd : t.pc = PC.done
      · rw [step_done w mailing t s hd, hd]
        simp [PC.left]
      · have := step_left w mailing t s hd
        omega

theorem runTask_of_done (w : World) (mailing : Mailing) (fuel : Nat) (t : Task) (s : Shared)
    (h : t.pc = PC.done) : runTask w mailing fuel t s = (t, s) := by
  induction fuel with
  | zero => rfl
  | succ k ih =>
      show runTask w mailing k (step w mailing t s).1 (step w mailing t s).2 = (t, s)
      rw [step_done w mailing t s h]
      exact ih

theorem stepAt_who (w : World) (mailing : Mailing) (i : Nat) (ts : List Task) (s : Shared) :
    (stepAt w mailing i ts s).1.map Task.who = ts.map Task.who := by
  induction ts generalizing i with
  | nil => cases i <;> rfl
  | cons t ts ih =>
      cases i with
      | zero => simp [stepAt, step_who]
      | succ j => simp [stepAt, ih]

theorem stepAt_grows (w : World) (mailing : Mailing) (i : Nat) (ts : List Task) (s : Shared) :
    TraceGrows (ts.map Task.idx) s (stepAt w mailing i ts s).2 := by
  induction ts generalizing i with
  | nil => cases i <;> exact TraceGrows.refl _ _
  | cons t ts ih =>
      cases i with
      | zero =>
          exact (step_grows w mailing t s).mono (by simp)
      | succ j =>
          exact (ih j).mono (by intro k hk; simp at hk ⊢; exact Or.inr hk)

theorem map_idx_of_who {ts1 ts2 : List Task} (h : ts1.map Task.who = ts2.map Task.who) :
    ts1.map Task.idx = ts2.map Task.idx := by
  have := congrArg (List.map Prod.fst) h
  simpa [List.map_map, Function.comp_def, Task.who] using this

theorem runSched_who (w : World) (mailing : Mailing) (sched : List Nat) (ts : List Task)
    (s : Shared) : (runSched w mailing sched ts s).1.map Task.who = ts.map Task.who := by
  induction sched generalizing ts s with
  | nil => rfl
  | cons i sched ih =>
      show (runSched w mailing sched (stepAt w mailing i ts s).1 _).1.map Task.who = _
      rw [ih, stepAt_who]

theorem runSched_grows (w : World) (mailing : Mailing) (sched : List Nat) (ts : List Task)
    (s : Shared) : TraceGrows (ts.map Task.idx) s (runSched w mailing sched ts s).2 := by
  induction sched generalizing ts s with
  | nil => exact TraceGrows.refl _ _
  | cons i sched ih =>
      have h1 := stepAt_grows w mailing i ts s
      have h2 := ih (stepAt w mailing i ts s).1 (stepAt w mailing i ts s).2
      rw [map_idx_of_who (stepAt_who w mailing i ts s)] at h2
      exact h1.trans h2

theorem drain_who (w : World) (mailing : Mailing) (ts : List Task) (s : Shared) :
    (drain w mailing ts s).1.map Task.who = ts.map Task.who := by
  induction ts generalizing s with
  | nil => rfl
  | cons t ts ih => simp [drain, ih, runTask_who]

theorem drain_grows (w : World) (mailing : Mailing) (ts : List Task) (s : Shared) :
    TraceGrows (ts.map Task.idx) s (drain w mailing ts s).2 := by
  induction ts generalizing s with
  | nil => exact TraceGrows.refl _ _
  | cons t ts ih =>
      have h1 : TraceGrows ((t :: ts).map Task.idx) s (runTask w mailing (taskFuel w) t s).2 :=
        (runTask_grows w mailing (taskFuel w) t s).mono (by simp)
      have h2 : TraceGrows ((t :: ts).map Task.idx) (runTask w mailing (taskFuel w) t s).2
          (drain w mailing ts (runTask w mailing (taskFuel w) t s).2).2 :=
        (ih _).mono (by intro k hk; simp at hk ⊢; exact Or.inr hk)
      exact h1.trans h2

theorem drain_done (w : World) (mailing : Mailing) (ts : List Task) (s : Shared) :
    ∀ t ∈ (drain w mailing ts s).1, t.pc = PC.done := by
  induction ts generalizing s with
  | nil => intro t ht; simp [drain] at ht
  | cons t ts ih =>
      intro u hu
      simp only [drain, List.mem_cons] at hu
      rcases hu with hu | hu
      · rw [hu]
        exact runTask_done w mailing _ t s (PC.left_le _ _)
      · exact ih _ u hu

theorem wgWait_who (w : World) (mailing : Mailing) (sched : List Nat) (ts : List Task)
    (s : Shared) : (wgWait w mailing sched ts s).1.map Task.who = ts.map Task.who := by
  unfold wgWait
  rw [drain_who, runSched_who]

theorem wgWait_grows (w : World) (mailing : Mailing) (sched : List Nat) (ts : List Task)
    (s : Shared) : TraceGrows (ts.map Task.idx) s (wgWait w mailing sched ts s).2 := by
  unfold wgWait
  have h1 := runSched_grows w mailing sched ts s
  have h2 := drain_grows w mailing (runSched w mailing sched ts s).1 (runSched w mailing sched ts s).2
  rw [map_idx_of_who (runSched_who w mailing sched ts s)] at h2
  exact h1.trans h2

theorem wgWait_done (w : World) (mailing : Mailing) (sched : List Nat) (ts : List Task)
    (s : Shared) : ∀ t ∈ (wgWait w mailing sched ts s).1, t.pc = PC.done :=
  drain_done w mailing _ _

/-! ## The launch loop -/

theorem tasksFrom_who (count : Nat) (cs : List Client) :
    (tasksFrom count cs).map Task.who = cs.enumFrom count := by
  induction cs generalizing count with
  | nil => rfl
  | cons c cs ih => simp [tasksFrom, List.enumFrom, ih, Task.who, newTask]

theorem tasksFrom_idx_lt (count : Nat) (cs : List Client) :
    ∀ i ∈ (tasksFrom count cs).map Task.idx, count ≤ i ∧ i < count + cs.length := by
  induction cs generalizing count with
  | nil => intro i hi; simp [tasksFrom] at hi
  | cons c cs ih =>
      intro i hi
      simp only [tasksFrom, List.map_cons, List.mem_cons] at hi
      rcases hi with hi | hi
      · subst hi
        simp [newTask]
      · have := ih (count + 1) i hi
        simp only [List.length_cons]
        omega

theorem launch_all (w : World) (cs : List Client) (count : Nat) (acc : List Task)
    (h : ∀ j < cs.length, w.ctxDone (count + j) = false) :
    launch w cs count acc = (acc ++ tasksFrom count cs, none) := by
  induction cs generalizing count acc with
  | nil => simp [launch, tasksFrom]
  | cons c cs ih =>
      have h0 : w.ctxDone count = false := by simpa using h 0 (by simp)
      have hrest : ∀ j < cs.length, w.ctxDone (count + 1 + j) = false := by
        intro j hj
        have := h (j + 1) (by simp; omega)
        rwa [show count + 1 + j = count + (j + 1) by omega]
      simp [launch, h0, ih (count + 1) (acc ++ [newTask count c]) hrest, tasksFrom]

theorem launch_stop (w : World) (cs : List Client) (count : Nat) (acc : List Task) (k : Nat)
    (hk : k < cs.length) (hbefore : ∀ j < k, w.ctxDone (count + j) = false)
    (hat : w.ctxDone (count + k) = true) :
    launch w cs count acc = (acc ++ tasksFrom count (cs.take k), some (count + k)) := by
  induction cs generalizing count acc k with
  | nil => simp at hk
  | cons c cs ih =>
      cases k with
      | zero => simp [launch, tasksFrom, show w.ctxDone count = true by simpa using hat]
      | succ k =>
          have h0 : w.ctxDone count = false := by simpa using hbefore 0 (by omega)
          have hrest : ∀ j < k, w.ctxDone (count + 1 + j) = false := by
            intro j hj
            have := hbefore (j + 1) (by omega)
            rwa [show count + 1 + j = count + (j + 1) by omega]
          have hat2 : w.ctxDone (count + 1 + k) = true := by
            rwa [show count + 1 + k = count + (k + 1) by omega]
          have hk2 : k < cs.length := by simpa using hk
          simp [launch, h0, ih (count + 1) (acc ++ [newTask count c]) k hk2 hrest hat2, tasksFrom]
          omega

/-! ## The executor `mail` once the recipients are fetched -/

theorem mail_fetched (w : World) (mailing : Mailing) (sched : List Nat) (clients : List Client)
    (hexec : w.markMailing MailingStatus.Executing = none)
    (hfetch : w.getClientsForMailing = Except.ok clients) :
    (mail w mailing sched).tasks.map Task.who = (launch w clients 0 []).1.map Task.who ∧
    (∀ t ∈ (mail w mailing sched).tasks, t.pc = PC.done) ∧
    ∃ evs, (∀ e ∈ evs, ∃ i ∈ (launch w clients 0 []).1.map Task.idx, e.byTask = some i) ∧
      (((launch w clients 0 []).2 = none ∧ (mail w mailing sched).ret = none ∧
        (mail w mailing sched).trace =
          [Event.MarkMailing mailing.ID MailingStatus.Executing,
           Event.GetClientsForMailing mailing.ID] ++ evs ++
          [Event.MarkMailing mailing.ID MailingStatus.Done,
           Event.SaveStats { ID := mailing.ID, Matches := clients.length, Sent := clients.length,
                             Fails := (mail w mailing sched).fails, StartTime := w.start,
                             TimeExecuting := w.since }]) ∨
       (∃ count, (launch w clients 0 []).2 = some count ∧
        (mail w mailing sched).ret = some w.ctxErr ∧
        (mail w mailing sched).trace =
          [Event.MarkMailing mailing.ID MailingStatus.Executing,
           Event.GetClientsForMailing mailing.ID] ++ evs ++
          [Event.MarkMailing mailing.ID MailingStatus.Canceled,
           Event.SaveStats { ID := mailing.ID, Matches := clients.length, Sent := count + 1,
                             Fails := (mail w mailing sched).fails, StartTime := w.start,
                             TimeExecuting := w.since }])) := by
  obtain ⟨evs, htr, hev⟩ := wgWait_grows w mailing sched (launch w clients 0 []).1
    { err := none, fails := 0,
      trace := [Event.MarkMailing mailing.ID MailingStatus.Executing,
                Event.GetClientsForMailing mailing.ID] }
  have hwho := wgWait_who w mailing sched (launch w clients 0 []).1
    { err := none, fails := 0,
      trace := [Event.MarkMailing mailing.ID MailingStatus.Executing,
                Event.GetClientsForMailing mailing.ID] }
  have hdone := wgWait_done w mailing sched (launch w clients 0 []).1
    { err := none, fails := 0,
      trace := [Event.MarkMailing mailing.ID MailingStatus.Executing,
                Event.GetClientsForMailing mailing.ID] }
  cases hstop : (launch w clients 0 []).2 with
  | none =>
      have hm : mail w mailing sched =
          { ret := none,
            trace := (wgWait w mailing sched (launch w clients 0 []).1
              { err := none, fails := 0,
                trace := [Event.MarkMailing mailing.ID MailingStatus.Executing,
                          Event.GetClientsForMailing mailing.ID] }).2.trace ++
              [Event.MarkMailing mailing.ID MailingStatus.Done,
               Event.SaveStats (mkStats w mailing (wgWait w mailing sched (launch w clients 0 []).1
              { err := none, fails := 0,
                trace := [Event.MarkMailing mailing.ID MailingStatus.Executing,
                          Event.GetClientsForMailing mailing.ID] }).2.fails clients.length clients.length)],
            tasks := (wgWait w mailing sched (launch w clients 0 []).1
              { err := none, fails := 0,
                trace := [Event.MarkMailing mailing.ID MailingStatus.Executing,
                          Event.GetClientsForMailing mailing.ID] }).1,
            fails := (wgWait w mailing sched (launch w clients 0 []).1
              { err := none, fails := 0,
                trace := [Event.MarkMailing mailing.ID MailingStatus.Executing,
                          Event.GetClientsForMailing mailing.ID] }).2.fails } := by
        simp only [mail, hexec, hfetch, hstop]
      rw [hm]
      exact ⟨hwho, hdone, evs, hev, Or.inl ⟨rfl, rfl, by rw [htr]; rfl⟩⟩
  | some count =>
      have hm : mail w mailing sched =
          { ret := some w.ctxErr,
            trace := (wgWait w mailing sched (launch w clients 0 []).1
              { err := none, fails := 0,
                trace := [Event.MarkMailing mailing.ID MailingStatus.Executing,
                          Event.GetClientsForMailing mailing.ID] }).2.trace ++
              [Event.MarkMailing mailing.ID MailingStatus.Canceled,
               Event.SaveStats (mkStats w mailing (wgWait w mailing sched (launch w clients 0 []).1
              { err := none, fails := 0,
                trace := [Event.MarkMailing mailing.ID MailingStatus.Executing,
                          Event.GetClientsForMailing mailing.ID] }).2.fails (count + 1) clients.length)],
            tasks := (wgWait w mailing sched (launch w clients 0 []).1
              { err := none, fails := 0,
                trace := [Event.MarkMailing mailing.ID MailingStatus.Executing,
                          Event.GetClientsForMailing mailing.ID] }).1,
            fails := (wgWait w mailing sched (launch w clients 0 []).1
              { err := none, fails := 0,
                trace := [Event.MarkMailing mailing.ID MailingStatus.Executing,
                          Event.GetClientsForMailing mailing.ID] }).2.fails } := by
        simp only [mail, hexec, hfetch, hstop]
      rw [hm]
      exact ⟨hwho, hdone, evs, hev, Or.inr ⟨count, rfl, rfl, by rw [htr]; rfl⟩⟩

/-! ## Calls of dispatchers and calls of the executor; the tick loop -/

theorem byTask_not_saveStats {e : Event} {i : Nat} (h : e.byTask = some i) :
    e.isSaveStats = false := by
  cases e <;> simp [Event.byTask, Event.isSaveStats] at h ⊢

theorem byTask_not_markMailing {e : Event} {i : Nat} (h : e.byTask = some i)
    (id : Nat) (st : MailingStatus) : e ≠ Event.MarkMailing id st := by
  cases e <;> simp [Event.byTask] at h ⊢

theorem countP_saveStats_dispatch (evs : List Event) (I : List Nat)
    (h : ∀ e ∈ evs, ∃ i ∈ I, e.byTask = some i) : evs.countP Event.isSaveStats = 0 := by
  rw [List.countP_eq_zero]
  intro e he
  obtain ⟨i, _, hi⟩ := h e he
  simp [byTask_not_saveStats hi]

theorem markMailing_not_mem_dispatch (evs : List Event) (I : List Nat)
    (h : ∀ e ∈ evs, ∃ i ∈ I, e.byTask = some i) (id : Nat) (st : MailingStatus) :
    Event.MarkMailing id st ∉ evs := by
  intro hmem
  obtain ⟨i, _, hi⟩ := h _ hmem
  exact byTask_not_markMailing hi id st rfl

theorem tickLoop_eq_filter (nowAt : Nat → Int) (ms : List Mailing) : ∀ c : Nat,
    tickLoop nowAt ms c =
      (ms.enumFrom c).filter (fun p => decide (p.2.StartTime ≤ nowAt p.1)) := by
  induction ms with
  | nil => intro c; rfl
  | cons m ms ih =>
      intro c
      have hcmp : timeCompare m.StartTime (nowAt c) ≤ 0 ↔ m.StartTime ≤ nowAt c := by
        unfold timeCompare
        split
        · constructor
          · intro _; omega
          · intro _; omega
        · split
          · constructor
            · intro h; omega
            · intro h; omega
          · constructor
            · intro _; omega
            · intro _; omega
      by_cases h : m.StartTime ≤ nowAt c
      · simp [tickLoop, List.enumFrom, hcmp.mpr h, h, ih]
      · have h2 : ¬ timeCompare m.StartTime (nowAt c) ≤ 0 := fun hc => h (hcmp.mp hc)
        simp [tickLoop, List.enumFrom, h2, h, ih]

theorem tickLoop_mem (nowAt : Nat → Int) (ms : List Mailing) (c j : Nat) (m : Mailing) :
    (j, m) ∈ tickLoop nowAt ms c ↔
      ∃ i, ms[i]? = some m ∧ j = c + i ∧ timeCompare m.StartTime (nowAt j) ≤ 0 := by
  induction ms generalizing c with
  | nil => simp [tickLoop]
  | cons a ms ih =>
      have key : (j, m) ∈ tickLoop nowAt ms (c + 1) ↔
          ∃ i, (a :: ms)[i + 1]? = some m ∧ j = c + (i + 1) ∧
            timeCompare m.StartTime (nowAt j) ≤ 0 := by
        rw [ih]
        constructor
        · rintro ⟨i, h1, h2, h3⟩
          exact ⟨i, by simpa using h1, by omega, h3⟩
        · rintro ⟨i, h1, h2, h3⟩
          exact ⟨i, by simpa using h1, by omega, h3⟩
      unfold tickLoop
      split
      · rename_i hle
        rw [List.mem_cons, key]
        constructor
        · rintro (h | ⟨i, h1, h2, h3⟩)
          · obtain ⟨rfl, rfl⟩ := Prod.mk.inj h
            exact ⟨0, by simp, rfl, hle⟩
          · exact ⟨i + 1, h1, h2, h3⟩
        · rintro ⟨i, h1, h2, h3⟩
          cases i with
          | zero =>
              left
              simp at h1
              simp [h1, h2]
          | succ i => exact Or.inr ⟨i, h1, h2, h3⟩
      · rename_i hnle
        rw [key]
        constructor
        · rintro ⟨i, h1, h2, h3⟩
          exact ⟨i + 1, h1, h2, h3⟩
        · rintro ⟨i, h1, h2, h3⟩
          cases i with
          | zero =>
              simp at h1
              subst h1
              simp at h2
              subst h2
              exact absurd h3 hnle
          | succ i => exact ⟨i, h1, h2, h3⟩

theorem timeCompare_le_zero (t u : Int) : timeCompare t u ≤ 0 ↔ t ≤ u := by
  unfold timeCompare
  split
  · simp; omega
  · split
    · simp; omega
    · simp; omega

/-- Scenario C evaluated: five recipients, the context found done at the third check;
the run ends with `Canceled` and the stats record `Matches = 5`, `Sent = 3`. -/
theorem scenarioC_run :
    (mail scenarioC campaign [1, 0, 0, 1]).trace.drop 8 =
      [Event.MarkMailing 1 MailingStatus.Canceled,
       Event.SaveStats { ID := 1, Matches := 5, Sent := 3, Fails := 0, StartTime := 0,
                         TimeExecuting := 0 }] ∧
      (mail scenarioC campaign [1, 0, 0, 1]).tasks.map Task.idx = [0, 1] := by
  decide

/-! ## A dispatcher running alone -/

theorem runTask_final (w : World) (mailing : Mailing) (fuel : Nat) (t : Task) (s : Shared)
    (hpc : t.pc = PC.final) (hfuel : 2 ≤ fuel) :
    runTask w mailing fuel t s =
      ({ t with pc := PC.done },
       { err := w.markMessage t.idx (finalStatus s.err),
         fails := s.fails + failBump s.err,
         trace := s.trace ++ [Event.MarkMessage t.idx t.msgID (finalStatus s.err)] }) := by
  obtain ⟨k, rfl⟩ : ∃ k, fuel = k + 2 := ⟨fuel - 2, by omega⟩
  rcases t with ⟨idx, client, msgID, pc⟩
  rcases s with ⟨err, fails, trace⟩
  simp only at hpc
  subst hpc
  cases err <;>
    simp [runTask, step, runTask_of_done, finalStatus, failBump]

theorem loopHead_lt (w : World) (a : Nat) (h : a < w.sendRetry) : loopHead w a = PC.send a := by
  simp [loopHead, h]

theorem loopHead_ge (w : World) (a : Nat) (h : w.sendRetry ≤ a) : loopHead w a = PC.final := by
  simp [loopHead]
  omega

theorem runTask_loop (w : World) (mailing : Mailing) (k : Nat) :
    ∀ (a fuel : Nat) (t : Task) (s : Shared), a + k = w.sendRetry → 2 * k + 2 ≤ fuel →
      t.pc = loopHead w a →
      runTask w mailing fuel t s =
        ({ t with pc := PC.done },
         { err := w.markMessage t.idx (finalStatus (loopErr w t.idx k a s.err)),
           fails := s.fails + failBump (loopErr w t.idx k a s.err),
           trace := s.trace ++ loopEvents w mailing t.idx t.msgID t.client.PhoneNumber k a ++
             [Event.MarkMessage t.idx t.msgID (finalStatus (loopErr w t.idx k a s.err))] }) := by
  induction k with
  | zero =>
      intro a fuel t s hak hfuel hpc
      rw [loopHead_ge w a (by omega)] at hpc
      rw [runTask_final w mailing fuel t s hpc (by omega)]
      simp [loopErr, loopEvents]
  | succ k ih =>
      intro a fuel t s hak hfuel hpc
      rw [loopHead_lt w a (by omega)] at hpc
      obtain ⟨f, rfl⟩ : ∃ f, fuel = f + 2 := ⟨fuel - 2, by omega⟩
      rcases t with ⟨idx, client, msgID, pc⟩
      rcases s with ⟨err, fails, trace⟩
      simp only at hpc
      subst hpc
      cases hsend : w.send idx a with
      | none =>
          have h1 : runTask w mailing (f + 2) ⟨idx, client, msgID, PC.send a⟩ ⟨err, fails, trace⟩ =
              runTask w mailing f ⟨idx, client, msgID, PC.final⟩
                ⟨none, fails, trace ++ [Event.Send idx msgID client.PhoneNumber mailing.Text]⟩ := by
            simp [runTask, step, hsend]
          rw [h1, runTask_final w mailing f _ _ rfl (by omega)]
          simp [loopErr, loopEvents, hsend]
      | some e =>
          have h1 : runTask w mailing (f + 2) ⟨idx, client, msgID, PC.send a⟩ ⟨err, fails, trace⟩ =
              runTask w mailing f ⟨idx, client, msgID, loopHead w (a + 1)⟩
                ⟨some e, fails, trace ++ [Event.Send idx msgID client.PhoneNumber mailing.Text] ++
                  [Event.Sleep idx 1]⟩ := by
            simp [runTask, step, hsend]
          rw [h1, ih (a + 1) f _ _ (by omega) (by omega) rfl]
          simp [loopErr, loopEvents, hsend]

theorem runTask_alone_saved (w : World) (mailing : Mailing) (t : Task) (s : Shared)
    (hpc : t.pc = PC.save) (hsave : (w.saveMessage t.idx).2 = none) :
    runTask w mailing (taskFuel w) t s =
      ({ t with msgID := (w.saveMessage t.idx).1, pc := PC.done },
       { err := w.markMessage t.idx (finalStatus (loopErr w t.idx w.sendRetry 0 none)),
         fails := s.fails + failBump (loopErr w t.idx w.sendRetry 0 none),
         trace := s.trace ++ [Event.SaveMessage t.idx mailing.ID t.client.ID] ++
           loopEvents w mailing t.idx (w.saveMessage t.idx).1 t.client.PhoneNumber w.sendRetry 0 ++
           [Event.MarkMessage t.idx (w.saveMessage t.idx).1
             (finalStatus (loopErr w t.idx w.sendRetry 0 none))] }) := by
  rcases t with ⟨idx, client, msgID, pc⟩
  rcases s with ⟨err, fails, trace⟩
  simp only at hpc hsave
  subst hpc
  have h1 : runTask w mailing (taskFuel w) ⟨idx, client, msgID, PC.save⟩ ⟨err, fails, trace⟩ =
      runTask w mailing (2 * w.sendRetry + 2) ⟨idx, client, (w.saveMessage idx).1, loopHead w 0⟩
        ⟨none, fails, trace ++ [Event.SaveMessage idx mailing.ID client.ID]⟩ := by
    show runTask w mailing (2 * w.sendRetry + 2 + 1 + 1) _ _ = _
    simp [runTask, step, hsave]
  rw [h1, runTask_loop w mailing w.sendRetry 0 _ _ _ (by omega) (by omega) rfl]

theorem runTask_alone_save_failed (w : World) (mailing : Mailing) (t : Task) (s : Shared)
    (hpc : t.pc = PC.save) (hsave : (w.saveMessage t.idx).2 ≠ none) :
    runTask w mailing (taskFuel w) t s =
      ({ t with msgID := (w.saveMessage t.idx).1, pc := PC.done },
       { err := (w.saveMessage t.idx).2,
         fails := s.fails + 1,
         trace := s.trace ++ [Event.SaveMessage t.idx mailing.ID t.client.ID] }) := by
  rcases t with ⟨idx, client, msgID, pc⟩
  rcases s with ⟨err, fails, trace⟩
  simp only at hpc hsave
  subst hpc
  obtain ⟨e, he⟩ := Option.ne_none_iff_exists'.mp hsave
  show runTask w mailing (2 * w.sendRetry + 2 + 1 + 1) _ _ = _
  simp [runTask, step, he, runTask_of_done]

theorem loopErr_isSome (w : World) (i : Nat) (k : Nat) :
    ∀ (a : Nat) (e : Option GoError), 1 ≤ k →
      ((loopErr w i k a e).isSome = true ↔ ∀ j < k, (w.send i (a + j)).isSome = true) := by
  induction k with
  | zero => intro a e h; omega
  | succ k ih =>
      intro a e _
      cases hs : (w.send i a).isSome with
      | false =>
          simp only [loopErr, hs]
          constructor
          · intro h; simp at h
          · intro h
            have := h 0 (by omega)
            simp [hs] at this
      | true =>
          simp only [loopErr, hs, if_true]
          cases k with
          | zero =>
              simp [loopErr, hs]
          | succ k =>
              rw [ih (a + 1) _ (by omega)]
              constructor
              · intro h j hj
                cases j with
                | zero => simpa using hs
                | succ j =>
                    have := h j (by omega)
                    rwa [show a + 1 + j = a + (j + 1) by omega] at this
              · intro h j hj
                have := h (j + 1) (by omega)
                rwa [show a + (j + 1) = a + 1 + j by omega] at this

theorem allSendsFail_iff (w : World) (i : Nat) :
    allSendsFail w i = true ↔ ∀ a < w.sendRetry, (w.send i a).isSome = true := by
  simp [allSendsFail]

theorem loopEvents_no_mark (w : World) (mailing : Mailing) (i : Nat) (msgID phone : Int)
    (k : Nat) : ∀ a : Nat,
      (loopEvents w mailing i msgID phone k a).filter Event.isMarkMessage = [] := by
  induction k with
  | zero => intro a; rfl
  | succ k ih =>
      intro a
      simp only [loopEvents]
      split <;> simp [Event.isMarkMessage, ih]

theorem alone_marks (w : World) (mailing : Mailing) (t : Task) (s : Shared)
    (hpc : t.pc = PC.save) (hsave : (w.saveMessage t.idx).2 = none) :
    (runTask w mailing (taskFuel w) t s).2.trace.filter Event.isMarkMessage =
        s.trace.filter Event.isMarkMessage ++
          [Event.MarkMessage t.idx (w.saveMessage t.idx).1
            (finalStatus (loopErr w t.idx w.sendRetry 0 none))] ∧
      (runTask w mailing (taskFuel w) t s).2.fails =
        s.fails + failBump (loopErr w t.idx w.sendRetry 0 none) := by
  rw [runTask_alone_saved w mailing t s hpc hsave]
  simp [List.filter_append, loopEvents_no_mark, Event.isMarkMessage]

theorem find_range_ge (p : Nat → Bool) (k : Nat) : ∀ (a x : Nat),
    (List.range' a k).find? p = some x → a ≤ x := by
  induction k with
  | zero => intro a x h; simp at h
  | succ k ih =>
      intro a x h
      rw [List.range'_succ, List.find?_cons] at h
      cases hp : p a with
      | true =>
          simp [hp] at h
          omega
      | false =>
          simp only [hp] at h
          have := ih (a + 1) x h
          omega

theorem loopEvents_sends (w : World) (mailing : Mailing) (i : Nat) (msgID phone : Int)
    (k : Nat) : ∀ a : Nat,
      (loopEvents w mailing i msgID phone k a).countP Event.isSend =
        match (List.range' a k).find? (fun x => (w.send i x).isNone) with
        | some p => p - a + 1
        | none => k := by
  induction k with
  | zero => intro a; rfl
  | succ k ih =>
      intro a
      rw [List.range'_succ, List.find?_cons]
      cases hs : w.send i a with
      | none => simp [loopEvents, hs, Event.isSend]
      | some e =>
          simp only [loopEvents, hs, Option.isSome_some, if_true, Option.isNone_some]
          rw [List.countP_cons, List.countP_cons, ih (a + 1)]
          cases hf : (List.range' (a + 1) k).find? (fun x => (w.send i x).isNone) with
          | none => simp [Event.isSend]
          | some p =>
              have hge : a + 1 ≤ p := find_range_ge _ k (a + 1) p hf
              simp only [Event.isSend, Bool.false_eq_true, if_false, if_true, Nat.add_zero]
              have harith : ∀ x y : Nat, x + 1 ≤ y → y - (x + 1) + 1 + 1 = y - x + 1 := by
                intro x y hxy
                omega
              exact harith a p hge

/-- A dispatch on its own whose message creation succeeded: the number of `Send` calls
it makes is the position of the first success when there is one among the first
`sendRetry` attempts, and `sendRetry` otherwise. -/
theorem alone_sends (w : World) (mailing : Mailing) (t : Task) (s : Shared)
    (hpc : t.pc = PC.save) (hsave : (w.saveMessage t.idx).2 = none) :
    (runTask w mailing (taskFuel w) t s).2.trace.countP Event.isSend =
      s.trace.countP Event.isSend +
        (match firstSuccess w t.idx with
         | some p => p + 1
         | none => w.sendRetry) := by
  rw [runTask_alone_saved w mailing t s hpc hsave]
  simp only [List.countP_append, loopEvents_sends, firstSuccess, List.range_eq_range']
  cases hf : (List.range' 0 w.sendRetry).find? (fun x => (w.send t.idx x).isNone) <;>
    simp [Event.isSend]

/-- A dispatch on its own whose message creation failed: it makes no `Send` and no
`MarkMessage` call and increments `fails` by exactly one. -/
theorem alone_save_failed (w : World) (mailing : Mailing) (t : Task) (s : Shared)
    (hpc : t.pc = PC.save) (hsave : (w.saveMessage t.idx).2 ≠ none) :
    (runTask w mailing (taskFuel w) t s).2.trace =
        s.trace ++ [Event.SaveMessage t.idx mailing.ID t.client.ID] ∧
      (runTask w mailing (taskFuel w) t s).2.fails = s.fails + 1 ∧
      (runTask w mailing (taskFuel w) t s).1.pc = PC.done := by
  rw [runTask_alone_save_failed w mailing t s hpc hsave]
  exact ⟨rfl, rfl, rfl⟩

theorem alone_fails (w : World) (mailing : Mailing) (t : Task) (s : Shared)
    (hn : 1 ≤ w.sendRetry) (hpc : t.pc = PC.save) :
    (runTask w mailing (taskFuel w) t s).2.fails =
      s.fails + (if dispatchFailed w t.idx then 1 else 0) := by
  cases hsave : (w.saveMessage t.idx).2 with
  | none =>
      rw [(alone_marks w mailing t s hpc hsave).2]
      have hiff := loopErr_isSome w t.idx w.sendRetry 0 none hn
      simp only [Nat.zero_add] at hiff
      rw [← allSendsFail_iff] at hiff
      cases hall : allSendsFail w t.idx with
      | true => simp [dispatchFailed, hsave, hall, failBump, hiff.mpr hall]
      | false =>
          have : (loopErr w t.idx w.sendRetry 0 none).isSome = false := by
            cases h : (loopErr w t.idx w.sendRetry 0 none).isSome with
            | false => rfl
            | true => rw [hiff.mp h] at hall; cases hall
          simp [dispatchFailed, hsave, hall, failBump, this]
  | some e =>
      rw [(alone_save_failed w mailing t s hpc (by simp [hsave])).2.1]
      simp [dispatchFailed, hsave]

theorem drain_fresh_fails (w : World) (mailing : Mailing) (hn : 1 ≤ w.sendRetry)
    (cs : List Client) : ∀ (count : Nat) (s : Shared),
      (drain w mailing (tasksFrom count cs) s).2.fails =
        s.fails + (((List.range' count cs.length).filter (dispatchFailed w)).length : Nat) := by
  induction cs with
  | nil => intro count s; simp [tasksFrom, drain]
  | cons c cs ih =>
      intro count s
      simp only [tasksFrom, drain, List.length_cons, List.range'_succ]
      rw [ih, alone_fails w mailing _ s hn rfl]
      simp only [newTask, List.filter_cons]
      by_cases h : dispatchFailed w count = true
      · rw [if_pos h, if_pos h, List.length_cons]
        push_cast
        omega
      · rw [if_neg h, if_neg h]
        omega

/-- When the dispatchers run one after the other (no interleaving), the run that
completes without the deadline being observed passes to `SaveStats` a record with
`Fails` the number of recipients whose dispatch ultimately failed. -/
theorem sequential_run_fails (w : World) (mailing : Mailing) (clients : List Client)
    (hn : 1 ≤ w.sendRetry)
    (hexec : w.markMailing MailingStatus.Executing = none)
    (hfetch : w.getClientsForMailing = Except.ok clients)
    (hnever : ∀ j < clients.length, w.ctxDone j = false) :
    (mail w mailing []).fails = (failedCount w clients.length : Nat) ∧
      (mail w mailing []).trace.getLast? =
        some (Event.SaveStats { ID := mailing.ID, Matches := clients.length,
                                Sent := clients.length,
                                Fails := (failedCount w clients.length : Nat),
                                StartTime := w.start, TimeExecuting := w.since }) := by
  have hl : launch w clients 0 [] = (tasksFrom 0 clients, none) := by
    have := launch_all w clients 0 [] (by simpa using hnever)
    simpa using this
  have hf : (mail w mailing []).fails = (failedCount w clients.length : Nat) := by
    simp only [mail, hexec, hfetch, hl, wgWait, runSched]
    rw [drain_fresh_fails w mailing hn]
    simp [failedCount, List.range_eq_range']
  refine ⟨hf, ?_⟩
  have hlast : ∀ (l : List Event) (x y : Event), (l ++ [x, y]).getLast? = some y := by
    intro l x y
    rw [show l ++ [x, y] = (l ++ [x]) ++ [y] by simp, List.getLast?_concat]
  obtain ⟨_, _, evs, _, hcase⟩ := mail_fetched w mailing [] clients hexec hfetch
  rw [hl] at hcase
  rcases hcase with ⟨_, _, htr⟩ | ⟨count, hsome, _, _⟩
  · rw [htr, hf, hlast]
  · exact absurd hsome (by simp)

/-! ## The retry bound under every schedule -/

theorem isSendOf_of_byTask {e : Event} {i j : Nat} (h : e.byTask = some j) (hij : j ≠ i) :
    Event.isSendOf i e = false := by
  cases e <;> simp [Event.byTask, Event.isSendOf] at h ⊢
  omega

theorem grows_count_other {I : List Nat} {s1 s2 : Shared} (h : TraceGrows I s1 s2) (i : Nat)
    (hi : i ∉ I) :
    s2.trace.countP (Event.isSendOf i) = s1.trace.countP (Event.isSendOf i) := by
  obtain ⟨evs, htr, hev⟩ := h
  rw [htr, List.countP_append]
  have : evs.countP (Event.isSendOf i) = 0 := by
    rw [List.countP_eq_zero]
    intro e he
    obtain ⟨j, hj, hb⟩ := hev e he
    have hne : j ≠ i := by
      intro hji
      exact hi (hji ▸ hj)
    simp [isSendOf_of_byTask hb hne]
  omega

theorem step_sendInv (w : World) (mailing : Mailing) (t : Task) (s : Shared)
    (h : SendInv w.sendRetry (s.trace.countP (Event.isSendOf t.idx)) t.pc) :
    SendInv w.sendRetry ((step w mailing t s).2.trace.countP (Event.isSendOf t.idx))
      (step w mailing t s).1.pc := by
  rcases t with ⟨idx, client, msgID, pc⟩
  rcases s with ⟨err, fails, trace⟩
  cases pc with
  | save => simpa [step, SendInv, List.countP_append, Event.isSendOf] using h
  | checkSave =>
      have h' : trace.countP (Event.isSendOf idx) = 0 := h
      cases err
      · show SendInv w.sendRetry (trace.countP (Event.isSendOf idx)) (loopHead w 0)
        by_cases hlt : 0 < w.sendRetry
        · rw [loopHead_lt w 0 hlt]
          exact ⟨hlt, by omega⟩
        · rw [loopHead_ge w 0 (by omega)]
          show trace.countP (Event.isSendOf idx) ≤ w.sendRetry
          omega
      · show trace.countP (Event.isSendOf idx) ≤ w.sendRetry
        omega
  | send a =>
      have h' : a < w.sendRetry ∧ trace.countP (Event.isSendOf idx) ≤ a := h
      show a < w.sendRetry ∧
        (trace ++ [Event.Send idx msgID client.PhoneNumber mailing.Text]).countP
          (Event.isSendOf idx) ≤ a + 1
      rw [List.countP_append]
      have h0 : List.countP (Event.isSendOf idx)
          [Event.Send idx msgID client.PhoneNumber mailing.Text] = 1 := by
        simp [Event.isSendOf]
      omega
  | checkSend a =>
      have h' : a < w.sendRetry ∧ trace.countP (Event.isSendOf idx) ≤ a + 1 := h
      cases err
      · show trace.countP (Event.isSendOf idx) ≤ w.sendRetry
        omega
      · show SendInv w.sendRetry ((trace ++ [Event.Sleep idx 1]).countP (Event.isSendOf idx))
          (loopHead w (a + 1))
        rw [List.countP_append]
        have h0 : List.countP (Event.isSendOf idx) [Event.Sleep idx 1] = 0 := by
          simp [Event.isSendOf]
        rw [h0]
        by_cases hlt : a + 1 < w.sendRetry
        · rw [loopHead_lt w (a + 1) hlt]
          exact ⟨hlt, by omega⟩
        · rw [loopHead_ge w (a + 1) (by omega)]
          show trace.countP (Event.isSendOf idx) + 0 ≤ w.sendRetry
          omega
  | final =>
      have h' : trace.countP (Event.isSendOf idx) ≤ w.sendRetry := h
      cases err <;> exact h'
  | markFailed =>
      have h' : trace.countP (Event.isSendOf idx) ≤ w.sendRetry := h
      show (trace ++ [Event.MarkMessage idx msgID SendStatus.Failed]).countP
        (Event.isSendOf idx) ≤ w.sendRetry
      rw [List.countP_append]
      have h0 : List.countP (Event.isSendOf idx)
          [Event.MarkMessage idx msgID SendStatus.Failed] = 0 := by
        simp [Event.isSendOf]
      omega
  | markSuccess =>
      have h' : trace.countP (Event.isSendOf idx) ≤ w.sendRetry := h
      show (trace ++ [Event.MarkMessage idx msgID SendStatus.Success]).countP
        (Event.isSendOf idx) ≤ w.sendRetry
      rw [List.countP_append]
      have h0 : List.countP (Event.isSendOf idx)
          [Event.MarkMessage idx msgID SendStatus.Success] = 0 := by
        simp [Event.isSendOf]
      omega
  | done => exact h

theorem sendInv_le {n cnt : Nat} {pc : PC} (h : SendInv n cnt pc) : cnt ≤ n := by
  cases pc <;> simp only [SendInv] at h <;> omega

theorem step_allSendInv (w : World) (mailing : Mailing) (t : Task) (ts : List Task) (s : Shared)
    (hnot : t.idx ∉ ts.map Task.idx) (h : AllSendInv w (t :: ts) s) :
    AllSendInv w ((step w mailing t s).1 :: ts) (step w mailing t s).2 := by
  intro u hu
  rcases List.mem_cons.mp hu with hu | hu
  · subst hu
    have := step_sendInv w mailing t s (h t (by simp))
    rwa [step_idx]
  · have hne : u.idx ∉ [t.idx] := by
      intro hmem
      simp only [List.mem_singleton] at hmem
      exact hnot (hmem ▸ List.mem_map_of_mem Task.idx hu)
    rw [grows_count_other (step_grows w mailing t s) u.idx hne]
    exact h u (List.mem_cons_of_mem _ hu)

theorem stepAt_allSendInv (w : World) (mailing : Mailing) (i : Nat) (ts : List Task)
    (s : Shared) (hnd : (ts.map Task.idx).Nodup) (h : AllSendInv w ts s) :
    AllSendInv w (stepAt w mailing i ts s).1 (stepAt w mailing i ts s).2 := by
  induction ts generalizing i with
  | nil => cases i <;> exact h
  | cons t ts ih =>
      rw [List.map_cons, List.nodup_cons] at hnd
      cases i with
      | zero => exact step_allSendInv w mailing t ts s hnd.1 h
      | succ j =>
          have e1 : (stepAt w mailing (j + 1) (t :: ts) s).1 = t :: (stepAt w mailing j ts s).1 :=
            rfl
          have e2 : (stepAt w mailing (j + 1) (t :: ts) s).2 = (stepAt w mailing j ts s).2 := rfl
          rw [e1, e2]
          intro u hu
          rcases List.mem_cons.mp hu with hu | hu
          · subst hu
            rw [grows_count_other (stepAt_grows w mailing j ts s) u.idx hnd.1]
            exact h u (by simp)
          · exact ih j hnd.2 (fun v hv => h v (List.mem_cons_of_mem _ hv)) u hu

theorem runSched_allSendInv (w : World) (mailing : Mailing) (sched : List Nat) (ts : List Task)
    (s : Shared) (hnd : (ts.map Task.idx).Nodup) (h : AllSendInv w ts s) :
    AllSendInv w (runSched w mailing sched ts s).1 (runSched w mailing sched ts s).2 := by
  induction sched generalizing ts s with
  | nil => exact h
  | cons i sched ih =>
      apply ih
      · rw [map_idx_of_who (stepAt_who w mailing i ts s)]
        exact hnd
      · exact stepAt_allSendInv w mailing i ts s hnd h
theorem runTask_allSendInv (w : World) (mailing : Mailing) (fuel : Nat) (t : Task)
    (ts : List Task) (s : Shared) (hnot : t.idx ∉ ts.map Task.idx)
    (h : AllSendInv w (t :: ts) s) :
    AllSendInv w ((runTask w mailing fuel t s).1 :: ts) (runTask w mailing fuel t s).2 := by
  induction fuel generalizing t s with
  | zero => exact h
  | succ k ih =>
      apply ih
      · rw [step_idx]
        exact hnot
      · exact step_allSendInv w mailing t ts s hnot h

theorem drain_allSendInv (w : World) (mailing : Mailing) (ts : List Task) (s : Shared)
    (hnd : (ts.map Task.idx).Nodup) (h : AllSendInv w ts s) :
    AllSendInv w (drain w mailing ts s).1 (drain w mailing ts s).2 := by
  induction ts generalizing s with
  | nil => exact h
  | cons t ts ih =>
      rw [List.map_cons, List.nodup_cons] at hnd
      have hrun := runTask_allSendInv w mailing (taskFuel w) t ts s hnd.1 h
      have e1 : (drain w mailing (t :: ts) s).1 =
          (runTask w mailing (taskFuel w) t s).1 ::
            (drain w mailing ts (runTask w mailing (taskFuel w) t s).2).1 := rfl
      have e2 : (drain w mailing (t :: ts) s).2 =
          (drain w mailing ts (runTask w mailing (taskFuel w) t s).2).2 := rfl
      rw [e1, e2]
      intro u hu
      rcases List.mem_cons.mp hu with hu | hu
      · subst hu
        have hidx : (runTask w mailing (taskFuel w) t s).1.idx = t.idx :=
          congrArg Prod.fst (runTask_who w mailing (taskFuel w) t s)
        rw [grows_count_other (drain_grows w mailing ts _) _ (by rw [hidx]; exact hnd.1)]
        exact hrun _ (by simp)
      · exact ih _ hnd.2 (fun v hv => hrun v (List.mem_cons_of_mem _ hv)) u hu

theorem wgWait_allSendInv (w : World) (mailing : Mailing) (sched : List Nat) (ts : List Task)
    (s : Shared) (hnd : (ts.map Task.idx).Nodup) (h : AllSendInv w ts s) :
    AllSendInv w (wgWait w mailing sched ts s).1 (wgWait w mailing sched ts s).2 := by
  unfold wgWait
  apply drain_allSendInv
  · rw [map_idx_of_who (runSched_who w mailing sched ts s)]
    exact hnd
  · exact runSched_allSendInv w mailing sched ts s hnd h

theorem tasksFrom_idx (count : Nat) (cs : List Client) :
    (tasksFrom count cs).map Task.idx = List.range' count cs.length := by
  induction cs generalizing count with
  | nil => rfl
  | cons c cs ih => simp [tasksFrom, ih, newTask, List.range'_succ]

theorem tasksFrom_pc (count : Nat) (cs : List Client) :
    ∀ t ∈ tasksFrom count cs, t.pc = PC.save := by
  induction cs generalizing count with
  | nil => intro t ht; simp [tasksFrom] at ht
  | cons c cs ih =>
      intro t ht
      simp only [tasksFrom, List.mem_cons] at ht
      rcases ht with ht | ht
      · rw [ht]; rfl
      · exact ih _ t ht

theorem launch_tasks (w : World) (cs : List Client) : ∀ (count : Nat) (acc : List Task),
    ∃ m, (launch w cs count acc).1 = acc ++ tasksFrom count (cs.take m) := by
  induction cs with
  | nil => intro count acc; exact ⟨0, by simp [launch, tasksFrom]⟩
  | cons c cs ih =>
      intro count acc
      cases hd : w.ctxDone count with
      | true => exact ⟨0, by simp [launch, hd, tasksFrom]⟩
      | false =>
          obtain ⟨m, hm⟩ := ih (count + 1) (acc ++ [newTask count c])
          exact ⟨m + 1, by simp [launch, hd, hm, tasksFrom]⟩

/-- The retry bound holds in every run, whatever the interleaving: no dispatcher
calls `Send` more than `sendRetry` times. -/
theorem sends_at_most_retry (w : World) (mailing : Mailing) (sched : List Nat) (i : Nat) :
    (mail w mailing sched).trace.countP (Event.isSendOf i) ≤ w.sendRetry := by
  cases hexec : w.markMailing MailingStatus.Executing with
  | some e => simp [mail, hexec, Event.isSendOf]
  | none =>
      cases hfetch : w.getClientsForMailing with
      | error e => simp [mail, hexec, hfetch, Event.isSendOf]
      | ok clients =>
          obtain ⟨m, hm⟩ := launch_tasks w clients 0 []
          rw [List.nil_append] at hm
          have hnd : ((launch w clients 0 []).1.map Task.idx).Nodup := by
            rw [hm, tasksFrom_idx]
            exact List.nodup_range' _ _
          have hinit : AllSendInv w (launch w clients 0 []).1
              { err := none, fails := 0,
                trace := [Event.MarkMailing mailing.ID MailingStatus.Executing,
                          Event.GetClientsForMailing mailing.ID] } := by
            intro t ht
            rw [hm] at ht
            rw [tasksFrom_pc _ _ t ht]
            simp [SendInv, Event.isSendOf]
          have hinv := wgWait_allSendInv w mailing sched _ _ hnd hinit
          have hgrow := wgWait_grows w mailing sched (launch w clients 0 []).1
              { err := none, fails := 0,
                trace := [Event.MarkMailing mailing.ID MailingStatus.Executing,
                          Event.GetClientsForMailing mailing.ID] }
          have hwho := wgWait_who w mailing sched (launch w clients 0 []).1
              { err := none, fails := 0,
                trace := [Event.MarkMailing mailing.ID MailingStatus.Executing,
                          Event.GetClientsForMailing mailing.ID] }
          have hcount : (wgWait w mailing sched (launch w clients 0 []).1
              { err := none, fails := 0,
                trace := [Event.MarkMailing mailing.ID MailingStatus.Executing,
                          Event.GetClientsForMailing mailing.ID] }).2.trace.countP
                (Event.isSendOf i) ≤ w.sendRetry := by
            by_cases hi : i ∈ (launch w clients 0 []).1.map Task.idx
            · rw [← map_idx_of_who hwho] at hi
              obtain ⟨t, ht, hti⟩ := List.mem_map.mp hi
              have := sendInv_le (hinv t ht)
              rwa [hti] at this
            · rw [grows_count_other hgrow i hi]
              simp [Event.isSendOf]
          cases hstop : (launch w clients 0 []).2 with
          | none =>
              simp only [mail, hexec, hfetch, hstop, List.countP_append]
              have h0 : ∀ x y, List.countP (Event.isSendOf i)
                  [Event.MarkMailing mailing.ID x, Event.SaveStats y] = 0 := by
                intro x y
                simp [Event.isSendOf]
              rw [h0]
              exact hcount
          | some count =>
              simp only [mail, hexec, hfetch, hstop, List.countP_append]
              have h0 : ∀ x y, List.countP (Event.isSendOf i)
                  [Event.MarkMailing mailing.ID x, Event.SaveStats y] = 0 := by
                intro x y
                simp [Event.isSendOf]
              rw [h0]
              exact hcount

/-! ## Properties of the shared state kept by every step -/

theorem runTask_keeps (w : World) (mailing : Mailing) (P : Shared → Prop)
    (hstep : ∀ t s, P s → P (step w mailing t s).2) (fuel : Nat) (t : Task) (s : Shared)
    (h : P s) : P (runTask w mailing fuel t s).2 := by
  induction fuel generalizing t s with
  | zero => exact h
  | succ k ih => exact ih _ _ (hstep t s h)

theorem stepAt_keeps (w : World) (mailing : Mailing) (P : Shared → Prop)
    (hstep : ∀ t s, P s → P (step w mailing t s).2) (i : Nat) (ts : List Task) (s : Shared)
    (h : P s) : P (stepAt w mailing i ts s).2 := by
  induction ts generalizing i with
  | nil => cases i <;> exact h
  | cons t ts ih =>
      cases i with
      | zero => exact hstep t s h
      | succ j => exact ih j

theorem runSched_keeps (w : World) (mailing : Mailing) (P : Shared → Prop)
    (hstep : ∀ t s, P s → P (step w mailing t s).2) (sched : List Nat) (ts : List Task)
    (s : Shared) (h : P s) : P (runSched w mailing sched ts s).2 := by
  induction sched generalizing ts s with
  | nil => exact h
  | cons i sched ih => exact ih _ _ (stepAt_keeps w mailing P hstep i ts s h)

theorem drain_keeps (w : World) (mailing : Mailing) (P : Shared → Prop)
    (hstep : ∀ t s, P s → P (step w mailing t s).2) (ts : List Task) (s : Shared)
    (h : P s) : P (drain w mailing ts s).2 := by
  induction ts generalizing s with
  | nil => exact h
  | cons t ts ih => exact ih _ (runTask_keeps w mailing P hstep _ t s h)

theorem wgWait_keeps (w : World) (mailing : Mailing) (P : Shared → Prop)
    (hstep : ∀ t s, P s → P (step w mailing t s).2) (sched : List Nat) (ts : List Task)
    (s : Shared) (h : P s) : P (wgWait w mailing sched ts s).2 :=
  drain_keeps w mailing P hstep _ _ (runSched_keeps w mailing P hstep sched ts s h)

theorem step_keeps_calm (w : World) (mailing : Mailing)
    (hsave : ∀ i, (w.saveMessage i).2 = none) (hsend : ∀ i a, w.send i a = none)
    (hmark : ∀ i st, w.markMessage i st = none) (t : Task) (s : Shared)
    (h : s.err = none ∧ s.fails = 0) :
    (step w mailing t s).2.err = none ∧ (step w mailing t s).2.fails = 0 := by
  rcases t with ⟨idx, client, msgID, pc⟩
  rcases s with ⟨err, fails, trace⟩
  obtain ⟨h1, h2⟩ := h
  simp only at h1 h2
  subst h1 h2
  cases pc <;> simp [step, hsave, hsend, hmark]

/-- When no `SaveMessage`, `Send` and `MarkMessage` call returns an error, a run that
completes without the deadline being observed reports `Fails = 0` under every
schedule (scenario A: three recipients give matches 3, sent 3, fails 0). -/
theorem all_succeed_fails_zero (w : World) (mailing : Mailing) (sched : List Nat)
    (clients : List Client)
    (hexec : w.markMailing MailingStatus.Executing = none)
    (hfetch : w.getClientsForMailing = Except.ok clients)
    (hnever : ∀ j < clients.length, w.ctxDone j = false)
    (hsave : ∀ i, (w.saveMessage i).2 = none) (hsend : ∀ i a, w.send i a = none)
    (hmark : ∀ i st, w.markMessage i st = none) :
    (mail w mailing sched).fails = 0 ∧
      (mail w mailing sched).trace.getLast? =
        some (Event.SaveStats { ID := mailing.ID, Matches := clients.length,
                                Sent := clients.length, Fails := 0,
                                StartTime := w.start, TimeExecuting := w.since }) := by
  have hl : launch w clients 0 [] = (tasksFrom 0 clients, none) := by
    have := launch_all w clients 0 [] (by simpa using hnever)
    simpa using this
  have hkeep := wgWait_keeps w mailing (fun s => s.err = none ∧ s.fails = 0)
    (step_keeps_calm w mailing hsave hsend hmark) sched (tasksFrom 0 clients)
    { err := none, fails := 0,
      trace := [Event.MarkMailing mailing.ID MailingStatus.Executing,
                Event.GetClientsForMailing mailing.ID] } ⟨rfl, rfl⟩
  have hf : (mail w mailing sched).fails = 0 := by
    simp only [mail, hexec, hfetch, hl]
    exact hkeep.2
  refine ⟨hf, ?_⟩
  have hlast : ∀ (l : List Event) (x y : Event), (l ++ [x, y]).getLast? = some y := by
    intro l x y
    rw [show l ++ [x, y] = (l ++ [x]) ++ [y] by simp, List.getLast?_concat]
  obtain ⟨_, _, evs, _, hcase⟩ := mail_fetched w mailing sched clients hexec hfetch
  rw [hl] at hcase
  rcases hcase with ⟨_, _, htr⟩ | ⟨count, hsome, _, _⟩
  · rw [htr, hf, hlast]
  · exact absurd hsome (by simp)

/-! ## Status writes and error returns of `mail` -/

theorem statusWrites_dispatch (evs : List Event) (I : List Nat)
    (h : ∀ e ∈ evs, ∃ i ∈ I, e.byTask = some i) : statusWrites evs = [] := by
  unfold statusWrites
  rw [List.filterMap_eq_nil_iff]
  intro e he
  obtain ⟨i, _, hi⟩ := h e he
  cases e <;> simp [Event.byTask, Event.statusWrite] at hi ⊢

theorem launch_stopped (w : World) (cs : List Client) : ∀ (count : Nat) (acc : List Task)
    (stop : Nat), (launch w cs count acc).2 = some stop →
      ∃ k, stop = count + k ∧ k < cs.length ∧ (∀ j < k, w.ctxDone (count + j) = false) ∧
        w.ctxDone (count + k) = true ∧
        (launch w cs count acc).1 = acc ++ tasksFrom count (cs.take k) := by
  induction cs with
  | nil => intro count acc stop h; simp [launch] at h
  | cons c cs ih =>
      intro count acc stop h
      cases hd : w.ctxDone count with
      | true =>
          simp only [launch, hd, if_true, Option.some.injEq] at h
          exact ⟨0, by omega, by simp, by simp, by simpa using hd, by simp [launch, hd, tasksFrom]⟩
      | false =>
          simp only [launch, hd, Bool.false_eq_true, if_false] at h
          obtain ⟨k, h1, h2, h3, h4, h5⟩ := ih (count + 1) (acc ++ [newTask count c]) stop h
          refine ⟨k + 1, by omega, by simp; omega, ?_, ?_, ?_⟩
          · intro j hj
            cases j with
            | zero => simpa using hd
            | succ j =>
                have := h3 j (by omega)
                rwa [show count + 1 + j = count + (j + 1) by omega] at this
          · rwa [show count + 1 + k = count + (k + 1) by omega] at h4
          · simp only [launch, hd, Bool.false_eq_true, if_false]
            rw [h5]
            simp [tasksFrom]

/-! ## The scheduler loop -/

theorem executorRun_tasks_done (w : World) (now : Int) (mailing : Mailing) (sched : List Nat) :
    ∀ t ∈ (executorRun w now mailing sched).tasks, t.pc = PC.done := by
  unfold executorRun
  split
  · intro t ht; simp at ht
  · cases hexec : w.markMailing MailingStatus.Executing with
    | some e => intro t ht; simp [mail, hexec] at ht
    | none =>
        cases hfetch : w.getClientsForMailing with
        | error e => intro t ht; simp [mail, hexec, hfetch] at ht
        | ok clients => exact (mail_fetched w mailing sched clients hexec hfetch).2.1

theorem loop_returned_iff (ctxErr : GoError) (sels : List Select) : ∀ st : LoopState,
    ((StartFetchingMailings ctxErr sels st).returned ≠ none ↔
      ∃ sel ∈ sels, sel.takesDone = true) := by
  induction sels with
  | nil => intro st; simp [StartFetchingMailings]
  | cons sel rest ih =>
      intro st
      cases hd : sel.takesDone with
      | true => simp [StartFetchingMailings, hd]
      | false =>
          cases ht : sel.tick with
          | none => simp [StartFetchingMailings, hd, ht, ih]
          | some td => simp [StartFetchingMailings, hd, ht, ih]

theorem loop_returned_value (ctxErr : GoError) (sels : List Select) : ∀ (st : LoopState)
    (x : Option GoError), (StartFetchingMailings ctxErr sels st).returned = some x →
      x = some ctxErr ∧
      (StartFetchingMailings ctxErr sels st).waited =
        (StartFetchingMailings ctxErr sels st).state.launched.map Launched.run := by
  induction sels with
  | nil => intro st x h; simp [StartFetchingMailings] at h
  | cons sel rest ih =>
      intro st x h
      cases hd : sel.takesDone with
      | true =>
          simp only [StartFetchingMailings, hd, if_true, Option.some.injEq] at h ⊢
          exact ⟨h.symm, trivial⟩
      | false =>
          cases ht : sel.tick with
          | none =>
              simp only [StartFetchingMailings, hd, ht, Bool.false_eq_true, if_false] at h ⊢
              exact ih st x h
          | some td =>
              simp only [StartFetchingMailings, hd, ht, Bool.false_eq_true, if_false] at h ⊢
              exact ih _ x h

theorem loop_stops_at_done (ctxErr : GoError) (pre : List Select) (sel : Select)
    (post : List Select) (hsel : sel.takesDone = true) : ∀ st : LoopState,
    (∀ s ∈ pre, s.takesDone = false) →
      (StartFetchingMailings ctxErr (pre ++ sel :: post) st).state =
        (StartFetchingMailings ctxErr pre st).state := by
  induction pre with
  | nil => intro st _; simp [StartFetchingMailings, hsel]
  | cons s pre ih =>
      intro st hpre
      have hs : s.takesDone = false := hpre s (by simp)
      have hrest : ∀ s' ∈ pre, s'.takesDone = false := fun s' h => hpre s' (by simp [h])
      cases ht : s.tick with
      | none =>
          simp only [List.cons_append, StartFetchingMailings, hs, ht, Bool.false_eq_true,
            if_false]
          exact ih st hrest
      | some td =>
          simp only [List.cons_append, StartFetchingMailings, hs, ht, Bool.false_eq_true,
            if_false]
          exact ih _ hrest
/-- A tick launches one campaign, then the context is cancelled: the loop returns the
context error after the launched run has written `Executing` and `Done`. -/
theorem tickThenCancel_waits :
    (StartFetchingMailings (GoError.raised 0) tickThenCancel loopStart).waited.map
        (fun r => statusWrites r.trace) =
        [[MailingStatus.Executing, MailingStatus.Done]] ∧
      (StartFetchingMailings (GoError.raised 0) tickThenCancel loopStart).state.trace =
        [Event.GetPendingMailings] ∧
      (StartFetchingMailings (GoError.raised 0) tickThenCancel loopStart).returned =
        some (some (GoError.raised 0)) := by
  refine ⟨by decide, by decide, by decide⟩

/-! ## Done contexts -/

theorem launch_spec (w : World) (cs : List Client) : ∀ (count : Nat) (acc : List Task),
    ∃ k, k ≤ cs.length ∧ (launch w cs count acc).1 = acc ++ tasksFrom count (cs.take k) ∧
      (∀ j < k, w.ctxDone (count + j) = false) ∧
      (((launch w cs count acc).2 = none ∧ k = cs.length) ∨
        ((launch w cs count acc).2 = some (count + k) ∧ k < cs.length ∧
          w.ctxDone (count + k) = true)) := by
  induction cs with
  | nil =>
      intro count acc
      exact ⟨0, by simp, by simp [launch, tasksFrom], by simp, Or.inl ⟨rfl, rfl⟩⟩
  | cons c cs ih =>
      intro count acc
      cases hd : w.ctxDone count with
      | true =>
          refine ⟨0, by simp, by simp [launch, hd, tasksFrom], by simp, Or.inr ⟨?_, by simp, ?_⟩⟩
          · simp [launch, hd]
          · simpa using hd
      | false =>
          obtain ⟨k, hk, hl, hno, hcase⟩ := ih (count + 1) (acc ++ [newTask count c])
          have hstep : launch w (c :: cs) count acc =
              launch w cs (count + 1) (acc ++ [newTask count c]) := by
            simp [launch, hd]
          refine ⟨k + 1, by simp; omega, ?_, ?_, ?_⟩
          · rw [hstep, hl]
            simp [tasksFrom]
          · intro j hj
            cases j with
            | zero => simpa using hd
            | succ j =>
                have := hno j (by omega)
                rwa [show count + 1 + j = count + (j + 1) by omega] at this
          · rw [hstep]
            rcases hcase with ⟨h1, h2⟩ | ⟨h1, h2, h3⟩
            · exact Or.inl ⟨h1, by simp; omega⟩
            · refine Or.inr ⟨?_, by simp; omega, ?_⟩
              · rw [h1, show count + 1 + k = count + (k + 1) by omega]
              · rwa [show count + 1 + k = count + (k + 1) by omega] at h3

theorem timerCtx_done (parent : Ctx) (d : Int) (lag : Nat) (now : Int)
    (h : (timerCtx parent d lag).isDone now = true) :
    d ≤ now ∨ parent.isDone now = true := by
  unfold Ctx.isDone timerCtx earliest at h
  unfold Ctx.isDone
  rw [Bool.or_eq_true] at h
  rcases h with h | h
  · cases hp : parent.timerAt with
    | none =>
        simp only [hp, decide_eq_true_eq] at h
        left
        omega
    | some f =>
        simp only [hp, decide_eq_true_eq] at h
        rcases min_le_iff.mp h with h | h
        · right
          simp [h]
        · left
          omega
  · right
    rw [Bool.or_eq_true]
    exact Or.inr h

/-- The context derived with `context.WithDeadline` is done only when its deadline has
been reached or the parent is done. -/
theorem withDeadline_done (parent : Ctx) (d : Int) (lag : Nat) (now : Int)
    (h : (withDeadline parent d lag).isDone now = true) :
    d ≤ now ∨ parent.isDone now = true := by
  unfold withDeadline at h
  cases hp : parent.deadline with
  | none =>
      simp only [hp] at h
      exact timerCtx_done parent d lag now h
  | some p =>
      simp only [hp] at h
      by_cases hlt : p < d
      · rw [if_pos hlt] at h
        exact Or.inr h
      · rw [if_neg hlt] at h
        exact timerCtx_done parent d lag now h

/-! ## The query of `GetClientsForMailing` on a concrete filter -/

/-- The query text for the operator 900 and the timezone UTC, with no tag. -/
theorem filteredCampaign_query :
    clientsQuery filteredCampaign =
      some "\n\tSELECT *\n\tFROM client\n\n\tWHERE phone_operator = @phoneOperator AND timezone = @timezone" ∧
      clientsQuery { campaign with Filter := some { PhoneOperator := 0, Tag := "", Timezone := "" } } =
        some "\n\tSELECT *\n\tFROM client\n\n\t" ∧
      clientsQuery campaign = none := by
  refine ⟨by decide, by decide, rfl⟩

/-! ## The single-send handler -/

/-- A request whose message is created makes exactly one `MarkMessage` call when the
body is bound and the recipient is found, and none when either step fails. -/
theorem sendMessage_marks (r : SendRequest) (id : Int) (hid : r.idURL ≠ "")
    (hparse : r.parseInt = Except.ok id) (hsave : r.saveMessage.2 = none) :
    ((∃ text c, r.shouldBind = Except.ok text ∧ r.getClientByID = Except.ok c) →
        (sendMessage r).calls.countP HandlerCall.isMarkMessage = 1) ∧
      ((∃ e, r.shouldBind = Except.error e) →
        (sendMessage r).calls.countP HandlerCall.isMarkMessage = 0) ∧
      ((∃ e, r.getClientByID = Except.error e) →
        (sendMessage r).calls.countP HandlerCall.isMarkMessage = 0) := by
  unfold sendMessage
  simp only [hid, if_false, hparse, hsave]
  cases hb : r.shouldBind with
  | error e => simp [HandlerCall.isMarkMessage]
  | ok text =>
      cases hc : r.getClientByID with
      | error e => simp [HandlerCall.isMarkMessage]
      | ok client =>
          cases hs : r.send with
          | some e => simp [HandlerCall.isMarkMessage]
          | none =>
              cases hm : r.markMessage SendStatus.Success <;>
                simp [HandlerCall.isMarkMessage]

/-! ## Properties of the calls of each dispatcher, under every schedule -/

theorem grows_callsOf_other {I : List Nat} {s1 s2 : Shared} (h : TraceGrows I s1 s2) (i : Nat)
    (hi : i ∉ I) : callsOf i s2.trace = callsOf i s1.trace := by
  obtain ⟨evs, htr, hev⟩ := h
  rw [htr, callsOf, List.filter_append]
  have : evs.filter (fun e => decide (e.byTask = some i)) = [] := by
    rw [List.filter_eq_nil_iff]
    intro e he
    obtain ⟨j, hj, hb⟩ := hev e he
    have hne : j ≠ i := by
      intro hji
      exact hi (hji ▸ hj)
    simp [hb, hne]
  rw [this, List.append_nil]
  rfl

theorem step_allInv (Q : Nat → List Event → PC → Prop) (w : World) (mailing : Mailing)
    (hstep : ∀ t s, Q t.idx (callsOf t.idx s.trace) t.pc →
      Q t.idx (callsOf t.idx (step w mailing t s).2.trace) (step w mailing t s).1.pc)
    (t : Task) (ts : List Task) (s : Shared)
    (hnot : t.idx ∉ ts.map Task.idx) (h : AllInv Q (t :: ts) s) :
    AllInv Q ((step w mailing t s).1 :: ts) (step w mailing t s).2 := by
  intro u hu
  rcases List.mem_cons.mp hu with hu | hu
  · subst hu
    have := hstep t s (h t (by simp))
    rwa [step_idx]
  · have hne : u.idx ∉ [t.idx] := by
      intro hmem
      simp only [List.mem_singleton] at hmem
      exact hnot (hmem ▸ List.mem_map_of_mem Task.idx hu)
    rw [grows_callsOf_other (step_grows w mailing t s) u.idx hne]
    exact h u (List.mem_cons_of_mem _ hu)

theorem stepAt_allInv (Q : Nat → List Event → PC → Prop) (w : World) (mailing : Mailing)
    (hstep : ∀ t s, Q t.idx (callsOf t.idx s.trace) t.pc →
      Q t.idx (callsOf t.idx (step w mailing t s).2.trace) (step w mailing t s).1.pc)
    (i : Nat) (ts : List Task) (s : Shared) (hnd : (ts.map Task.idx).Nodup)
    (h : AllInv Q ts s) :
    AllInv Q (stepAt w mailing i ts s).1 (stepAt w mailing i ts s).2 := by
  induction ts generalizing i with
  | nil => cases i <;> exact h
  | cons t ts ih =>
      rw [List.map_cons, List.nodup_cons] at hnd
      cases i with
      | zero => exact step_allInv Q w mailing hstep t ts s hnd.1 h
      | succ j =>
          have e1 : (stepAt w mailing (j + 1) (t :: ts) s).1 = t :: (stepAt w mailing j ts s).1 :=
            rfl
          have e2 : (stepAt w mailing (j + 1) (t :: ts) s).2 = (stepAt w mailing j ts s).2 := rfl
          rw [e1, e2]
          intro u hu
          rcases List.mem_cons.mp hu with hu | hu
          · subst hu
            rw [grows_callsOf_other (stepAt_grows w mailing j ts s) u.idx hnd.1]
            exact h u (by simp)
          · exact ih j hnd.2 (fun v hv => h v (List.mem_cons_of_mem _ hv)) u hu

theorem runSched_allInv (Q : Nat → List Event → PC → Prop) (w : World) (mailing : Mailing)
    (hstep : ∀ t s, Q t.idx (callsOf t.idx s.trace) t.pc →
      Q t.idx (callsOf t.idx (step w mailing t s).2.trace) (step w mailing t s).1.pc)
    (sched : List Nat) (ts : List Task) (s : Shared) (hnd : (ts.map Task.idx).Nodup)
    (h : AllInv Q ts s) :
    AllInv Q (runSched w mailing sched ts s).1 (runSched w mailing sched ts s).2 := by
  induction sched generalizing ts s with
  | nil => exact h
  | cons i sched ih =>
      apply ih
      · rw [map_idx_of_who (stepAt_who w mailing i ts s)]
        exact hnd
      · exact stepAt_allInv Q w mailing hstep i ts s hnd h

theorem runTask_allInv (Q : Nat → List Event → PC → Prop) (w : World) (mailing : Mailing)
    (hstep : ∀ t s, Q t.idx (callsOf t.idx s.trace) t.pc →
      Q t.idx (callsOf t.idx (step w mailing t s).2.trace) (step w mailing t s).1.pc)
    (fuel : Nat) (t : Task) (ts : List Task) (s : Shared) (hnot : t.idx ∉ ts.map Task.idx)
    (h : AllInv Q (t :: ts) s) :
    AllInv Q ((runTask w mailing fuel t s).1 :: ts) (runTask w mailing fuel t s).2 := by
  induction fuel generalizing t s with
  | zero => exact h
  | succ k ih =>
      apply ih
      · rw [step_idx]
        exact hnot
      · exact step_allInv Q w mailing hstep t ts s hnot h

theorem drain_allInv (Q : Nat → List Event → PC → Prop) (w : World) (mailing : Mailing)
    (hstep : ∀ t s, Q t.idx (callsOf t.idx s.trace) t.pc →
      Q t.idx (callsOf t.idx (step w mailing t s).2.trace) (step w mailing t s).1.pc)
    (ts : List Task) (s : Shared) (hnd : (ts.map Task.idx).Nodup) (h : AllInv Q ts s) :
    AllInv Q (drain w mailing ts s).1 (drain w mailing ts s).2 := by
  induction ts generalizing s with
  | nil => exact h
  | cons t ts ih =>
      rw [List.map_cons, List.nodup_cons] at hnd
      have hrun := runTask_allInv Q w mailing hstep (taskFuel w) t ts s hnd.1 h
      have e1 : (drain w mailing (t :: ts) s).1 =
          (runTask w mailing (taskFuel w) t s).1 ::
            (drain w mailing ts (runTask w mailing (taskFuel w) t s).2).1 := rfl
      have e2 : (drain w mailing (t :: ts) s).2 =
          (drain w mailing ts (runTask w mailing (taskFuel w) t s).2).2 := rfl
      rw [e1, e2]
      intro u hu
      rcases List.mem_cons.mp hu with hu | hu
      · subst hu
        have hidx : (runTask w mailing (taskFuel w) t s).1.idx = t.idx :=
          congrArg Prod.fst (runTask_who w mailing (taskFuel w) t s)
        rw [grows_callsOf_other (drain_grows w mailing ts _) _ (by rw [hidx]; exact hnd.1)]
        exact hrun _ (by simp)
      · exact ih _ hnd.2 (fun v hv => hrun v (List.mem_cons_of_mem _ hv)) u hu

theorem wgWait_allInv (Q : Nat → List Event → PC → Prop) (w : World) (mailing : Mailing)
    (hstep : ∀ t s, Q t.idx (callsOf t.idx s.trace) t.pc →
      Q t.idx (callsOf t.idx (step w mailing t s).2.trace) (step w mailing t s).1.pc)
    (sched : List Nat) (ts : List Task) (s : Shared) (hnd : (ts.map Task.idx).Nodup)
    (h : AllInv Q ts s) :
    AllInv Q (wgWait w mailing sched ts s).1 (wgWait w mailing sched ts s).2 := by
  unfold wgWait
  apply drain_allInv Q w mailing hstep
  · rw [map_idx_of_who (runSched_who w mailing sched ts s)]
    exact hnd
  · exact runSched_allInv Q w mailing hstep sched ts s hnd h

theorem callsOf_append_own (i : Nat) (tr : List Event) (e : Event) (h : e.byTask = some i) :
    callsOf i (tr ++ [e]) = callsOf i tr ++ [e] := by
  simp [callsOf, List.filter_append, h]

theorem callsOf_append_main (i : Nat) (tr : List Event) (e : Event) (h : e.byTask = none) :
    callsOf i (tr ++ [e]) = callsOf i tr := by
  simp [callsOf, List.filter_append, h]

/-- A property of the calls of each dispatcher that every step of the dispatcher keeps,
and that holds of a dispatcher that has not started, holds at the end of every run of
`mail`, under every schedule, of every dispatcher launched; and a recipient for which
no dispatcher was launched has no call in the trace. -/
theorem mail_dispatchers (Q : Nat → List Event → PC → Prop) (w : World) (mailing : Mailing)
    (hstep : ∀ t s, Q t.idx (callsOf t.idx s.trace) t.pc →
      Q t.idx (callsOf t.idx (step w mailing t s).2.trace) (step w mailing t s).1.pc)
    (hinit : ∀ i, Q i [] PC.save) (sched : List Nat) :
    (∀ t ∈ (mail w mailing sched).tasks,
        Q t.idx (callsOf t.idx (mail w mailing sched).trace) PC.done) ∧
      (∀ i, i ∉ (mail w mailing sched).tasks.map Task.idx →
        callsOf i (mail w mailing sched).trace = []) := by
  cases hexec : w.markMailing MailingStatus.Executing with
  | some e => simp [mail, hexec, callsOf, Event.byTask]
  | none =>
      cases hfetch : w.getClientsForMailing with
      | error e => simp [mail, hexec, hfetch, callsOf, Event.byTask]
      | ok clients =>
          obtain ⟨m, hm⟩ := launch_tasks w clients 0 []
          rw [List.nil_append] at hm
          have hnd : ((launch w clients 0 []).1.map Task.idx).Nodup := by
            rw [hm, tasksFrom_idx]
            exact List.nodup_range' _ _
          have hinit' : AllInv Q (launch w clients 0 []).1
              { err := none, fails := 0,
                trace := [Event.MarkMailing mailing.ID MailingStatus.Executing,
                          Event.GetClientsForMailing mailing.ID] } := by
            intro t ht
            rw [hm] at ht
            rw [tasksFrom_pc _ _ t ht]
            exact hinit t.idx
          have hinv := wgWait_allInv Q w mailing hstep sched _ _ hnd hinit'
          have hgrow := wgWait_grows w mailing sched (launch w clients 0 []).1
              { err := none, fails := 0,
                trace := [Event.MarkMailing mailing.ID MailingStatus.Executing,
                          Event.GetClientsForMailing mailing.ID] }
          have hwho := wgWait_who w mailing sched (launch w clients 0 []).1
              { err := none, fails := 0,
                trace := [Event.MarkMailing mailing.ID MailingStatus.Executing,
                          Event.GetClientsForMailing mailing.ID] }
          have hdone := wgWait_done w mailing sched (launch w clients 0 []).1
              { err := none, fails := 0,
                trace := [Event.MarkMailing mailing.ID MailingStatus.Executing,
                          Event.GetClientsForMailing mailing.ID] }
          have htail : ∀ (i : Nat) (tr : List Event) (x : MailingStatus) (y : MailingStats),
              callsOf i (tr ++ [Event.MarkMailing mailing.ID x, Event.SaveStats y]) =
                callsOf i tr := by
            intro i tr x y
            simp [callsOf, List.filter_append, Event.byTask]
          have hfinal : ∀ tr' : List Event,
              (∀ i, callsOf i tr' = callsOf i (wgWait w mailing sched (launch w clients 0 []).1
                { err := none, fails := 0,
                  trace := [Event.MarkMailing mailing.ID MailingStatus.Executing,
                            Event.GetClientsForMailing mailing.ID] }).2.trace) →
              (∀ t ∈ (wgWait w mailing sched (launch w clients 0 []).1
                  { err := none, fails := 0,
                    trace := [Event.MarkMailing mailing.ID MailingStatus.Executing,
                              Event.GetClientsForMailing mailing.ID] }).1,
                  Q t.idx (callsOf t.idx tr') PC.done) ∧
                (∀ i, i ∉ (wgWait w mailing sched (launch w clients 0 []).1
                  { err := none, fails := 0,
                    trace := [Event.MarkMailing mailing.ID MailingStatus.Executing,
                              Event.GetClientsForMailing mailing.ID] }).1.map Task.idx →
                  callsOf i tr' = []) := by
            intro tr' htr'
            constructor
            · intro t ht
              rw [htr', ← hdone t ht]
              exact hinv t ht
            · intro i hi
              rw [htr', grows_callsOf_other hgrow i (by rwa [← map_idx_of_who hwho])]
              simp [callsOf, Event.byTask]
          cases hstop : (launch w clients 0 []).2 with
          | none =>
              simp only [mail, hexec, hfetch, hstop]
              exact hfinal _ (fun i => htail i _ _ _)
          | some count =>
              simp only [mail, hexec, hfetch, hstop]
              exact hfinal _ (fun i => htail i _ _ _)

theorem phaseAfter_none (l : List Event) : phaseAfter none l = none := by
  induction l with
  | nil => rfl
  | cons e r ih => simpa [phaseAfter] using ih

theorem phaseAfter_append (l : List Event) (e : Event) : ∀ p : Option Phase,
    phaseAfter p (l ++ [e]) = (phaseAfter p l).bind (fun q => nextPhase q e) := by
  induction l with
  | nil => intro p; rfl
  | cons a r ih => intro p; simp [phaseAfter, ih]

theorem step_spacedAt (w : World) (mailing : Mailing) (t : Task) (s : Shared)
    (h : SpacedAt t.idx (callsOf t.idx s.trace) t.pc) :
    SpacedAt t.idx (callsOf t.idx (step w mailing t s).2.trace) (step w mailing t s).1.pc := by
  rcases t with ⟨idx, client, msgID, pc⟩
  rcases s with ⟨err, fails, trace⟩
  obtain ⟨ph, hph, hat⟩ := h
  simp only at hph hat
  cases pc with
  | save =>
      refine ⟨Phase.created, ?_, rfl⟩
      show phaseAfter _
        (callsOf idx (trace ++ [Event.SaveMessage idx mailing.ID client.ID])) = _
      rw [callsOf_append_own idx trace (Event.SaveMessage idx mailing.ID client.ID) rfl, phaseAfter_append, hph, hat]
      rfl
  | checkSave =>
      cases err
      · refine ⟨ph, hph, ?_⟩
        show PhaseAt (loopHead w 0) ph
        unfold loopHead
        split
        · exact Or.inl hat
        · exact Or.inl hat
      · exact ⟨ph, hph, Or.inl hat⟩
  | send a =>
      refine ⟨Phase.sent, ?_, rfl⟩
      show phaseAfter _
        (callsOf idx (trace ++ [Event.Send idx msgID client.PhoneNumber mailing.Text])) = _
      rw [callsOf_append_own idx trace (Event.Send idx msgID client.PhoneNumber mailing.Text) rfl, phaseAfter_append, hph]
      rcases hat with hat | hat <;> rw [hat] <;> rfl
  | checkSend a =>
      cases err
      · exact ⟨ph, hph, Or.inr (Or.inl hat)⟩
      · refine ⟨Phase.slept, ?_, ?_⟩
        · show phaseAfter _
            (callsOf idx (trace ++ [Event.Sleep idx 1])) = _
          rw [callsOf_append_own idx trace (Event.Sleep idx 1) rfl, phaseAfter_append, hph, hat]
          rfl
        · show PhaseAt (loopHead w (a + 1)) Phase.slept
          unfold loopHead
          split
          · exact Or.inr rfl
          · exact Or.inr (Or.inr rfl)
  | final =>
      cases err
      · exact ⟨ph, hph, hat⟩
      · exact ⟨ph, hph, hat⟩
  | markFailed =>
      refine ⟨Phase.marked, ?_, Or.inr rfl⟩
      show phaseAfter _
        (callsOf idx (trace ++ [Event.MarkMessage idx msgID SendStatus.Failed])) = _
      rw [callsOf_append_own idx trace (Event.MarkMessage idx msgID SendStatus.Failed) rfl, phaseAfter_append, hph]
      rcases hat with hat | hat | hat <;> rw [hat] <;> rfl
  | markSuccess =>
      refine ⟨Phase.marked, ?_, Or.inr rfl⟩
      show phaseAfter _
        (callsOf idx (trace ++ [Event.MarkMessage idx msgID SendStatus.Success])) = _
      rw [callsOf_append_own idx trace (Event.MarkMessage idx msgID SendStatus.Success) rfl, phaseAfter_append, hph]
      rcases hat with hat | hat | hat <;> rw [hat] <;> rfl
  | done => exact ⟨ph, hph, hat⟩

/-- In every run of `mail`, under every schedule, the calls of each dispatcher are
well spaced: the message is created first, no wait comes before the first attempt,
every wait lasts one second and follows an attempt, two consecutive attempts are
separated by exactly one wait, and the status write, if any, comes last. -/
theorem calls_wellSpaced (w : World) (mailing : Mailing) (sched : List Nat) (i : Nat) :
    wellSpaced (callsOf i (mail w mailing sched).trace) = true := by
  have h := mail_dispatchers SpacedAt w mailing (step_spacedAt w mailing)
    (fun _ => ⟨Phase.start, rfl, rfl⟩) sched
  by_cases hi : i ∈ (mail w mailing sched).tasks.map Task.idx
  · obtain ⟨t, ht, hti⟩ := List.mem_map.mp hi
    obtain ⟨ph, hph, _⟩ := h.1 t ht
    rw [hti] at hph
    simp [wellSpaced, hph]
  · rw [h.2 i hi]
    rfl

/-! ## Status writes of messages under every schedule -/

theorem nextPhase_marked (e : Event) : nextPhase Phase.marked e = none := by
  cases e <;> rfl

theorem phaseAfter_marks (l : List Event) : ∀ (p q : Phase), p ≠ Phase.marked →
    phaseAfter (some p) l = some q →
      l.countP Event.isMarkMessage = if q = Phase.marked then 1 else 0 := by
  induction l with
  | nil =>
      intro p q hp h
      simp only [phaseAfter, Option.some.injEq] at h
      subst h
      simp [hp]
  | cons e r ih =>
      intro p q hp h
      simp only [phaseAfter, Option.some_bind] at h
      cases hn : nextPhase p e with
      | none =>
          rw [hn, phaseAfter_none] at h
          cases h
      | some p' =>
          rw [hn] at h
          by_cases hm : p' = Phase.marked
          · subst hm
            have he : Event.isMarkMessage e = true := by
              cases p <;> cases e <;> simp [nextPhase] at hn ⊢ <;> simp [Event.isMarkMessage]
            cases r with
            | nil =>
                simp only [phaseAfter, Option.some.injEq] at h
                subst h
                simp [he]
            | cons e' r' =>
                simp only [phaseAfter, Option.some_bind, nextPhase_marked, phaseAfter_none] at h
                cases h
          · have he : Event.isMarkMessage e = false := by
              cases p <;> cases e <;> simp [nextPhase] at hn ⊢ <;>
                first
                  | rfl
                  | exact absurd hn.symm hm
            rw [List.countP_cons, he]
            simpa using ih p' q hm h

/-- In every run of `mail`, under every schedule, no dispatcher calls `MarkMessage`
more than once. -/
theorem marks_at_most_once (w : World) (mailing : Mailing) (sched : List Nat) (i : Nat) :
    (callsOf i (mail w mailing sched).trace).countP Event.isMarkMessage ≤ 1 := by
  have h := calls_wellSpaced w mailing sched i
  unfold wellSpaced at h
  obtain ⟨q, hq⟩ := Option.isSome_iff_exists.mp h
  rw [phaseAfter_marks _ Phase.start q (by decide) hq]
  split <;> omega

theorem launch_congr (w w' : World) (h : w'.ctxDone = w.ctxDone) (cs : List Client) :
    ∀ (count : Nat) (acc : List Task), launch w' cs count acc = launch w cs count acc := by
  induction cs with
  | nil => intro count acc; rfl
  | cons c cs ih =>
      intro count acc
      simp only [launch, h, ih]

/-- The returned error, the recipients that get a dispatcher and the campaign status
writes of a run depend only on the answers to the `Executing` write and to the
recipient fetch and on the deadline checks: two worlds that agree on these give the
same ones under every schedule, whatever `SaveMessage`, `Send` and `MarkMessage`
answer. -/
theorem run_outcome_congr (w w' : World) (h1 : w'.markMailing = w.markMailing)
    (h2 : w'.getClientsForMailing = w.getClientsForMailing) (h3 : w'.ctxDone = w.ctxDone)
    (h4 : w'.ctxErr = w.ctxErr) (mailing : Mailing) (sched sched' : List Nat) :
    (mail w' mailing sched').ret = (mail w mailing sched).ret ∧
      (mail w' mailing sched').tasks.map Task.who = (mail w mailing sched).tasks.map Task.who ∧
      statusWrites (mail w' mailing sched').trace = statusWrites (mail w mailing sched).trace := by
  cases hexec : w.markMailing MailingStatus.Executing with
  | some e =>
      have hexec' : w'.markMailing MailingStatus.Executing = some e := by rw [h1, hexec]
      simp [mail, hexec, hexec']
  | none =>
      have hexec' : w'.markMailing MailingStatus.Executing = none := by rw [h1, hexec]
      cases hfetch : w.getClientsForMailing with
      | error e =>
          have hfetch' : w'.getClientsForMailing = Except.error e := by rw [h2, hfetch]
          simp [mail, hexec, hfetch, hexec', hfetch']
      | ok clients =>
          have hfetch' : w'.getClientsForMailing = Except.ok clients := by rw [h2, hfetch]
          obtain ⟨hwho, _, evs, hev, hcase⟩ := mail_fetched w mailing sched clients hexec hfetch
          obtain ⟨hwho', _, evs', hev', hcase'⟩ :=
            mail_fetched w' mailing sched' clients hexec' hfetch'
          rw [launch_congr w w' h3] at hwho' hev' hcase'
          have h0 := statusWrites_dispatch evs _ hev
          have h0' := statusWrites_dispatch evs' _ hev'
          unfold statusWrites at h0 h0'
          refine ⟨?_, by rw [hwho, hwho'], ?_⟩
          · rcases hcase with ⟨hs, hr, _⟩ | ⟨c, hs, hr, _⟩ <;>
              rcases hcase' with ⟨hs', hr', _⟩ | ⟨c', hs', hr', _⟩
            · rw [hr, hr']
            · rw [hs] at hs'; cases hs'
            · rw [hs] at hs'; cases hs'
            · rw [hr, hr', h4]
          · rcases hcase with ⟨hs, _, htr⟩ | ⟨c, hs, _, htr⟩ <;>
              rcases hcase' with ⟨hs', _, htr'⟩ | ⟨c', hs', _, htr'⟩
            · rw [htr, htr']
              simp [statusWrites, List.filterMap_append, h0, h0', Event.statusWrite]
            · rw [hs] at hs'; cases hs'
            · rw [hs] at hs'; cases hs'
            · rw [htr, htr']
              simp [statusWrites, List.filterMap_append, h0, h0', Event.statusWrite]

/-- The answers of `MarkMessage` never abort a run: replacing them by any others leaves
the returned error, the recipients that get a dispatcher and the campaign status
writes of the run unchanged, under every schedule. -/
theorem mark_answers_never_abort (w : World) (mm : Nat → SendStatus → Option GoError)
    (mailing : Mailing) (sched : List Nat) :
    (mail { w with markMessage := mm } mailing sched).ret = (mail w mailing sched).ret ∧
      (mail { w with markMessage := mm } mailing sched).tasks.map Task.who =
        (mail w mailing sched).tasks.map Task.who ∧
      statusWrites (mail { w with markMessage := mm } mailing sched).trace =
        statusWrites (mail w mailing sched).trace :=
  run_outcome_congr w { w with markMessage := mm } rfl rfl rfl rfl mailing sched sched

/-! ## The failure counter under every schedule -/

theorem loopHead_pastBump (w : World) (a : Nat) : (loopHead w a).pastBump = 0 := by
  unfold loopHead
  split <;> rfl

theorem step_bump (w : World) (mailing : Mailing) (t : Task) (s : Shared) :
    s.fails ≤ (step w mailing t s).2.fails ∧
      (step w mailing t s).2.fails + (t.pc.pastBump : Int) ≤
        s.fails + ((step w mailing t s).1.pc.pastBump : Int) := by
  rcases t with ⟨idx, client, msgID, pc⟩
  rcases s with ⟨err, fails, trace⟩
  cases pc with
  | checkSave =>
      cases err
      · show fails ≤ fails ∧ fails + ((0 : Nat) : Int) ≤ fails + (((loopHead w 0).pastBump : Nat) : Int)
        rw [loopHead_pastBump]
        omega
      · show fails ≤ fails + 1 ∧ fails + 1 + ((0 : Nat) : Int) ≤ fails + ((1 : Nat) : Int)
        omega
  | checkSend a =>
      cases err
      · show fails ≤ fails ∧ fails + ((0 : Nat) : Int) ≤ fails + ((0 : Nat) : Int)
        omega
      · show fails ≤ fails ∧
          fails + ((0 : Nat) : Int) ≤ fails + (((loopHead w (a + 1)).pastBump : Nat) : Int)
        rw [loopHead_pastBump]
        omega
  | final =>
      cases err
      · show fails ≤ fails ∧ fails + ((0 : Nat) : Int) ≤ fails + ((1 : Nat) : Int)
        omega
      · show fails ≤ fails + 1 ∧ fails + 1 + ((0 : Nat) : Int) ≤ fails + ((1 : Nat) : Int)
        omega
  | save => show fails ≤ fails ∧ fails + ((0 : Nat) : Int) ≤ fails + ((0 : Nat) : Int); omega
  | send a => show fails ≤ fails ∧ fails + ((0 : Nat) : Int) ≤ fails + ((0 : Nat) : Int); omega
  | markFailed =>
      show fails ≤ fails ∧ fails + ((1 : Nat) : Int) ≤ fails + ((1 : Nat) : Int); omega
  | markSuccess =>
      show fails ≤ fails ∧ fails + ((1 : Nat) : Int) ≤ fails + ((1 : Nat) : Int); omega
  | done => show fails ≤ fails ∧ fails + ((1 : Nat) : Int) ≤ fails + ((1 : Nat) : Int); omega

theorem bumpLe_refl (ts : List Task) (s : Shared) : BumpLe ts s ts s :=
  ⟨le_refl _, le_refl _⟩

theorem bumpLe_trans {ts1 ts2 ts3 : List Task} {s1 s2 s3 : Shared}
    (h12 : BumpLe ts1 s1 ts2 s2) (h23 : BumpLe ts2 s2 ts3 s3) : BumpLe ts1 s1 ts3 s3 := by
  obtain ⟨a1, a2⟩ := h12
  obtain ⟨b1, b2⟩ := h23
  exact ⟨by omega, by omega⟩

theorem bumpSum_cons (t : Task) (ts : List Task) :
    bumpSum (t :: ts) = t.pc.pastBump + bumpSum ts := by
  simp [bumpSum]

theorem bumpLe_cons_head {t t' : Task} {ts : List Task} {s s' : Shared}
    (h : s.fails ≤ s'.fails ∧ s'.fails + (t.pc.pastBump : Int) ≤ s.fails + (t'.pc.pastBump : Int)) :
    BumpLe (t :: ts) s (t' :: ts) s' := by
  refine ⟨h.1, ?_⟩
  rw [bumpSum_cons, bumpSum_cons]
  push_cast
  omega

theorem bumpLe_cons_tail {t : Task} {ts ts' : List Task} {s s' : Shared}
    (h : BumpLe ts s ts' s') : BumpLe (t :: ts) s (t :: ts') s' := by
  refine ⟨h.1, ?_⟩
  rw [bumpSum_cons, bumpSum_cons]
  have := h.2
  push_cast
  omega

theorem stepAt_bump (w : World) (mailing : Mailing) (i : Nat) (ts : List Task) (s : Shared) :
    BumpLe ts s (stepAt w mailing i ts s).1 (stepAt w mailing i ts s).2 := by
  induction ts generalizing i with
  | nil => cases i <;> exact bumpLe_refl _ _
  | cons t ts ih =>
      cases i with
      | zero => exact bumpLe_cons_head (step_bump w mailing t s)
      | succ j => exact bumpLe_cons_tail (ih j)

theorem runSched_bump (w : World) (mailing : Mailing) (sched : List Nat) (ts : List Task)
    (s : Shared) :
    BumpLe ts s (runSched w mailing sched ts s).1 (runSched w mailing sched ts s).2 := by
  induction sched generalizing ts s with
  | nil => exact bumpLe_refl _ _
  | cons i sched ih => exact bumpLe_trans (stepAt_bump w mailing i ts s) (ih _ _)

theorem runTask_bump (w : World) (mailing : Mailing) (fuel : Nat) (t : Task) (s : Shared) :
    s.fails ≤ (runTask w mailing fuel t s).2.fails ∧
      (runTask w mailing fuel t s).2.fails + (t.pc.pastBump : Int) ≤
        s.fails + ((runTask w mailing fuel t s).1.pc.pastBump : Int) := by
  induction fuel generalizing t s with
  | zero => exact ⟨le_refl _, le_refl _⟩
  | succ k ih =>
      have h1 := step_bump w mailing t s
      have h2 := ih (step w mailing t s).1 (step w mailing t s).2
      have e : runTask w mailing (k + 1) t s =
          runTask w mailing k (step w mailing t s).1 (step w mailing t s).2 := rfl
      rw [e]
      exact ⟨by omega, by omega⟩

theorem drain_bump (w : World) (mailing : Mailing) (ts : List Task) (s : Shared) :
    BumpLe ts s (drain w mailing ts s).1 (drain w mailing ts s).2 := by
  induction ts generalizing s with
  | nil => exact bumpLe_refl _ _
  | cons t ts ih =>
      have h1 : BumpLe (t :: ts) s ((runTask w mailing (taskFuel w) t s).1 :: ts)
          (runTask w mailing (taskFuel w) t s).2 :=
        bumpLe_cons_head (runTask_bump w mailing (taskFuel w) t s)
      have h2 : BumpLe ((runTask w mailing (taskFuel w) t s).1 :: ts)
          (runTask w mailing (taskFuel w) t s).2
          ((runTask w mailing (taskFuel w) t s).1 ::
            (drain w mailing ts (runTask w mailing (taskFuel w) t s).2).1)
          (drain w mailing ts (runTask w mailing (taskFuel w) t s).2).2 :=
        bumpLe_cons_tail (ih _)
      exact bumpLe_trans h1 h2

theorem wgWait_bump (w : World) (mailing : Mailing) (sched : List Nat) (ts : List Task)
    (s : Shared) :
    BumpLe ts s (wgWait w mailing sched ts s).1 (wgWait w mailing sched ts s).2 :=
  bumpLe_trans (runSched_bump w mailing sched ts s) (drain_bump w mailing _ _)

theorem bumpSum_le_length (ts : List Task) : bumpSum ts ≤ ts.length := by
  induction ts with
  | nil => simp [bumpSum]
  | cons t ts ih =>
      rw [bumpSum_cons, List.length_cons]
      have : t.pc.pastBump ≤ 1 := by cases t.pc <;> simp [PC.pastBump]
      omega

theorem bumpSum_fresh (count : Nat) (cs : List Client) : bumpSum (tasksFrom count cs) = 0 := by
  induction cs generalizing count with
  | nil => rfl
  | cons c cs ih => rw [tasksFrom, bumpSum_cons, ih]; rfl

theorem tasksFrom_length (count : Nat) (cs : List Client) :
    (tasksFrom count cs).length = cs.length := by
  induction cs generalizing count with
  | nil => rfl
  | cons c cs ih => simp [tasksFrom, ih]

/-- In every run the last value of `fails` lies between 0 and the number of
dispatchers launched: each of them increments it at most once. -/
theorem mail_fails_bound (w : World) (mailing : Mailing) (sched : List Nat) :
    0 ≤ (mail w mailing sched).fails ∧
      (mail w mailing sched).fails ≤ ((mail w mailing sched).tasks.length : Int) := by
  cases hexec : w.markMailing MailingStatus.Executing with
  | some e => simp [mail, hexec]
  | none =>
      cases hfetch : w.getClientsForMailing with
      | error e => simp [mail, hexec, hfetch]
      | ok clients =>
          obtain ⟨m, hm⟩ := launch_tasks w clients 0 []
          have hb := wgWait_bump w mailing sched (launch w clients 0 []).1
            { err := none, fails := 0,
              trace := [Event.MarkMailing mailing.ID MailingStatus.Executing,
                        Event.GetClientsForMailing mailing.ID] }
          have h0 : bumpSum (launch w clients 0 []).1 = 0 := by
            rw [hm, List.nil_append, bumpSum_fresh]
          have hl := bumpSum_le_length (wgWait w mailing sched (launch w clients 0 []).1
            { err := none, fails := 0,
              trace := [Event.MarkMailing mailing.ID MailingStatus.Executing,
                        Event.GetClientsForMailing mailing.ID] }).1
          obtain ⟨hb1, hb2⟩ := hb
          rw [h0] at hb2
          simp only at hb1 hb2
          cases hstop : (launch w clients 0 []).2 with
          | none =>
              simp only [mail, hexec, hfetch, hstop]
              constructor
              · exact hb1
              · omega
          | some count =>
              simp only [mail, hexec, hfetch, hstop]
              constructor
              · exact hb1
              · omega

/-- Number of dispatchers launched by a run past the fetch: all recipients when the
deadline check never stops the loop, the recipients before the stop otherwise. -/
theorem mail_launched_count (w : World) (mailing : Mailing) (sched : List Nat)
    (clients : List Client)
    (hexec : w.markMailing MailingStatus.Executing = none)
    (hfetch : w.getClientsForMailing = Except.ok clients) :
    ((launch w clients 0 []).2 = none ∧ (mail w mailing sched).tasks.length = clients.length) ∨
      (∃ count, (launch w clients 0 []).2 = some count ∧ count < clients.length ∧
        (mail w mailing sched).tasks.length = count) := by
  obtain ⟨hwho, _, _⟩ := mail_fetched w mailing sched clients hexec hfetch
  have hlen : (mail w mailing sched).tasks.length = (launch w clients 0 []).1.length := by
    have := congrArg List.length hwho
    simpa using this
  obtain ⟨k, hk, hl, _, hcase⟩ := launch_spec w clients 0 []
  have hlk : (launch w clients 0 []).1.length = k := by
    rw [hl, List.nil_append, tasksFrom_length, List.length_take]
    omega
  rcases hcase with ⟨hnone, hkl⟩ | ⟨hsome, hkl, _⟩
  · exact Or.inl ⟨hnone, by omega⟩
  · refine Or.inr ⟨k, ?_, hkl, by omega⟩
    simpa using hsome

/-! ## Waits of a dispatch on its own -/

theorem loopEvents_sleeps (w : World) (mailing : Mailing) (i : Nat) (msgID phone : Int)
    (k : Nat) : ∀ a : Nat,
      (loopEvents w mailing i msgID phone k a).countP (Event.isSleepOf i) =
        ((List.range' a ((loopEvents w mailing i msgID phone k a).countP
            (Event.isSendOf i))).filter (fun x => (w.send i x).isSome)).length := by
  induction k with
  | zero => intro a; rfl
  | succ k ih =>
      intro a
      cases hs : (w.send i a).isSome with
      | false =>
          simp [loopEvents, hs, Event.isSleepOf, Event.isSendOf, List.range'_succ]
      | true =>
          simp only [loopEvents, hs, if_true]
          have e1 : (Event.Send i msgID phone mailing.Text :: Event.Sleep i 1 ::
              loopEvents w mailing i msgID phone k (a + 1)).countP (Event.isSleepOf i) =
              (loopEvents w mailing i msgID phone k (a + 1)).countP (Event.isSleepOf i) + 1 := by
            simp [List.countP_cons, Event.isSleepOf]
          have e2 : (Event.Send i msgID phone mailing.Text :: Event.Sleep i 1 ::
              loopEvents w mailing i msgID phone k (a + 1)).countP (Event.isSendOf i) =
              (loopEvents w mailing i msgID phone k (a + 1)).countP (Event.isSendOf i) + 1 := by
            simp [List.countP_cons, Event.isSendOf]
          rw [e1, e2, ih (a + 1), List.range'_succ, List.filter_cons, hs]
          simp

theorem loopEvents_sleeps_all_fail (w : World) (mailing : Mailing) (i : Nat)
    (msgID phone : Int) (k : Nat) : ∀ a : Nat,
      (∀ j < k, (w.send i (a + j)).isSome = true) →
      (loopEvents w mailing i msgID phone k a).countP (Event.isSleepOf i) = k := by
  induction k with
  | zero => intro a _; rfl
  | succ k ih =>
      intro a h
      have h0 : (w.send i a).isSome = true := by simpa using h 0 (by omega)
      have hrest : ∀ j < k, (w.send i (a + 1 + j)).isSome = true := by
        intro j hj
        have := h (j + 1) (by omega)
        rwa [show a + 1 + j = a + (j + 1) by omega]
      simp only [loopEvents, h0, if_true]
      have e1 : (Event.Send i msgID phone mailing.Text :: Event.Sleep i 1 ::
          loopEvents w mailing i msgID phone k (a + 1)).countP (Event.isSleepOf i) =
          (loopEvents w mailing i msgID phone k (a + 1)).countP (Event.isSleepOf i) + 1 := by
        simp [List.countP_cons, Event.isSleepOf]
      rw [e1, ih (a + 1) hrest]

/-- A dispatch on its own whose message creation succeeded and that has made no
attempt before: the number of its waits is the number of its failed attempts; and when
all `sendRetry` attempts fail it waits `sendRetry` times, also after the last one. -/
theorem alone_waits (w : World) (mailing : Mailing) (t : Task) (s : Shared)
    (hpc : t.pc = PC.save) (hsave : (w.saveMessage t.idx).2 = none)
    (hfresh : s.trace.countP (Event.isSendOf t.idx) = 0) :
    waitsOf t.idx (runTask w mailing (taskFuel w) t s).2.trace =
        waitsOf t.idx s.trace +
          failedAttempts w t.idx (runTask w mailing (taskFuel w) t s).2.trace ∧
      (allSendsFail w t.idx = true →
        waitsOf t.idx (runTask w mailing (taskFuel w) t s).2.trace =
          waitsOf t.idx s.trace + w.sendRetry) := by
  rw [runTask_alone_saved w mailing t s hpc hsave]
  constructor
  · simp only [waitsOf, failedAttempts, List.countP_append, hfresh, loopEvents_sleeps,
      List.range_eq_range']
    simp [Event.isSleepOf, Event.isSendOf]
  · intro hall
    have h := loopEvents_sleeps_all_fail w mailing t.idx (w.saveMessage t.idx).1
      t.client.PhoneNumber w.sendRetry 0
      (by
        intro j hj
        rw [Nat.zero_add]
        exact (allSendsFail_iff w t.idx).mp hall j hj)
    simp only [waitsOf, List.countP_append, h]
    simp [Event.isSleepOf]

/-! ## The answers that are only logged -/

theorem step_congr (w w' : World) (h1 : w'.sendRetry = w.sendRetry)
    (h2 : w'.saveMessage = w.saveMessage) (h3 : w'.send = w.send)
    (h4 : w'.markMessage = w.markMessage) (mailing : Mailing) (t : Task) (s : Shared) :
    step w' mailing t s = step w mailing t s := by
  rcases t with ⟨idx, client, msgID, pc⟩
  cases pc <;> simp [step, loopHead, h1, h2, h3, h4]

theorem runTask_congr (w w' : World) (h1 : w'.sendRetry = w.sendRetry)
    (h2 : w'.saveMessage = w.saveMessage) (h3 : w'.send = w.send)
    (h4 : w'.markMessage = w.markMessage) (mailing : Mailing) (fuel : Nat) :
    ∀ (t : Task) (s : Shared), runTask w' mailing fuel t s = runTask w mailing fuel t s := by
  induction fuel with
  | zero => intro t s; rfl
  | succ k ih =>
      intro t s
      simp only [runTask, step_congr w w' h1 h2 h3 h4, ih]

theorem stepAt_congr (w w' : World) (h1 : w'.sendRetry = w.sendRetry)
    (h2 : w'.saveMessage = w.saveMessage) (h3 : w'.send = w.send)
    (h4 : w'.markMessage = w.markMessage) (mailing : Mailing) (ts : List Task) :
    ∀ (i : Nat) (s : Shared), stepAt w' mailing i ts s = stepAt w mailing i ts s := by
  induction ts with
  | nil => intro i s; cases i <;> rfl
  | cons t ts ih =>
      intro i s
      cases i with
      | zero => simp only [stepAt, step_congr w w' h1 h2 h3 h4]
      | succ j => simp only [stepAt, ih]

theorem runSched_congr (w w' : World) (h1 : w'.sendRetry = w.sendRetry)
    (h2 : w'.saveMessage = w.saveMessage) (h3 : w'.send = w.send)
    (h4 : w'.markMessage = w.markMessage) (mailing : Mailing) (sched : List Nat) :
    ∀ (ts : List Task) (s : Shared),
      runSched w' mailing sched ts s = runSched w mailing sched ts s := by
  induction sched with
  | nil => intro ts s; rfl
  | cons i sched ih =>
      intro ts s
      simp only [runSched, stepAt_congr w w' h1 h2 h3 h4, ih]

theorem drain_congr (w w' : World) (h1 : w'.sendRetry = w.sendRetry)
    (h2 : w'.saveMessage = w.saveMessage) (h3 : w'.send = w.send)
    (h4 : w'.markMessage = w.markMessage) (mailing : Mailing) (ts : List Task) :
    ∀ (s : Shared), drain w' mailing ts s = drain w mailing ts s := by
  induction ts with
  | nil => intro s; rfl
  | cons t ts ih =>
      intro s
      simp only [drain, taskFuel, h1, runTask_congr w w' h1 h2 h3 h4, ih]

theorem wgWait_congr (w w' : World) (h1 : w'.sendRetry = w.sendRetry)
    (h2 : w'.saveMessage = w.saveMessage) (h3 : w'.send = w.send)
    (h4 : w'.markMessage = w.markMessage) (mailing : Mailing) (sched : List Nat)
    (ts : List Task) (s : Shared) :
    wgWait w' mailing sched ts s = wgWait w mailing sched ts s := by
  simp only [wgWait, runSched_congr w w' h1 h2 h3 h4, drain_congr w w' h1 h2 h3 h4]

/-- The run of `mail` does not depend on what the Store answers to the `Failed`,
`Canceled` and `Done` writes and to `SaveStats`: two worlds that agree on everything
else give the same run. -/
theorem mail_congr (w w' : World)
    (hexec : w'.markMailing MailingStatus.Executing = w.markMailing MailingStatus.Executing)
    (hfetch : w'.getClientsForMailing = w.getClientsForMailing)
    (hdone : w'.ctxDone = w.ctxDone) (herr : w'.ctxErr = w.ctxErr)
    (h1 : w'.sendRetry = w.sendRetry) (h2 : w'.saveMessage = w.saveMessage)
    (h3 : w'.send = w.send) (h4 : w'.markMessage = w.markMessage)
    (hstart : w'.start = w.start) (hsince : w'.since = w.since)
    (mailing : Mailing) (sched : List Nat) :
    mail w' mailing sched = mail w mailing sched := by
  unfold mail
  rw [hexec, hfetch]
  cases w.markMailing MailingStatus.Executing with
  | some e => rfl
  | none =>
      cases w.getClientsForMailing with
      | error e => rfl
      | ok clients =>
          simp only [launch_congr w w' hdone, wgWait_congr w w' h1 h2 h3 h4, herr, mkStats,
            hstart, hsince]

/-! ## Contexts stay done -/

theorem Ctx.isDone_mono (c : Ctx) (t u : Int) (htu : t ≤ u) (h : c.isDone t = true) :
    c.isDone u = true := by
  unfold Ctx.isDone at h ⊢
  rw [Bool.or_eq_true] at h ⊢
  rcases h with h | h
  · left
    cases hd : c.timerAt with
    | none => simp [hd] at h
    | some d =>
        simp only [hd, decide_eq_true_eq] at h ⊢
        omega
  · right
    cases hc : c.cancelledAt with
    | none => simp [hc] at h
    | some d =>
        simp only [hc, decide_eq_true_eq] at h ⊢
        omega

/-- A run of `mail` that issues the `Canceled` write: the loop stopped at a recipient
`count` at which the deadline check found the context done, `count` dispatchers were
launched, the run returns the error of the context and ends with the `Canceled` write
and `SaveStats`. -/
theorem mail_canceled (w : World) (mailing : Mailing) (sched : List Nat)
    (hcanceled : Event.MarkMailing mailing.ID MailingStatus.Canceled ∈
      (mail w mailing sched).trace) :
    ∃ before st,
      w.ctxDone (mail w mailing sched).tasks.length = true ∧
      (mail w mailing sched).ret = some w.ctxErr ∧
      (mail w mailing sched).trace =
        before ++ [Event.MarkMailing mailing.ID MailingStatus.Canceled, Event.SaveStats st] := by
  cases hexec : w.markMailing MailingStatus.Executing with
  | some e => simp [mail, hexec] at hcanceled
  | none =>
      cases hfetch : w.getClientsForMailing with
      | error e => simp [mail, hexec, hfetch] at hcanceled
      | ok clients =>
          obtain ⟨_, _, evs, hev, hcase⟩ := mail_fetched w mailing sched clients hexec hfetch
          have hm := markMailing_not_mem_dispatch evs _ hev mailing.ID MailingStatus.Canceled
          rcases hcase with ⟨_, _, htr⟩ | ⟨count, hsome, hret, htr⟩
          · rw [htr] at hcanceled
            simp [hm] at hcanceled
          · rcases mail_launched_count w mailing sched clients hexec hfetch with
              ⟨hn, _⟩ | ⟨c, hc, _, hlen⟩
            · rw [hsome] at hn
              cases hn
            · rw [hsome] at hc
              cases hc
              obtain ⟨k, hk, _, _, hat, _⟩ := launch_stopped w clients 0 [] count hsome
              rw [Nat.zero_add] at hk
              subst hk
              rw [Nat.zero_add] at hat
              refine ⟨_, _, ?_, hret, htr⟩
              rw [hlen]
              exact hat

/-- An executor run under the scheduler context that issues the `Canceled` write: the
context of `mail` was done at the deadline check that stopped the loop, the run
returns the error of the context and ends with the `Canceled` write and `SaveStats`. -/
theorem runUnderCtx_canceled (parent : Ctx) (lag : Nat) (clock : Nat → Int) (rp : RunParams)
    (mailing : Mailing)
    (hcanceled : Event.MarkMailing mailing.ID MailingStatus.Canceled ∈
      (runUnderCtx parent lag clock rp mailing).trace) :
    ∃ before st,
      (withDeadline parent mailing.EndTime lag).isDone
        (clock (runUnderCtx parent lag clock rp mailing).tasks.length) = true ∧
      (runUnderCtx parent lag clock rp mailing).ret = some rp.world.ctxErr ∧
      (runUnderCtx parent lag clock rp mailing).trace =
        before ++ [Event.MarkMailing mailing.ID MailingStatus.Canceled, Event.SaveStats st] := by
  unfold runUnderCtx executorRun at hcanceled ⊢
  by_cases hnow : timeAfter rp.now mailing.EndTime = true
  · rw [if_pos hnow] at hcanceled
    simp at hcanceled
  · rw [if_neg hnow] at hcanceled ⊢
    exact mail_canceled _ mailing rp.sched hcanceled

/-! ## Claims -/

/-- C1 (a run that breaks it): scenario B, two recipients, every Transport attempt for
the second one fails, the `Executing` write and the fetch succeed and the deadline is
never observed.  One recipient's dispatch ultimately failed, yet when the first
dispatcher runs while the second one sleeps after its last attempt, the second one
reads the first one's nil `err` at line 140: it writes `Success` and the run passes
`Fails = 0` to `SaveStats`. -/
theorem C1_fails_differs_from_failed_dispatches :
    scenarioB.markMailing MailingStatus.Executing = none ∧
      scenarioB.getClientsForMailing = Except.ok [recipient 0, recipient 1] ∧
      (∀ j < 2, scenarioB.ctxDone j = false) ∧
      dispatchFailed scenarioB 0 = false ∧ dispatchFailed scenarioB 1 = true ∧
      failedCount scenarioB 2 = 1 ∧
      (mail scenarioB campaign [1, 1, 1, 1, 1, 1, 1, 1]).trace =
        [Event.MarkMailing 1 MailingStatus.Executing,
         Event.GetClientsForMailing 1,
         Event.SaveMessage 1 1 1,
         Event.Send 1 101 7001 "hi", Event.Sleep 1 1,
         Event.Send 1 101 7001 "hi", Event.Sleep 1 1,
         Event.Send 1 101 7001 "hi", Event.Sleep 1 1,
         Event.SaveMessage 0 1 0,
         Event.Send 0 100 7000 "hi",
         Event.MarkMessage 0 100 SendStatus.Success,
         Event.MarkMessage 1 101 SendStatus.Success,
         Event.MarkMailing 1 MailingStatus.Done,
         Event.SaveStats { ID := 1, Matches := 2, Sent := 2, Fails := 0, StartTime := 0,
                           TimeExecuting := 0 }] := by
  refine ⟨rfl, rfl, by decide, by decide, by decide, by decide, by decide⟩

/-- C2: a campaign whose end time is before the current time when its executor
goroutine starts gets the status write `Invalid` and nothing else: the write is the
only call of the run, so there is no `SaveMessage`, no `SaveStats`, no recipient
fetch, no `Send` and no `Executing` write, and no dispatcher is launched. -/
theorem C2_expired_campaign_only_marked_invalid (w : World) (now : Int) (mailing : Mailing)
    (sched : List Nat) (h : mailing.EndTime < now) :
    (executorRun w now mailing sched).trace =
        [Event.MarkMailing mailing.ID MailingStatus.Invalid] ∧
      (executorRun w now mailing sched).tasks = [] := by
  simp [executorRun, timeAfter, h]

/-- Witness of C2: the campaign window ends at 100 and the goroutine starts at 101. -/
theorem C2_expired_campaign_witness :
    campaign.EndTime < 101 ∧
      ((executorRun (calmWorld 3) 101 campaign []).trace =
          [Event.MarkMailing campaign.ID MailingStatus.Invalid] ∧
        (executorRun (calmWorld 3) 101 campaign []).tasks = []) :=
  ⟨by decide, C2_expired_campaign_only_marked_invalid (calmWorld 3) 101 campaign [] (by decide)⟩

/-- C3: at a tick whose pending-campaign query succeeded, the executor goroutines
launched are exactly the returned campaigns whose start time is at most the current
time read for them, each once, with its position and in the order of the result: a
goroutine is launched for `m` with position `j` if and only if `m` is the campaign at
position `j` of the result and its start time is at most the time read at `j`; and for
a campaign whose start time is later than that time no goroutine is launched at all. -/
theorem C3_tick_launches_iff_started (nowAt : Nat → Int) (mailings : List Mailing) :
    (tick (Except.ok mailings) nowAt).2 =
        mailings.enum.filter (fun p => decide (p.2.StartTime ≤ nowAt p.1)) ∧
      (∀ (j : Nat) (m : Mailing), (j, m) ∈ (tick (Except.ok mailings) nowAt).2 ↔
        mailings[j]? = some m ∧ m.StartTime ≤ nowAt j) ∧
      (∀ (i : Nat) (m : Mailing), mailings[i]? = some m → nowAt i < m.StartTime →
        ∀ p ∈ (tick (Except.ok mailings) nowAt).2, p.1 ≠ i) := by
  have hmem : ∀ (j : Nat) (m : Mailing), (j, m) ∈ (tick (Except.ok mailings) nowAt).2 ↔
      mailings[j]? = some m ∧ m.StartTime ≤ nowAt j := by
    intro j m
    show (j, m) ∈ tickLoop nowAt mailings 0 ↔ _
    rw [tickLoop_mem]
    constructor
    · rintro ⟨i, h1, h2, h3⟩
      have hji : j = i := by omega
      subst hji
      exact ⟨h1, (timeCompare_le_zero _ _).mp h3⟩
    · rintro ⟨h1, h3⟩
      exact ⟨j, h1, by omega, (timeCompare_le_zero _ _).mpr h3⟩
  refine ⟨?_, hmem, ?_⟩
  · show tickLoop nowAt mailings 0 = _
    rw [tickLoop_eq_filter]
    rfl
  · intro i m hi hlt p hp hpi
    obtain ⟨j, m'⟩ := p
    simp only at hpi
    subst hpi
    obtain ⟨h1, h2⟩ := (hmem j m').mp hp
    rw [hi] at h1
    cases h1
    omega

/-- Witness of C3: the query returns a campaign starting at 1000 and one starting at 0,
the tick reads the time 5: only the second one, at position 1, is launched. -/
theorem C3_tick_launches_witness :
    (tick (Except.ok [futureCampaign, campaign]) (fun _ => 5)).2 = [(1, campaign)] ∧
      (∀ (i : Nat) (m : Mailing), [futureCampaign, campaign][i]? = some m →
        (fun _ => (5 : Int)) i < m.StartTime →
        ∀ p ∈ (tick (Except.ok [futureCampaign, campaign]) (fun _ => 5)).2, p.1 ≠ i) :=
  ⟨by decide, (C3_tick_launches_iff_started (fun _ => 5) [futureCampaign, campaign]).2.2⟩

/-- C4 (a run that breaks it): scenario B with retry limit 3.  Message creation for the
first recipient succeeds and its first Transport attempt succeeds, but before it tests
`err` at line 133 the second dispatcher stores its own failed attempt in `err`: the
first dispatcher sleeps and calls `Send` a second time.  It makes 2 calls although
its first attempt (`try = 0`) is the first success. -/
theorem C4_send_repeated_after_success :
    scenarioB.sendRetry = 3 ∧ (scenarioB.saveMessage 0).2 = none ∧
      firstSuccess scenarioB 0 = some 0 ∧
      (mail scenarioB campaign [0, 0, 0, 1, 1, 1, 0, 1]).trace.countP (Event.isSendOf 0) = 2 ∧
      (mail scenarioB campaign [0, 0, 0, 1, 1, 1, 0, 1]).trace =
        [Event.MarkMailing 1 MailingStatus.Executing,
         Event.GetClientsForMailing 1,
         Event.SaveMessage 0 1 0,
         Event.Send 0 100 7000 "hi",
         Event.SaveMessage 1 1 1,
         Event.Send 1 101 7001 "hi",
         Event.Sleep 0 1,
         Event.Sleep 1 1,
         Event.Send 0 100 7000 "hi",
         Event.MarkMessage 0 100 SendStatus.Success,
         Event.Send 1 101 7001 "hi", Event.Sleep 1 1,
         Event.Send 1 101 7001 "hi", Event.Sleep 1 1,
         Event.MarkMessage 1 101 SendStatus.Failed,
         Event.MarkMailing 1 MailingStatus.Done,
         Event.SaveStats { ID := 1, Matches := 2, Sent := 2, Fails := 1, StartTime := 0,
                           TimeExecuting := 0 }] := by
  refine ⟨rfl, rfl, by decide, by decide, by decide⟩

/-- C5 (a run that breaks it): two recipients, `SaveMessage` returns an error for the
first one.  Before the first dispatcher tests `err` at line 123 the second dispatcher
stores the nil result of its own `SaveMessage` in `err`: the first dispatcher goes on,
calls `Send` with message id 0 and then `MarkMessage`, and `fails` is not incremented. -/
theorem C5_send_after_failed_creation :
    (saveFailsFirst.saveMessage 0).2 = some (GoError.raised 7) ∧
      (mail saveFailsFirst campaign [0, 1, 0]).trace.countP (Event.isSendOf 0) = 1 ∧
      (mail saveFailsFirst campaign [0, 1, 0]).trace.countP (Event.isMarkMessageOf 0) = 1 ∧
      (mail saveFailsFirst campaign [0, 1, 0]).fails = 0 ∧
      (mail saveFailsFirst campaign [0, 1, 0]).trace =
        [Event.MarkMailing 1 MailingStatus.Executing,
         Event.GetClientsForMailing 1,
         Event.SaveMessage 0 1 0,
         Event.SaveMessage 1 1 1,
         Event.Send 0 0 7000 "hi",
         Event.MarkMessage 0 0 SendStatus.Success,
         Event.Send 1 101 7001 "hi",
         Event.MarkMessage 1 101 SendStatus.Success,
         Event.MarkMailing 1 MailingStatus.Done,
         Event.SaveStats { ID := 1, Matches := 2, Sent := 2, Fails := 0, StartTime := 0,
                           TimeExecuting := 0 }] := by
  refine ⟨rfl, by decide, by decide, by decide, by decide⟩

/-- C6: a dispatch considered on its own (its goroutine runs from message creation to
its end with no other goroutine in between, from any value of the shared `err` and
`fails`), with retry limit at least 1 and message creation successful, reaches its end
and makes exactly one `MarkMessage` call: `Failed`, with `fails` incremented by exactly
one, when all `sendRetry` attempts fail; `Success`, with `fails` unchanged, when some
attempt succeeds.  In particular `Success` is written at most once. -/
theorem C6_single_dispatch_one_final_write (w : World) (mailing : Mailing) (t : Task)
    (s : Shared) (hn : 1 ≤ w.sendRetry) (hpc : t.pc = PC.save)
    (hsave : (w.saveMessage t.idx).2 = none) :
    (runTask w mailing (taskFuel w) t s).1.pc = PC.done ∧
      ((∀ a < w.sendRetry, (w.send t.idx a).isSome = true) →
        (runTask w mailing (taskFuel w) t s).2.trace.filter Event.isMarkMessage =
            s.trace.filter Event.isMarkMessage ++
              [Event.MarkMessage t.idx (w.saveMessage t.idx).1 SendStatus.Failed] ∧
          (runTask w mailing (taskFuel w) t s).2.fails = s.fails + 1) ∧
      ((∃ a < w.sendRetry, w.send t.idx a = none) →
        (runTask w mailing (taskFuel w) t s).2.trace.filter Event.isMarkMessage =
            s.trace.filter Event.isMarkMessage ++
              [Event.MarkMessage t.idx (w.saveMessage t.idx).1 SendStatus.Success] ∧
          (runTask w mailing (taskFuel w) t s).2.fails = s.fails) := by
  have hm := alone_marks w mailing t s hpc hsave
  have hiff := loopErr_isSome w t.idx w.sendRetry 0 none hn
  simp only [Nat.zero_add] at hiff
  refine ⟨runTask_done w mailing _ t s (PC.left_le _ _), ?_, ?_⟩
  · intro hall
    have hsome : (loopErr w t.idx w.sendRetry 0 none).isSome = true := hiff.mpr hall
    rw [hm.1, hm.2]
    simp [finalStatus, failBump, hsome]
  · rintro ⟨a, ha, hnone⟩
    have hno : (loopErr w t.idx w.sendRetry 0 none).isSome = false := by
      cases h : (loopErr w t.idx w.sendRetry 0 none).isSome with
      | false => rfl
      | true =>
          have := hiff.mp h a ha
          simp [hnone] at this
    rw [hm.1, hm.2]
    simp [finalStatus, failBump, hno]

/-- Witness of C6: the dispatch of the second recipient of scenario B, on its own. -/
theorem C6_single_dispatch_witness :
    1 ≤ scenarioB.sendRetry ∧ (newTask 1 (recipient 1)).pc = PC.save ∧
      (scenarioB.saveMessage (newTask 1 (recipient 1)).idx).2 = none ∧
      ((runTask scenarioB campaign (taskFuel scenarioB) (newTask 1 (recipient 1))
            { err := none, fails := 0, trace := [] }).1.pc = PC.done ∧
        ((∀ a < scenarioB.sendRetry,
            (scenarioB.send (newTask 1 (recipient 1)).idx a).isSome = true) →
          (runTask scenarioB campaign (taskFuel scenarioB) (newTask 1 (recipient 1))
              { err := none, fails := 0, trace := [] }).2.trace.filter Event.isMarkMessage =
              ([] : List Event).filter Event.isMarkMessage ++
                [Event.MarkMessage (newTask 1 (recipient 1)).idx
                  (scenarioB.saveMessage (newTask 1 (recipient 1)).idx).1 SendStatus.Failed] ∧
            (runTask scenarioB campaign (taskFuel scenarioB) (newTask 1 (recipient 1))
              { err := none, fails := 0, trace := [] }).2.fails = 0 + 1) ∧
        ((∃ a < scenarioB.sendRetry, scenarioB.send (newTask 1 (recipient 1)).idx a = none) →
          (runTask scenarioB campaign (taskFuel scenarioB) (newTask 1 (recipient 1))
              { err := none, fails := 0, trace := [] }).2.trace.filter Event.isMarkMessage =
              ([] : List Event).filter Event.isMarkMessage ++
                [Event.MarkMessage (newTask 1 (recipient 1)).idx
                  (scenarioB.saveMessage (newTask 1 (recipient 1)).idx).1 SendStatus.Success] ∧
            (runTask scenarioB campaign (taskFuel scenarioB) (newTask 1 (recipient 1))
              { err := none, fails := 0, trace := [] }).2.fails = 0)) :=
  ⟨by decide, rfl, rfl,
    C6_single_dispatch_one_final_write scenarioB campaign (newTask 1 (recipient 1))
      { err := none, fails := 0, trace := [] } (by decide) rfl rfl⟩

/-- C7: with recipients `c_0 .. c_(m-1)` fetched, if the deadline check first finds the
context done at recipient `k`, then under every schedule the dispatchers launched are
exactly those of `c_0 .. c_(k-1)`, all of them have finished when the run goes on,
every dispatcher call in the trace belongs to a recipient below `k`, and the run ends
with the `Canceled` write followed by `SaveStats` with `Sent = k + 1`, `Matches = m`
and `Fails` the value of the shared failure counter; it returns the context error. -/
theorem C7_deadline_stops_launching (w : World) (mailing : Mailing) (sched : List Nat)
    (clients : List Client) (k : Nat)
    (hexec : w.markMailing MailingStatus.Executing = none)
    (hfetch : w.getClientsForMailing = Except.ok clients)
    (hk : k < clients.length)
    (hbefore : ∀ j < k, w.ctxDone j = false)
    (hat : w.ctxDone k = true) :
    (mail w mailing sched).tasks.map Task.who = (clients.take k).enum ∧
      (∀ t ∈ (mail w mailing sched).tasks, t.pc = PC.done) ∧
      (mail w mailing sched).ret = some w.ctxErr ∧
      ∃ evs, (∀ e ∈ evs, ∃ i < k, e.byTask = some i) ∧
        (mail w mailing sched).trace =
          [Event.MarkMailing mailing.ID MailingStatus.Executing,
           Event.GetClientsForMailing mailing.ID] ++ evs ++
          [Event.MarkMailing mailing.ID MailingStatus.Canceled,
           Event.SaveStats { ID := mailing.ID, Matches := clients.length, Sent := k + 1,
                             Fails := (mail w mailing sched).fails, StartTime := w.start,
                             TimeExecuting := w.since }] := by
  have hl : launch w clients 0 [] = (tasksFrom 0 (clients.take k), some k) := by
    have := launch_stop w clients 0 [] k hk (by simpa using hbefore) (by simpa using hat)
    simpa using this
  obtain ⟨hwho, hdone, evs, hev, hcase⟩ := mail_fetched w mailing sched clients hexec hfetch
  rw [hl] at hwho hev hcase
  refine ⟨?_, hdone, ?_⟩
  · rw [hwho, tasksFrom_who]
    rfl
  · rcases hcase with ⟨hnone, _, _⟩ | ⟨count, hsome, hret, htrace⟩
    · exact absurd hnone (by simp)
    · have hc : k = count := by simpa using hsome
      subst hc
      refine ⟨hret, evs, ?_, htrace⟩
      intro e he
      obtain ⟨i, hi, hb⟩ := hev e he
      have hlt := tasksFrom_idx_lt 0 (clients.take k) i hi
      refine ⟨i, ?_, hb⟩
      have hlen : (clients.take k).length ≤ k := by simp
      omega

/-- Witness of C7: scenario C, five recipients, the context found done at index 2. -/
theorem C7_deadline_witness :
    scenarioC.markMailing MailingStatus.Executing = none ∧
      scenarioC.getClientsForMailing = Except.ok ((List.range 5).map (fun i => recipient i)) ∧
      2 < ((List.range 5).map (fun i => recipient (i : Nat))).length ∧
      (∀ j < 2, scenarioC.ctxDone j = false) ∧
      scenarioC.ctxDone 2 = true ∧
      ((mail scenarioC campaign [1, 0, 0, 1]).tasks.map Task.who =
          (((List.range 5).map (fun i => recipient (i : Nat))).take 2).enum ∧
        (∀ t ∈ (mail scenarioC campaign [1, 0, 0, 1]).tasks, t.pc = PC.done) ∧
        (mail scenarioC campaign [1, 0, 0, 1]).ret = some scenarioC.ctxErr ∧
        ∃ evs, (∀ e ∈ evs, ∃ i < 2, e.byTask = some i) ∧
          (mail scenarioC campaign [1, 0, 0, 1]).trace =
            [Event.MarkMailing campaign.ID MailingStatus.Executing,
             Event.GetClientsForMailing campaign.ID] ++ evs ++
            [Event.MarkMailing campaign.ID MailingStatus.Canceled,
             Event.SaveStats
               { ID := campaign.ID,
                 Matches := ((List.range 5).map (fun i => recipient (i : Nat))).length,
                 Sent := 2 + 1,
                 Fails := (mail scenarioC campaign [1, 0, 0, 1]).fails,
                 StartTime := scenarioC.start, TimeExecuting := scenarioC.since }]) :=
  ⟨rfl, rfl, by decide, by decide, by decide,
    C7_deadline_stops_launching scenarioC campaign [1, 0, 0, 1]
      ((List.range 5).map (fun i => recipient i)) 2 rfl rfl (by decide) (by decide) (by decide)⟩

/-- C8: when the `Executing` write succeeded and the recipient fetch returns an error,
the calls of the run are exactly the `Executing` write, the fetch and the `Failed`
write (so no `SaveMessage`, no `Send`, no `SaveStats`), no dispatcher is launched,
and `mail` returns the wrapped, non-nil error. -/
theorem C8_fetch_error_marks_failed (w : World) (mailing : Mailing) (sched : List Nat)
    (e : GoError) (hexec : w.markMailing MailingStatus.Executing = none)
    (hfetch : w.getClientsForMailing = Except.error e) :
    (mail w mailing sched).trace =
        [Event.MarkMailing mailing.ID MailingStatus.Executing,
         Event.GetClientsForMailing mailing.ID,
         Event.MarkMailing mailing.ID MailingStatus.Failed] ∧
      (mail w mailing sched).tasks = [] ∧
      (mail w mailing sched).ret = some (GoError.wrapped e "get clients for mailing") ∧
      (mail w mailing sched).ret ≠ none := by
  simp [mail, hexec, hfetch, errorsWrap]

/-- Witness of C8: a world whose recipient fetch returns an error. -/
theorem C8_fetch_error_witness :
    fetchFails.markMailing MailingStatus.Executing = none ∧
      fetchFails.getClientsForMailing = Except.error (GoError.raised 9) ∧
      ((mail fetchFails campaign []).trace =
          [Event.MarkMailing campaign.ID MailingStatus.Executing,
           Event.GetClientsForMailing campaign.ID,
           Event.MarkMailing campaign.ID MailingStatus.Failed] ∧
        (mail fetchFails campaign []).tasks = [] ∧
        (mail fetchFails campaign []).ret =
          some (GoError.wrapped (GoError.raised 9) "get clients for mailing") ∧
        (mail fetchFails campaign []).ret ≠ none) :=
  ⟨rfl, rfl, C8_fetch_error_marks_failed fetchFails campaign [] (GoError.raised 9) rfl rfl⟩

/-- C9: in every executor run `SaveStats` is called at most once; it is called exactly
once if and only if the run issues the `Done` or the `Canceled` write; and a run that
issues the `Failed` or the `Invalid` write does not call `SaveStats`. -/
theorem C9_stats_only_on_done_or_canceled (w : World) (now : Int) (mailing : Mailing)
    (sched : List Nat) :
    (executorRun w now mailing sched).trace.countP Event.isSaveStats ≤ 1 ∧
      ((executorRun w now mailing sched).trace.countP Event.isSaveStats = 1 ↔
        (Event.MarkMailing mailing.ID MailingStatus.Done ∈ (executorRun w now mailing sched).trace ∨
         Event.MarkMailing mailing.ID MailingStatus.Canceled ∈
           (executorRun w now mailing sched).trace)) ∧
      ((Event.MarkMailing mailing.ID MailingStatus.Failed ∈ (executorRun w now mailing sched).trace ∨
        Event.MarkMailing mailing.ID MailingStatus.Invalid ∈
          (executorRun w now mailing sched).trace) →
        (executorRun w now mailing sched).trace.countP Event.isSaveStats = 0) := by
  unfold executorRun
  split
  · simp [Event.isSaveStats]
  · cases hexec : w.markMailing MailingStatus.Executing with
    | some e => simp [mail, hexec, Event.isSaveStats]
    | none =>
        cases hfetch : w.getClientsForMailing with
        | error e => simp [mail, hexec, hfetch, Event.isSaveStats]
        | ok clients =>
            obtain ⟨_, _, evs, hev, hcase⟩ := mail_fetched w mailing sched clients hexec hfetch
            have h0 := countP_saveStats_dispatch evs _ hev
            have hm := markMailing_not_mem_dispatch evs _ hev mailing.ID
            rcases hcase with ⟨_, _, htr⟩ | ⟨count, _, _, htr⟩
            · rw [htr]
              simp [List.countP_append, List.countP_cons, Event.isSaveStats, h0, hm]
            · rw [htr]
              simp [List.countP_append, List.countP_cons, Event.isSaveStats, h0, hm]

/-- C10: when the `Executing` write and the recipient fetch succeed and the deadline
check never finds the context done, then whatever `SaveMessage`, `Send` and
`MarkMessage` answer and however the dispatchers interleave, a dispatcher is launched
for every fetched recipient, all of them finish, and the run ends with the `Done`
write and `SaveStats` (`Sent = Matches =` number of recipients) and returns nil. -/
theorem C10_recipient_failures_never_abort (w : World) (mailing : Mailing) (sched : List Nat)
    (clients : List Client)
    (hexec : w.markMailing MailingStatus.Executing = none)
    (hfetch : w.getClientsForMailing = Except.ok clients)
    (hnever : ∀ j < clients.length, w.ctxDone j = false) :
    (mail w mailing sched).tasks.map Task.who = clients.enum ∧
      (∀ t ∈ (mail w mailing sched).tasks, t.pc = PC.done) ∧
      (mail w mailing sched).ret = none ∧
      ∃ evs, (∀ e ∈ evs, ∃ i < clients.length, e.byTask = some i) ∧
        (mail w mailing sched).trace =
          [Event.MarkMailing mailing.ID MailingStatus.Executing,
           Event.GetClientsForMailing mailing.ID] ++ evs ++
          [Event.MarkMailing mailing.ID MailingStatus.Done,
           Event.SaveStats { ID := mailing.ID, Matches := clients.length,
                             Sent := clients.length,
                             Fails := (mail w mailing sched).fails, StartTime := w.start,
                             TimeExecuting := w.since }] := by
  have hl : launch w clients 0 [] = (tasksFrom 0 clients, none) := by
    have := launch_all w clients 0 [] (by simpa using hnever)
    simpa using this
  obtain ⟨hwho, hdone, evs, hev, hcase⟩ := mail_fetched w mailing sched clients hexec hfetch
  rw [hl] at hwho hev hcase
  refine ⟨?_, hdone, ?_⟩
  · rw [hwho, tasksFrom_who]
    rfl
  · rcases hcase with ⟨_, hret, htrace⟩ | ⟨count, hsome, _, _⟩
    · refine ⟨hret, evs, ?_, htrace⟩
      intro e he
      obtain ⟨i, hi, hb⟩ := hev e he
      have hlt := tasksFrom_idx_lt 0 clients i hi
      exact ⟨i, by omega, hb⟩
    · exact absurd hsome (by simp)

/-- Witness of C10: scenario B, where every attempt for the second recipient fails. -/
theorem C10_recipient_failures_witness :
    scenarioB.markMailing MailingStatus.Executing = none ∧
      scenarioB.getClientsForMailing = Except.ok ((List.range 2).map (fun i => recipient i)) ∧
      (∀ j < ((List.range 2).map (fun i => recipient (i : Nat))).length,
        scenarioB.ctxDone j = false) ∧
      ((mail scenarioB campaign [1, 0, 1]).tasks.map Task.who =
          ((List.range 2).map (fun i => recipient (i : Nat))).enum ∧
        (∀ t ∈ (mail scenarioB campaign [1, 0, 1]).tasks, t.pc = PC.done) ∧
        (mail scenarioB campaign [1, 0, 1]).ret = none ∧
        ∃ evs, (∀ e ∈ evs, ∃ i < ((List.range 2).map (fun i => recipient (i : Nat))).length,
            e.byTask = some i) ∧
          (mail scenarioB campaign [1, 0, 1]).trace =
            [Event.MarkMailing campaign.ID MailingStatus.Executing,
             Event.GetClientsForMailing campaign.ID] ++ evs ++
            [Event.MarkMailing campaign.ID MailingStatus.Done,
             Event.SaveStats
               { ID := campaign.ID,
                 Matches := ((List.range 2).map (fun i => recipient (i : Nat))).length,
                 Sent := ((List.range 2).map (fun i => recipient (i : Nat))).length,
                 Fails := (mail scenarioB campaign [1, 0, 1]).fails,
                 StartTime := scenarioB.start, TimeExecuting := scenarioB.since }]) :=
  ⟨rfl, rfl, by decide,
    C10_recipient_failures_never_abort scenarioB campaign [1, 0, 1]
      ((List.range 2).map (fun i => recipient i)) rfl rfl (by decide)⟩

/-- C11 (counterexample): two runs that stop before dispatching any recipient and
return an error although `GetClientsForMailing` did not fail, and that do not write
`Failed`.  First run: the `Executing` write fails while the recipient fetch would
succeed; the fetch is not even called and the only call of the run is the `Executing`
write.  Second run: the fetch succeeds with two recipients and the deadline check finds
the context done at the first one; the run writes `Canceled`, saves the cancel stats
and returns the error of the context. -/
theorem C11_executing_failure_aborts_without_failed :
    executingFails.getClientsForMailing = Except.ok [recipient 0] ∧
      (mail executingFails campaign []).ret ≠ none ∧
      (mail executingFails campaign []).tasks = [] ∧
      (mail executingFails campaign []).trace =
        [Event.MarkMailing 1 MailingStatus.Executing] ∧
      Event.MarkMailing 1 MailingStatus.Failed ∉ (mail executingFails campaign []).trace ∧
      doneAtOnce.getClientsForMailing = Except.ok [recipient 0, recipient 1] ∧
      (mail doneAtOnce campaign []).ret = some doneAtOnce.ctxErr ∧
      (mail doneAtOnce campaign []).tasks = [] ∧
      (mail doneAtOnce campaign []).trace =
        [Event.MarkMailing 1 MailingStatus.Executing,
         Event.GetClientsForMailing 1,
         Event.MarkMailing 1 MailingStatus.Canceled,
         Event.SaveStats { ID := 1, Matches := 2, Sent := 1, Fails := 0, StartTime := 0,
                           TimeExecuting := 0 }] ∧
      Event.MarkMailing 1 MailingStatus.Failed ∉ (mail doneAtOnce campaign []).trace := by
  refine ⟨rfl, by decide, by decide, by decide, by decide, rfl, by decide, by decide,
    by decide, by decide⟩

/-- C11 (amended): every run of `mail` falls under one of four cases, whatever the
dispatchers meet and however they interleave.  (1) The `Executing` write failed: the
run returns that error wrapped, launches no dispatcher, and the write is its only
call.  (2) The `Executing` write succeeded and `GetClientsForMailing` failed: the run
returns that error wrapped, launches no dispatcher, and its calls are the `Executing`
write, the fetch and the `Failed` write.  (3) The fetch succeeded and the deadline
check found the context done at recipient `count` and at none before: the run returns
the error of the context, the dispatchers launched are exactly those of the recipients
before `count` (none when `count` is 0), all of them finish, and the run writes
`Canceled` and not `Failed`.  (4) The fetch succeeded and no deadline check found the
context done: a dispatcher is launched for every recipient and the run returns nil.
So a run returns an error only in the cases (1), (2) and (3). -/
theorem C11_error_returns_of_mail (w : World) (mailing : Mailing) (sched : List Nat) :
    (∀ e, w.markMailing MailingStatus.Executing = some e →
        (mail w mailing sched).ret =
          some (GoError.wrapped e "mark mailing status as executing") ∧
        (mail w mailing sched).tasks = [] ∧
        (mail w mailing sched).trace =
          [Event.MarkMailing mailing.ID MailingStatus.Executing]) ∧
      (w.markMailing MailingStatus.Executing = none →
        ∀ e, w.getClientsForMailing = Except.error e →
          (mail w mailing sched).ret = some (GoError.wrapped e "get clients for mailing") ∧
          (mail w mailing sched).tasks = [] ∧
          (mail w mailing sched).trace =
            [Event.MarkMailing mailing.ID MailingStatus.Executing,
             Event.GetClientsForMailing mailing.ID,
             Event.MarkMailing mailing.ID MailingStatus.Failed]) ∧
      (w.markMailing MailingStatus.Executing = none →
        ∀ clients, w.getClientsForMailing = Except.ok clients →
          ∀ count, count < clients.length → w.ctxDone count = true →
            (∀ j < count, w.ctxDone j = false) →
            (mail w mailing sched).ret = some w.ctxErr ∧
            (mail w mailing sched).tasks.map Task.who = (clients.take count).enum ∧
            (∀ t ∈ (mail w mailing sched).tasks, t.pc = PC.done) ∧
            Event.MarkMailing mailing.ID MailingStatus.Canceled ∈
              (mail w mailing sched).trace ∧
            Event.MarkMailing mailing.ID MailingStatus.Failed ∉
              (mail w mailing sched).trace) ∧
      (w.markMailing MailingStatus.Executing = none →
        ∀ clients, w.getClientsForMailing = Except.ok clients →
          (∀ j < clients.length, w.ctxDone j = false) →
            (mail w mailing sched).ret = none ∧
            (mail w mailing sched).tasks.map Task.who = clients.enum) ∧
      ((mail w mailing sched).ret ≠ none →
        (∃ e, w.markMailing MailingStatus.Executing = some e) ∨
        (w.markMailing MailingStatus.Executing = none ∧
          ∃ e, w.getClientsForMailing = Except.error e) ∨
        (w.markMailing MailingStatus.Executing = none ∧
          ∃ clients count, w.getClientsForMailing = Except.ok clients ∧
            count < clients.length ∧ w.ctxDone count = true ∧
            (∀ j < count, w.ctxDone j = false))) := by
  refine ⟨?_, ?_, ?_, ?_, ?_⟩
  · intro e hexec
    simp [mail, hexec, errorsWrap]
  · intro hexec e hfetch
    simp [mail, hexec, hfetch, errorsWrap]
  · intro hexec clients hfetch count hlt hat hbefore
    have hl : launch w clients 0 [] = (tasksFrom 0 (clients.take count), some count) := by
      have := launch_stop w clients 0 [] count hlt (by simpa using hbefore) (by simpa using hat)
      simpa using this
    obtain ⟨hwho, hdone, evs, hev, hcase⟩ := mail_fetched w mailing sched clients hexec hfetch
    have hm := markMailing_not_mem_dispatch evs _ hev mailing.ID
    rw [hl] at hwho hcase
    rcases hcase with ⟨hnone, _, _⟩ | ⟨c, hsome, hret, htrace⟩
    · exact absurd hnone (by simp)
    · refine ⟨hret, ?_, hdone, ?_, ?_⟩
      · rw [hwho, tasksFrom_who]
        rfl
      · rw [htrace]
        simp
      · rw [htrace]
        simp [hm]
  · intro hexec clients hfetch hnever
    have hl : launch w clients 0 [] = (tasksFrom 0 clients, none) := by
      have := launch_all w clients 0 [] (by simpa using hnever)
      simpa using this
    obtain ⟨hwho, _, evs, _, hcase⟩ := mail_fetched w mailing sched clients hexec hfetch
    rw [hl] at hwho hcase
    rcases hcase with ⟨_, hret, _⟩ | ⟨c, hsome, _, _⟩
    · refine ⟨hret, ?_⟩
      rw [hwho, tasksFrom_who]
      rfl
    · exact absurd hsome (by simp)
  · intro hret
    cases hexec : w.markMailing MailingStatus.Executing with
    | some e => exact Or.inl ⟨e, rfl⟩
    | none =>
        right
        cases hfetch : w.getClientsForMailing with
        | error e => exact Or.inl ⟨rfl, e, rfl⟩
        | ok clients =>
            right
            obtain ⟨_, _, evs, _, hcase⟩ := mail_fetched w mailing sched clients hexec hfetch
            rcases hcase with ⟨_, hnone, _⟩ | ⟨count, hstop, _, _⟩
            · exact absurd hnone hret
            · obtain ⟨k, hk, hlt, hno, hat, _⟩ := launch_stopped w clients 0 [] count hstop
              rw [Nat.zero_add] at hk
              subst hk
              refine ⟨rfl, clients, count, rfl, hlt, ?_, ?_⟩
              · simpa using hat
              · intro j hj
                simpa using hno j hj

/-- Witness of C11 (amended): scenario C, five recipients, the context found done at
the third deadline check, the two dispatchers interleaved. -/
theorem C11_error_returns_witness :
    scenarioC.markMailing MailingStatus.Executing = none ∧
      scenarioC.getClientsForMailing = Except.ok ((List.range 5).map (fun i => recipient i)) ∧
      scenarioC.ctxDone 2 = true ∧ (∀ j < 2, scenarioC.ctxDone j = false) ∧
      ((mail scenarioC campaign [0, 1, 0, 1]).ret = some scenarioC.ctxErr ∧
        (mail scenarioC campaign [0, 1, 0, 1]).tasks.map Task.who =
          (((List.range 5).map (fun i => recipient i)).take 2).enum ∧
        (∀ t ∈ (mail scenarioC campaign [0, 1, 0, 1]).tasks, t.pc = PC.done) ∧
        Event.MarkMailing campaign.ID MailingStatus.Canceled ∈
          (mail scenarioC campaign [0, 1, 0, 1]).trace ∧
        Event.MarkMailing campaign.ID MailingStatus.Failed ∉
          (mail scenarioC campaign [0, 1, 0, 1]).trace) :=
  ⟨rfl, rfl, rfl, by decide,
   (C11_error_returns_of_mail scenarioC campaign [0, 1, 0, 1]).2.2.1 rfl
     ((List.range 5).map (fun i => recipient i)) rfl 2 (by decide) rfl (by decide)⟩

/-- C12: when a `select` takes a tick whose `GetPendingMailings` returns an error, the
loop makes exactly that one Store call for the tick (the query is not repeated),
launches no executor goroutine, does not return, and goes on with the next `select`
from the state it had, extended by the one query call. -/
theorem C12_failed_query_skips_tick (ctxErr : GoError) (sel : Select) (td : TickData)
    (e : GoError) (rest : List Select) (st : LoopState)
    (htick : sel.tick = some td) (htaken : sel.takesDone = false)
    (hfail : td.pending = Except.error e) :
    (doTick td st).trace = st.trace ++ [Event.GetPendingMailings] ∧
      (doTick td st).launched = st.launched ∧
      StartFetchingMailings ctxErr (sel :: rest) st =
        StartFetchingMailings ctxErr rest
          { trace := st.trace ++ [Event.GetPendingMailings], launched := st.launched } := by
  have h1 : doTick td st =
      { trace := st.trace ++ [Event.GetPendingMailings], launched := st.launched } := by
    simp [doTick, tick, hfail]
  refine ⟨by rw [h1], by rw [h1], ?_⟩
  simp only [StartFetchingMailings, htaken, htick, Bool.false_eq_true, if_false]
  rw [h1]

/-- Witness of C12: a tick with a failing query, taken while the context is not done. -/
theorem C12_failed_query_witness :
    failingSelect.tick = some failingTick ∧ failingSelect.takesDone = false ∧
      failingTick.pending = Except.error (GoError.raised 11) ∧
      ((doTick failingTick loopStart).trace = loopStart.trace ++ [Event.GetPendingMailings] ∧
        (doTick failingTick loopStart).launched = loopStart.launched ∧
        StartFetchingMailings (GoError.raised 0) (failingSelect :: []) loopStart =
          StartFetchingMailings (GoError.raised 0) []
            { trace := loopStart.trace ++ [Event.GetPendingMailings],
              launched := loopStart.launched }) :=
  ⟨rfl, rfl, rfl,
    C12_failed_query_skips_tick (GoError.raised 0) failingSelect failingTick
      (GoError.raised 11) [] loopStart rfl rfl rfl⟩

/-- C13 (runs that break it): two recipients, every `SaveMessage` and every `Send`
succeeds.  Under one and the same schedule, the second recipient's message is written
`Success` and `Fails` is 0 when `MarkMessage` succeeds for the first recipient, but it
is written `Failed` and `Fails` is 1 when that `MarkMessage` returns an error: the
error is stored in the shared `err` (line 152) and the second dispatcher reads it at
line 140. -/
theorem C13_mark_error_changes_sibling_outcome :
    (∀ i, (markFailsFirst.saveMessage i).2 = none) ∧
      (∀ i a, markFailsFirst.send i a = none) ∧
      (mail (calmWorld 2) campaign [1, 1, 1, 1, 0, 0, 0, 0, 0, 0, 1, 1]).trace =
        [Event.MarkMailing 1 MailingStatus.Executing,
         Event.GetClientsForMailing 1,
         Event.SaveMessage 1 1 1,
         Event.Send 1 101 7001 "hi",
         Event.SaveMessage 0 1 0,
         Event.Send 0 100 7000 "hi",
         Event.MarkMessage 0 100 SendStatus.Success,
         Event.MarkMessage 1 101 SendStatus.Success,
         Event.MarkMailing 1 MailingStatus.Done,
         Event.SaveStats { ID := 1, Matches := 2, Sent := 2, Fails := 0, StartTime := 0,
                           TimeExecuting := 0 }] ∧
      (mail markFailsFirst campaign [1, 1, 1, 1, 0, 0, 0, 0, 0, 0, 1, 1]).trace =
        [Event.MarkMailing 1 MailingStatus.Executing,
         Event.GetClientsForMailing 1,
         Event.SaveMessage 1 1 1,
         Event.Send 1 101 7001 "hi",
         Event.SaveMessage 0 1 0,
         Event.Send 0 100 7000 "hi",
         Event.MarkMessage 0 100 SendStatus.Success,
         Event.MarkMessage 1 101 SendStatus.Failed,
         Event.MarkMailing 1 MailingStatus.Done,
         Event.SaveStats { ID := 1, Matches := 2, Sent := 2, Fails := 1, StartTime := 0,
                           TimeExecuting := 0 }] := by
  refine ⟨fun _ => rfl, fun _ _ => rfl, by decide, by decide⟩

/-- C14: for a campaign with a non-nil filter, `GetClientsForMailing` puts a criterion
in the condition exactly when it is non-zero or non-empty (operator code, tag,
timezone); the criteria present come in the order operator, tag, timezone and are
joined with ` AND ` after `WHERE `, each an equality test on its column; a recipient is
selected exactly when it equals the filter on every criterion present; and when all
three are empty the query has no `WHERE` clause and selects every recipient. -/
theorem C14_filter_criteria (mailing : Mailing) (f : Filter)
    (hfilter : mailing.Filter = some f) :
    (operatorClause ∈ filterClauses f ↔ f.PhoneOperator ≠ 0) ∧
      (tagClause ∈ filterClauses f ↔ f.Tag ≠ "") ∧
      (timezoneClause ∈ filterClauses f ↔ f.Timezone ≠ "") ∧
      (filterClauses f).Sublist [operatorClause, tagClause, timezoneClause] ∧
      clientsQuery mailing =
        some (if filterClauses f = [] then selectFromClient
              else selectFromClient ++ "WHERE " ++ " AND ".intercalate (filterClauses f)) ∧
      (∀ c : Client, selectedBy f c = true ↔
        ((f.PhoneOperator ≠ 0 → c.PhoneOperator = f.PhoneOperator) ∧
         (f.Tag ≠ "" → c.Tag = f.Tag) ∧
         (f.Timezone ≠ "" → c.Timezone = f.Timezone))) ∧
      (f.PhoneOperator = 0 → f.Tag = "" → f.Timezone = "" →
        clientsQuery mailing = some selectFromClient ∧ ∀ c : Client, selectedBy f c = true) := by
  have h1 : operatorClause ≠ tagClause := by decide
  have h2 : operatorClause ≠ timezoneClause := by decide
  have h3 : tagClause ≠ timezoneClause := by decide
  by_cases ho : f.PhoneOperator = 0 <;> by_cases ht : f.Tag = "" <;>
    by_cases hz : f.Timezone = "" <;>
    simp [filterClauses, clientsQuery, hfilter, selectedBy, clauseHolds, stringsJoin,
      ho, ht, hz, h1, h2, h3, h1.symm, h2.symm, h3.symm]

/-- Witness of C14: a filter with operator code and timezone, and an empty tag. -/
theorem C14_filter_criteria_witness :
    filteredCampaign.Filter = some { PhoneOperator := 900, Tag := "", Timezone := "UTC" } ∧
      ((operatorClause ∈ filterClauses { PhoneOperator := 900, Tag := "", Timezone := "UTC" } ↔
          ({ PhoneOperator := 900, Tag := "", Timezone := "UTC" } : Filter).PhoneOperator ≠ 0) ∧
        (tagClause ∈ filterClauses { PhoneOperator := 900, Tag := "", Timezone := "UTC" } ↔
          ({ PhoneOperator := 900, Tag := "", Timezone := "UTC" } : Filter).Tag ≠ "") ∧
        (timezoneClause ∈ filterClauses { PhoneOperator := 900, Tag := "", Timezone := "UTC" } ↔
          ({ PhoneOperator := 900, Tag := "", Timezone := "UTC" } : Filter).Timezone ≠ "") ∧
        (filterClauses { PhoneOperator := 900, Tag := "", Timezone := "UTC" }).Sublist
          [operatorClause, tagClause, timezoneClause] ∧
        clientsQuery filteredCampaign =
          some (if filterClauses { PhoneOperator := 900, Tag := "", Timezone := "UTC" } = []
                then selectFromClient
                else selectFromClient ++ "WHERE " ++
                  " AND ".intercalate
                    (filterClauses { PhoneOperator := 900, Tag := "", Timezone := "UTC" })) ∧
        (∀ c : Client,
          selectedBy { PhoneOperator := 900, Tag := "", Timezone := "UTC" } c = true ↔
            ((({ PhoneOperator := 900, Tag := "", Timezone := "UTC" } : Filter).PhoneOperator ≠ 0 →
                c.PhoneOperator =
                  ({ PhoneOperator := 900, Tag := "", Timezone := "UTC" } : Filter).PhoneOperator) ∧
              (({ PhoneOperator := 900, Tag := "", Timezone := "UTC" } : Filter).Tag ≠ "" →
                c.Tag = ({ PhoneOperator := 900, Tag := "", Timezone := "UTC" } : Filter).Tag) ∧
              (({ PhoneOperator := 900, Tag := "", Timezone := "UTC" } : Filter).Timezone ≠ "" →
                c.Timezone =
                  ({ PhoneOperator := 900, Tag := "", Timezone := "UTC" } : Filter).Timezone))) ∧
        (({ PhoneOperator := 900, Tag := "", Timezone := "UTC" } : Filter).PhoneOperator = 0 →
          ({ PhoneOperator := 900, Tag := "", Timezone := "UTC" } : Filter).Tag = "" →
          ({ PhoneOperator := 900, Tag := "", Timezone := "UTC" } : Filter).Timezone = "" →
          clientsQuery filteredCampaign = some selectFromClient ∧
            ∀ c : Client,
              selectedBy { PhoneOperator := 900, Tag := "", Timezone := "UTC" } c = true)) :=
  ⟨rfl, C14_filter_criteria filteredCampaign
    { PhoneOperator := 900, Tag := "", Timezone := "UTC" } rfl⟩

/-- C15: in every run launched by the scheduler (expiry test, then `mail`) the sequence
of campaign status writes is `[Invalid]`, `[Executing, Failed]`, `[Executing, Done]`,
`[Executing, Canceled]`, or the single write `[Executing]`, the last one exactly when
the `Executing` write failed.  So at most one terminal status is written, nothing is
written after it, and `Done`, `Canceled`, `Failed` come only after `Executing`. -/
theorem C15_status_write_sequences (w : World) (now : Int) (mailing : Mailing)
    (sched : List Nat) :
    (statusWrites (executorRun w now mailing sched).trace = [MailingStatus.Invalid] ∨
      statusWrites (executorRun w now mailing sched).trace =
        [MailingStatus.Executing, MailingStatus.Failed] ∨
      statusWrites (executorRun w now mailing sched).trace =
        [MailingStatus.Executing, MailingStatus.Done] ∨
      statusWrites (executorRun w now mailing sched).trace =
        [MailingStatus.Executing, MailingStatus.Canceled] ∨
      (statusWrites (executorRun w now mailing sched).trace = [MailingStatus.Executing] ∧
        ∃ e, w.markMailing MailingStatus.Executing = some e)) ∧
      (statusWrites (executorRun w now mailing sched).trace = [MailingStatus.Executing] →
        timeAfter now mailing.EndTime = false ∧
          ∃ e, w.markMailing MailingStatus.Executing = some e) := by
  unfold executorRun
  split
  · simp [statusWrites, Event.statusWrite]
  · rename_i hna
    have hna' : timeAfter now mailing.EndTime = false := by simpa using hna
    cases hexec : w.markMailing MailingStatus.Executing with
    | some e => simp [mail, hexec, statusWrites, Event.statusWrite, hna']
    | none =>
        cases hfetch : w.getClientsForMailing with
        | error e => simp [mail, hexec, hfetch, statusWrites, Event.statusWrite]
        | ok clients =>
            obtain ⟨_, _, evs, hev, hcase⟩ := mail_fetched w mailing sched clients hexec hfetch
            have h0 := statusWrites_dispatch evs _ hev
            unfold statusWrites at h0
            rcases hcase with ⟨_, _, htr⟩ | ⟨count, _, _, htr⟩
            · rw [htr]
              simp [statusWrites, List.filterMap_append, h0, Event.statusWrite]
            · rw [htr]
              simp [statusWrites, List.filterMap_append, h0, Event.statusWrite]

/-- C16 (runs that break it): with two recipients, the status written for a recipient
and its being counted in `Fails` depend on the sibling.  Timing: in scenario B the
second recipient, whose attempts all fail, is written `Failed` with `Fails = 1` when
the dispatchers run one after the other, and `Success` with `Fails = 0` when the first
dispatcher runs while the second sleeps after its last attempt.  Results: under one
schedule the first recipient, whose own calls all succeed, is written `Success` when
the sibling's `Send` succeeds and `Failed` (and counted) when the sibling's `Send`
fails. -/
theorem C16_sibling_changes_outcome :
    (mail scenarioB campaign []).trace.filter Event.isMarkMessage =
        [Event.MarkMessage 0 100 SendStatus.Success,
         Event.MarkMessage 1 101 SendStatus.Failed] ∧
      (mail scenarioB campaign []).fails = 1 ∧
      (mail scenarioB campaign [1, 1, 1, 1, 1, 1, 1, 1]).trace.filter Event.isMarkMessage =
        [Event.MarkMessage 0 100 SendStatus.Success,
         Event.MarkMessage 1 101 SendStatus.Success] ∧
      (mail scenarioB campaign [1, 1, 1, 1, 1, 1, 1, 1]).fails = 0 ∧
      (calmWorld 2).saveMessage 0 = scenarioB.saveMessage 0 ∧
      (∀ a, (calmWorld 2).send 0 a = scenarioB.send 0 a) ∧
      (calmWorld 2).markMessage = scenarioB.markMessage ∧
      callsOf 0 (mail (calmWorld 2) campaign [0, 0, 0, 0, 1, 1, 1, 0]).trace =
        [Event.SaveMessage 0 1 0, Event.Send 0 100 7000 "hi",
         Event.MarkMessage 0 100 SendStatus.Success] ∧
      (mail (calmWorld 2) campaign [0, 0, 0, 0, 1, 1, 1, 0]).fails = 0 ∧
      callsOf 0 (mail scenarioB campaign [0, 0, 0, 0, 1, 1, 1, 0]).trace =
        [Event.SaveMessage 0 1 0, Event.Send 0 100 7000 "hi",
         Event.MarkMessage 0 100 SendStatus.Failed] ∧
      (mail scenarioB campaign [0, 0, 0, 0, 1, 1, 1, 0]).fails = 1 := by
  refine ⟨by decide, by decide, by decide, by decide, rfl, fun _ => rfl, rfl, by decide,
    by decide, by decide, by decide⟩

/-- C17 (counterexample): the campaign window ends at 100.  First run: the scheduler
context is cancelled at instant 10 and the loop of `mail` reaches every recipient at
instant 20; the end-time deadline has not been reached, yet the run takes the
`Canceled` path: it launches no dispatcher, writes `Canceled` and saves the cancel
stats.  Second run: the scheduler context is never done, the timer of the deadline
fires one instant late and the loop reaches recipient 0 at instant 100: the deadline
has been reached, yet the check finds the context not done and the dispatcher of
recipient 0 is launched. -/
theorem C17_canceled_by_parent_context :
    campaign.EndTime = 100 ∧
      (runUnderCtx cancelledParent 0 (fun _ => 20)
          { world := calmWorld 2, now := 5, sched := [] } campaign).trace =
        [Event.MarkMailing 1 MailingStatus.Executing,
         Event.GetClientsForMailing 1,
         Event.MarkMailing 1 MailingStatus.Canceled,
         Event.SaveStats { ID := 1, Matches := 2, Sent := 1, Fails := 0, StartTime := 0,
                           TimeExecuting := 0 }] ∧
      (runUnderCtx cancelledParent 0 (fun _ => 20)
          { world := calmWorld 2, now := 5, sched := [] } campaign).tasks = [] ∧
      (runUnderCtx background 1 (fun count => 100 + (count : Int))
          { world := calmWorld 2, now := 5, sched := [] } campaign).tasks.map Task.who =
        [(0, recipient 0)] ∧
      Event.MarkMailing 1 MailingStatus.Canceled ∈
        (runUnderCtx background 1 (fun count => 100 + (count : Int))
          { world := calmWorld 2, now := 5, sched := [] } campaign).trace := by
  refine ⟨rfl, by decide, by decide, by decide, by decide⟩

/-- C17 (amended): in every run under the scheduler context, whatever the delay of the
deadline's timer, each dispatcher was launched at a deadline check that found the
context of the run not done, and each launched dispatcher runs to its end (it is
waited for, not aborted); and the `Canceled` path is taken only when the deadline
check found the context of the run done at some recipient `count` and at no earlier
one, which implies that the end-time deadline was reached there or that the scheduler
context was done there; the dispatchers launched are then exactly those of the
recipients before `count`. -/
theorem C17_canceled_only_when_context_done (parent : Ctx) (lag : Nat) (clock : Nat → Int)
    (rp : RunParams) (mailing : Mailing) :
    (∀ t ∈ (runUnderCtx parent lag clock rp mailing).tasks,
        (withDeadline parent mailing.EndTime lag).isDone (clock t.idx) = false ∧
          t.pc = PC.done) ∧
      (Event.MarkMailing mailing.ID MailingStatus.Canceled ∈
          (runUnderCtx parent lag clock rp mailing).trace →
        ∃ clients count, rp.world.getClientsForMailing = Except.ok clients ∧
          count < clients.length ∧
          (withDeadline parent mailing.EndTime lag).isDone (clock count) = true ∧
          (∀ j < count, (withDeadline parent mailing.EndTime lag).isDone (clock j) = false) ∧
          (mailing.EndTime ≤ clock count ∨ parent.isDone (clock count) = true) ∧
          (runUnderCtx parent lag clock rp mailing).tasks.map Task.who =
            (clients.take count).enum) := by
  unfold runUnderCtx executorRun
  split
  · simp
  · cases hexec : rp.world.markMailing MailingStatus.Executing with
    | some e => simp [mail, hexec]
    | none =>
        cases hfetch : rp.world.getClientsForMailing with
        | error e => simp [mail, hexec, hfetch]
        | ok clients =>
            obtain ⟨hwho, hdone, evs, hev, hcase⟩ :=
              mail_fetched
                { rp.world with
                  ctxDone := fun count =>
                    (withDeadline parent mailing.EndTime lag).isDone (clock count) }
                mailing rp.sched clients hexec hfetch
            obtain ⟨k, hk, hl, hno, hstop⟩ :=
              launch_spec
                { rp.world with
                  ctxDone := fun count =>
                    (withDeadline parent mailing.EndTime lag).isDone (clock count) }
                clients 0 []
            rw [List.nil_append] at hl
            rw [hl] at hwho
            constructor
            · intro t ht
              refine ⟨?_, hdone t ht⟩
              have hmem : t.idx ∈ (tasksFrom 0 (clients.take k)).map Task.idx := by
                rw [← map_idx_of_who hwho]
                exact List.mem_map_of_mem Task.idx ht
              have hlt := tasksFrom_idx_lt 0 (clients.take k) t.idx hmem
              have hlen : (clients.take k).length ≤ k := by simp
              have := hno t.idx (by omega)
              simp only [Nat.zero_add] at this
              exact this
            · intro hmem
              rcases hcase with ⟨_, _, htr⟩ | ⟨count, hsome, _, _⟩
              · rw [htr] at hmem
                have hnot := markMailing_not_mem_dispatch evs _ hev mailing.ID
                  MailingStatus.Canceled
                simp [hnot] at hmem
              · rcases hstop with ⟨hnone, _⟩ | ⟨hs, hlt, hat⟩
                · rw [hnone] at hsome
                  cases hsome
                · refine ⟨clients, k, rfl, hlt, ?_, ?_, ?_, ?_⟩
                  · simp only [Nat.zero_add] at hat
                    exact hat
                  · intro j hj
                    have := hno j hj
                    simp only [Nat.zero_add] at this
                    exact this
                  · simp only [Nat.zero_add] at hat
                    exact withDeadline_done parent mailing.EndTime lag (clock k) hat
                  · rw [hwho, tasksFrom_who]
                    rfl

/-- C18 (counterexample): the context is already cancelled at a `select` at which a
tick is ready too, and Go picks the tick: the loop issues one more
`GetPendingMailings` after the cancellation, and returns only at the next `select`. -/
theorem C18_query_after_cancellation :
    (∀ sel ∈ cancelledWithTick, sel.ctxDone = true) ∧
      (StartFetchingMailings (GoError.raised 0) cancelledWithTick loopStart).state.trace =
        [Event.GetPendingMailings] ∧
      (StartFetchingMailings (GoError.raised 0) cancelledWithTick loopStart).returned =
        some (some (GoError.raised 0)) := by
  refine ⟨by decide, by decide, by decide⟩

/-- C18 (amended): the loop returns if and only if some `select` takes the case
`<-ctx.Done()`, whatever the Store answers; what it returns is the context error,
never nil; when it returns, `wg.Wait()` has waited for every executor goroutine
launched, each of which has run to its end with all its dispatchers finished; and from
the first `select` that takes `<-ctx.Done()` on, the loop makes no further call and
launches nothing: its state is the one reached by the `select`s before. -/
theorem C18_loop_returns_on_done_case (ctxErr : GoError) (sels : List Select)
    (st : LoopState) :
    ((StartFetchingMailings ctxErr sels st).returned ≠ none ↔
        ∃ sel ∈ sels, sel.takesDone = true) ∧
      (∀ x, (StartFetchingMailings ctxErr sels st).returned = some x → x = some ctxErr) ∧
      ((StartFetchingMailings ctxErr sels st).returned ≠ none →
        (StartFetchingMailings ctxErr sels st).waited =
            (StartFetchingMailings ctxErr sels st).state.launched.map Launched.run ∧
          ∀ run ∈ (StartFetchingMailings ctxErr sels st).waited,
            ∀ t ∈ run.tasks, t.pc = PC.done) ∧
      (∀ pre sel post, sels = pre ++ sel :: post → (∀ s ∈ pre, s.takesDone = false) →
        sel.takesDone = true →
        (StartFetchingMailings ctxErr sels st).state =
            (StartFetchingMailings ctxErr pre st).state ∧
          (StartFetchingMailings ctxErr pre st).returned = none) := by
  refine ⟨loop_returned_iff ctxErr sels st, ?_, ?_, ?_⟩
  · intro x hx
    exact (loop_returned_value ctxErr sels st x hx).1
  · intro hne
    obtain ⟨x, hx⟩ := Option.ne_none_iff_exists'.mp hne
    have hw := (loop_returned_value ctxErr sels st x hx).2
    refine ⟨hw, ?_⟩
    intro run hrun t ht
    rw [hw] at hrun
    obtain ⟨l, _, hl⟩ := List.mem_map.mp hrun
    rw [← hl] at ht
    exact executorRun_tasks_done _ _ _ _ t ht
  · intro pre sel post hsels hpre hsel
    refine ⟨by rw [hsels]; exact loop_stops_at_done ctxErr pre sel post hsel st hpre, ?_⟩
    by_contra hne
    obtain ⟨s, hs, hd⟩ := (loop_returned_iff ctxErr pre st).mp hne
    rw [hpre s hs] at hd
    cases hd

/-- C19 (requests that break it): `sendMessage` creates the message first.  When the
body then cannot be bound (line 349), or the recipient is not found (line 354), the
handler returns without any `MarkMessage` call: the created message keeps the status
`Pending`. -/
theorem C19_created_message_left_pending :
    unboundRequest.saveMessage.2 = none ∧
      sendMessage unboundRequest =
        { calls := [HandlerCall.SaveMessage 7], status := some 400 } ∧
      (sendMessage unboundRequest).calls.countP HandlerCall.isMarkMessage = 0 ∧
      unknownRecipientRequest.saveMessage.2 = none ∧
      sendMessage unknownRecipientRequest =
        { calls := [HandlerCall.SaveMessage 7, HandlerCall.GetClientByID 7],
          status := some 500 } ∧
      (sendMessage unknownRecipientRequest).calls.countP HandlerCall.isMarkMessage = 0 := by
  refine ⟨rfl, by decide, by decide, rfl, by decide, by decide⟩

/-- C20 (a run that breaks it): scenario B.  The first attempt of the first dispatcher
succeeds, but it reads the sibling's error from the shared `err` at line 133 and
waits one second after its successful attempt before it calls `Send` again. -/
theorem C20_wait_after_successful_attempt :
    scenarioB.send 0 0 = none ∧
      callsOf 0 (mail scenarioB campaign [0, 0, 0, 1, 1, 1, 0, 1]).trace =
        [Event.SaveMessage 0 1 0,
         Event.Send 0 100 7000 "hi",
         Event.Sleep 0 1,
         Event.Send 0 100 7000 "hi",
         Event.MarkMessage 0 100 SendStatus.Success] := by
  refine ⟨rfl, by decide⟩

/-- C21: every stats record passed to `SaveStats` by an executor run, whatever the
collaborators answer and however the dispatchers interleave, satisfies
`0 <= Fails <= Sent <= Matches`, and `Fails` is at most the number of dispatchers
launched (each increments the counter at most once); when the run issues the
`Canceled` write, moreover `Sent >= 1` and `Fails <= Sent - 1`. -/
theorem C21_stats_record_bounds (w : World) (now : Int) (mailing : Mailing) (sched : List Nat)
    (st : MailingStats)
    (hst : Event.SaveStats st ∈ (executorRun w now mailing sched).trace) :
    0 ≤ st.Fails ∧ st.Fails ≤ st.Sent ∧ st.Sent ≤ st.Matches ∧
      st.Fails ≤ ((executorRun w now mailing sched).tasks.length : Int) ∧
      (Event.MarkMailing mailing.ID MailingStatus.Canceled ∈
          (executorRun w now mailing sched).trace →
        1 ≤ st.Sent ∧ st.Fails ≤ st.Sent - 1) := by
  unfold executorRun at hst ⊢
  split at hst
  · simp at hst
  · rename_i hnow
    simp only [hnow, if_false]
    cases hexec : w.markMailing MailingStatus.Executing with
    | some e => simp [mail, hexec] at hst
    | none =>
        cases hfetch : w.getClientsForMailing with
        | error e => simp [mail, hexec, hfetch] at hst
        | ok clients =>
            obtain ⟨_, _, evs, hev, hcase⟩ := mail_fetched w mailing sched clients hexec hfetch
            obtain ⟨hf0, hfl⟩ := mail_fails_bound w mailing sched
            have hnot : Event.SaveStats st ∉ evs := by
              intro hmem
              obtain ⟨i, _, hi⟩ := hev _ hmem
              simp [Event.byTask] at hi
            have hm := markMailing_not_mem_dispatch evs _ hev mailing.ID
            rcases hcase with ⟨hnone, _, htr⟩ | ⟨count, hsome, _, htr⟩
            · rcases mail_launched_count w mailing sched clients hexec hfetch with
                ⟨_, hlen⟩ | ⟨c, hc, _, _⟩
              · rw [htr] at hst
                simp [hnot] at hst
                have hcancel : Event.MarkMailing mailing.ID MailingStatus.Canceled ∉
                    (mail w mailing sched).trace := by
                  rw [htr]
                  simp [hm]
                subst hst
                simp only
                refine ⟨hf0, by omega, le_refl _, hfl, fun h => absurd h hcancel⟩
              · rw [hnone] at hc
                cases hc
            · rcases mail_launched_count w mailing sched clients hexec hfetch with
                ⟨hn, _⟩ | ⟨c, hc, hclt, hlen⟩
              · rw [hsome] at hn
                cases hn
              · rw [hsome] at hc
                cases hc
                rw [htr] at hst
                simp [hnot] at hst
                subst hst
                simp only
                refine ⟨hf0, by omega, by omega, hfl, fun _ => ⟨by omega, by omega⟩⟩

theorem C21_stats_record_witness :
    Event.SaveStats { ID := 1, Matches := 5, Sent := 3, Fails := 0, StartTime := 0,
                      TimeExecuting := 0 } ∈ (executorRun scenarioC 5 campaign []).trace ∧
      ((0 : Int) ≤ 0 ∧ (0 : Int) ≤ 3 ∧ (3 : Int) ≤ 5 ∧
        (0 : Int) ≤ ((executorRun scenarioC 5 campaign []).tasks.length : Int) ∧
        (Event.MarkMailing campaign.ID MailingStatus.Canceled ∈
            (executorRun scenarioC 5 campaign []).trace →
          (1 : Int) ≤ 3 ∧ (0 : Int) ≤ 3 - 1)) :=
  ⟨by decide,
   C21_stats_record_bounds scenarioC 5 campaign []
     { ID := 1, Matches := 5, Sent := 3, Fails := 0, StartTime := 0, TimeExecuting := 0 }
     (by decide)⟩

/-- C22: in every campaign run whose `Executing` write succeeds and whose recipient
fetch answers `clients`: when `clients` is empty the run makes exactly the calls
`Executing` write, fetch, `Done` write and `SaveStats` with `Matches = Sent = Fails = 0`,
launches no dispatcher and returns nil, whatever the deadline check would answer (it is
never consulted); and a run that issues the `Canceled` write has at least one fetched
recipient. -/
theorem C22_empty_fetch_ends_done (w : World) (mailing : Mailing) (sched : List Nat)
    (clients : List Client)
    (hexec : w.markMailing MailingStatus.Executing = none)
    (hfetch : w.getClientsForMailing = Except.ok clients) :
    (clients = [] →
      (mail w mailing sched).trace =
        [Event.MarkMailing mailing.ID MailingStatus.Executing,
         Event.GetClientsForMailing mailing.ID,
         Event.MarkMailing mailing.ID MailingStatus.Done,
         Event.SaveStats { ID := mailing.ID, Matches := 0, Sent := 0, Fails := 0,
                           StartTime := w.start, TimeExecuting := w.since }] ∧
      (mail w mailing sched).ret = none ∧ (mail w mailing sched).tasks = []) ∧
    (Event.MarkMailing mailing.ID MailingStatus.Canceled ∈ (mail w mailing sched).trace →
      1 ≤ clients.length) := by
  constructor
  · intro hnil
    subst hnil
    have hl : launch w [] 0 [] = ([], none) := rfl
    have hw : ∀ s : Shared, wgWait w mailing sched [] s = ([], s) := by
      intro s
      unfold wgWait
      induction sched generalizing s with
      | nil => rfl
      | cons i sched ih =>
          have e : runSched w mailing (i :: sched) [] s = runSched w mailing sched [] s := by
            cases i <;> rfl
          rw [e]
          exact ih s
    simp [mail, hexec, hfetch, hl, hw, mkStats]
  · intro hmem
    obtain ⟨_, _, evs, hev, hcase⟩ := mail_fetched w mailing sched clients hexec hfetch
    have hm := markMailing_not_mem_dispatch evs _ hev mailing.ID
    rcases hcase with ⟨_, _, htr⟩ | ⟨count, hsome, _, _⟩
    · rw [htr] at hmem
      simp [hm] at hmem
    · obtain ⟨k, _, hk, _⟩ := launch_stopped w clients 0 [] count hsome
      omega

theorem C22_empty_fetch_witness :
    noRecipientsLate.markMailing MailingStatus.Executing = none ∧
      noRecipientsLate.getClientsForMailing = Except.ok [] ∧
      (∀ count, noRecipientsLate.ctxDone count = true) ∧
      (([] : List Client) = [] →
        (mail noRecipientsLate campaign [0, 1]).trace =
          [Event.MarkMailing campaign.ID MailingStatus.Executing,
           Event.GetClientsForMailing campaign.ID,
           Event.MarkMailing campaign.ID MailingStatus.Done,
           Event.SaveStats { ID := campaign.ID, Matches := 0, Sent := 0, Fails := 0,
                             StartTime := noRecipientsLate.start,
                             TimeExecuting := noRecipientsLate.since }] ∧
        (mail noRecipientsLate campaign [0, 1]).ret = none ∧
        (mail noRecipientsLate campaign [0, 1]).tasks = []) ∧
      (Event.MarkMailing campaign.ID MailingStatus.Canceled ∈
          (mail noRecipientsLate campaign [0, 1]).trace →
        1 ≤ ([] : List Client).length) :=
  ⟨rfl, rfl, fun _ => rfl,
   C22_empty_fetch_ends_done noRecipientsLate campaign [0, 1] [] rfl rfl⟩

/-- C23: in every executor run under the scheduler context that issues the `Canceled`
write, the run ends with the `Canceled` write followed by `SaveStats`; the context of
`mail` (derived at line 62) is done at the instants of both calls, these being not
before the deadline check that stopped the loop; the run returns the error of that
context, which is not nil, whatever the Store answers to the two writes (replacing the
answers to the status writes other than `Executing` and to `SaveStats` leaves the run
unchanged); and with a driver that rejects calls made with a done context both calls
answer an error and leave the database as it was, so a campaign stored as `Executing`
stays `Executing` and gets no stats record. -/
theorem C23_canceled_writes_on_done_context (parent : Ctx) (lag : Nat) (clock : Nat → Int)
    (rp : RunParams) (mailing : Mailing) (tMark tStats : Int)
    (exec : Bool → Option GoError) (e : GoError) (db : Stored)
    (hcanceled : Event.MarkMailing mailing.ID MailingStatus.Canceled ∈
      (runUnderCtx parent lag clock rp mailing).trace)
    (hmark : clock (runUnderCtx parent lag clock rp mailing).tasks.length ≤ tMark)
    (hstats : tMark ≤ tStats)
    (hrej : exec true = some e) :
    (∃ before st, (runUnderCtx parent lag clock rp mailing).trace =
        before ++ [Event.MarkMailing mailing.ID MailingStatus.Canceled, Event.SaveStats st]) ∧
      (withDeadline parent mailing.EndTime lag).isDone tMark = true ∧
      (withDeadline parent mailing.EndTime lag).isDone tStats = true ∧
      (runUnderCtx parent lag clock rp mailing).ret = some rp.world.ctxErr ∧
      (∀ (mm : MailingStatus → Option GoError) (ss : MailingStats → Option GoError),
        mm MailingStatus.Executing = rp.world.markMailing MailingStatus.Executing →
        runUnderCtx parent lag clock
            { rp with world := { rp.world with markMailing := mm, saveStats := ss } } mailing =
          runUnderCtx parent lag clock rp mailing) ∧
      closingWrites exec (withDeadline parent mailing.EndTime lag) tMark tStats db
          (runUnderCtx parent lag clock rp mailing) =
        (db, [some (GoError.wrapped e "update mailing"),
              some (GoError.wrapped e "insert into mailing_stats")]) ∧
      (db.status = MailingStatus.Executing →
        (closingWrites exec (withDeadline parent mailing.EndTime lag) tMark tStats db
          (runUnderCtx parent lag clock rp mailing)).1.status = MailingStatus.Executing) := by
  have hlogged : ∀ (mm : MailingStatus → Option GoError) (ss : MailingStats → Option GoError),
      mm MailingStatus.Executing = rp.world.markMailing MailingStatus.Executing →
      runUnderCtx parent lag clock
          { rp with world := { rp.world with markMailing := mm, saveStats := ss } } mailing =
        runUnderCtx parent lag clock rp mailing := by
    intro mm ss hmm
    simp only [runUnderCtx, executorRun]
    by_cases hnow : timeAfter rp.now mailing.EndTime = true
    · rw [if_pos hnow, if_pos hnow]
    · rw [if_neg hnow, if_neg hnow]
      apply mail_congr <;> first | rfl | exact hmm
  refine ⟨?_, ?_, ?_, ?_, hlogged, ?_⟩
  · obtain ⟨before, st, _, _, htr⟩ := runUnderCtx_canceled parent lag clock rp mailing hcanceled
    exact ⟨before, st, htr⟩
  · obtain ⟨_, _, hd, _, _⟩ := runUnderCtx_canceled parent lag clock rp mailing hcanceled
    exact Ctx.isDone_mono _ _ _ hmark hd
  · obtain ⟨_, _, hd, _, _⟩ := runUnderCtx_canceled parent lag clock rp mailing hcanceled
    exact Ctx.isDone_mono _ _ _ (le_trans hmark hstats) hd
  · obtain ⟨_, _, _, hret, _⟩ := runUnderCtx_canceled parent lag clock rp mailing hcanceled
    exact hret
  · obtain ⟨before, st, hd, _, htr⟩ := runUnderCtx_canceled parent lag clock rp mailing hcanceled
    have h1 := Ctx.isDone_mono _ _ _ hmark hd
    have h2 := Ctx.isDone_mono _ _ _ (le_trans hmark hstats) hd
    have hcw : closingWrites exec (withDeadline parent mailing.EndTime lag) tMark tStats db
        (runUnderCtx parent lag clock rp mailing) =
        (db, [some (GoError.wrapped e "update mailing"),
              some (GoError.wrapped e "insert into mailing_stats")]) := by
      unfold closingWrites
      rw [htr, h1, h2]
      simp [Postgres.MarkMailing, Postgres.SaveStats, hrej, errorsWrap]
    refine ⟨hcw, fun hst => ?_⟩
    rw [hcw]
    exact hst

theorem C23_canceled_writes_witness :
    Event.MarkMailing campaign.ID MailingStatus.Canceled ∈
        (runUnderCtx background 0 (fun count => 98 + (count : Int))
          { world := closingWritesFail, now := 5, sched := [0, 1, 0, 1] } campaign).trace ∧
      (fun count : Nat => 98 + (count : Int))
          (runUnderCtx background 0 (fun count => 98 + (count : Int))
            { world := closingWritesFail, now := 5, sched := [0, 1, 0, 1] }
            campaign).tasks.length ≤ 101 ∧
      (101 : Int) ≤ 102 ∧
      strictExec true = some (GoError.raised 3) ∧
      closingWritesFail.markMailing MailingStatus.Canceled ≠ none ∧
      (runUnderCtx background 0 (fun count => 98 + (count : Int))
          { world := closingWritesFail, now := 5, sched := [0, 1, 0, 1] } campaign).ret =
        some closingWritesFail.ctxErr ∧
      closingWrites strictExec (withDeadline background campaign.EndTime 0) 101 102
          storedExecuting
          (runUnderCtx background 0 (fun count => 98 + (count : Int))
            { world := closingWritesFail, now := 5, sched := [0, 1, 0, 1] } campaign) =
        (storedExecuting,
         [some (GoError.wrapped (GoError.raised 3) "update mailing"),
          some (GoError.wrapped (GoError.raised 3) "insert into mailing_stats")]) :=
  ⟨by decide, by decide, by decide, rfl, by decide,
   (C23_canceled_writes_on_done_context background 0 (fun count => 98 + (count : Int))
      { world := closingWritesFail, now := 5, sched := [0, 1, 0, 1] } campaign 101 102
      strictExec (GoError.raised 3) storedExecuting
      (by decide) (by decide) (by decide) rfl).2.2.2.1,
   (C23_canceled_writes_on_done_context background 0 (fun count => 98 + (count : Int))
      { world := closingWritesFail, now := 5, sched := [0, 1, 0, 1] } campaign 101 102
      strictExec (GoError.raised 3) storedExecuting
      (by decide) (by decide) (by decide) rfl).2.2.2.2.2.1⟩

/-- C24 (run in which the waits of a dispatch differ from its failed attempts): in
scenario B every Transport attempt for recipient 0 succeeds; under the schedule
`[0,0,0,1,1,1,0,1]` dispatcher 0 makes two attempts, none of which fails, and waits
once. -/
theorem C24_wait_without_failed_attempt :
    (∀ a, scenarioB.send 0 a = none) ∧
      failedAttempts scenarioB 0 (mail scenarioB campaign [0, 0, 0, 1, 1, 1, 0, 1]).trace = 0 ∧
      waitsOf 0 (mail scenarioB campaign [0, 0, 0, 1, 1, 1, 0, 1]).trace = 1 := by
  refine ⟨fun _ => rfl, by decide, by decide⟩

end MailingService
